import Mathlib

/-! # A line-numbered BASIC interpreter: shallow embedding and verified properties

The embedding follows `src/Basic/Basic.cpp` (the line dispatcher `processLine` with its
RUN and LIST loops) and `src/Basic/statement.cpp` (the seven statement classes and
`parseStatement`).  The classes `Program`, `EvalState`, `Expression`, the expression
parser and the helpers of `Utils/` are used by those two files but their code is not
part of these two files; each of them is modelled from the specification and is marked
as such in its doc comment.

Conventions.
* An input line is presented as its raw text together with the token sequence the
  external scanner yields for it (`InputLine`).
* Standard output is a list of write events (`Output`), standard input a list of
  pending lines.
* A C++ exception is an `Outcome.error` that carries the machine as it was when the
  exception was thrown: `Program` and `EvalState` are passed by reference, so what was
  written before the throw stays written.
* Loops that the source runs until a sentinel is met take a fuel argument that bounds
  the number of iterations; `none` means that the fuel ran out.
-/

namespace Basic

/-! ## Errors, tokens, input lines, output events -/

/-- The four error kinds of the interpreter (`error("SYNTAX ERROR")`,
`error("LINE NUMBER ERROR")` in the sources, the two evaluation errors of §7). -/
inductive ErrorKind
  | SyntaxError
  | LineNumberError
  | UndefinedVariable
  | DivisionByZero
  deriving DecidableEq, Repr

/-- Modelled from the spec: the token classes of the external scanner (§1 "typed
tokens"; `Utils/tokenScanner` is absent). `processLine` tests for `NUMBER`; the
expression parser tells words from numbers. -/
inductive TokenType
  | WORD
  | NUMBER
  | OPERATOR
  deriving DecidableEq, Repr

/-- Modelled from the spec: a token as delivered by the external scanner, its text
(what `nextToken` returns) and the class `getTokenType` assigns to that text. -/
structure Token where
  text : String
  type : TokenType
  deriving DecidableEq, Repr

/-- One line of user input: the raw text and the tokens the scanner (white space
ignored, numbers scanned) splits it into. -/
structure InputLine where
  text : String
  tokens : List Token
  deriving DecidableEq, Repr

/-- One write to standard output. `number v` is `std::cout << v << std::endl` of an
`int`, `line s` is `std::cout << s << std::endl` of a string, `prompt` is the
`" ? "` written by INPUT without a line break. -/
inductive Output
  | number (v : Int)
  | line (s : String)
  | prompt
  deriving DecidableEq, Repr

/-! ## Expressions and the variable environment (modelled from the specification) -/

/-- The four arithmetic operators of §3. -/
inductive BinOp
  | add
  | sub
  | mul
  | div
  deriving DecidableEq, Repr

/-- Modelled from the spec: the `Expression` class hierarchy (`exp.hpp` is absent).
§3: a constant, a variable reference, or a binary arithmetic operation. -/
inductive Expression
  | Constant (value : Int)
  | Variable (name : String)
  | BinaryOp (op : BinOp) (left right : Expression)
  deriving DecidableEq, Repr

/-- Modelled from the spec: the class `EvalState` (absent). §3: a mapping from variable
name to integer value with no implicit default. -/
structure EvalState where
  bindings : List (String × Int)
  deriving DecidableEq, Repr

/-- Insert-or-overwrite on an association list, keeping one binding per name. -/
def setBinding (name : String) (value : Int) : List (String × Int) → List (String × Int)
  | [] => [(name, value)]
  | (k, w) :: rest =>
    if k = name then (name, value) :: rest else (k, w) :: setBinding name value rest

/-- Lookup in an association list. -/
def getBinding (name : String) : List (String × Int) → Option Int
  | [] => none
  | (k, w) :: rest => if k = name then some w else getBinding name rest

/-- Modelled from the spec: `EvalState::getValue` (absent). §4.2 `get(name)`; `none`
stands for the `UndefinedVariable` case. -/
def EvalState.getValue (s : EvalState) (name : String) : Option Int :=
  getBinding name s.bindings

/-- Modelled from the spec: `EvalState::setValue` (absent). §4.2 `set(name, value)`
(insert or overwrite). -/
def EvalState.setValue (s : EvalState) (name : String) (value : Int) : EvalState :=
  ⟨setBinding name value s.bindings⟩

/-- Modelled from the spec: `EvalState::Clear` (absent). §4.2 `clear()` removes all
bindings. -/
def EvalState.Clear (_s : EvalState) : EvalState :=
  ⟨[]⟩

/-- Applying an operator to two evaluated operands; the quotient truncates towards
zero as C++ `/` does, and a zero divisor fails with `DivisionByZero` (§4.1). The
integers are unbounded: §4.1 speaks of integers, and overflow of C++ `int`
arithmetic has no defined result to model. -/
def applyOp : BinOp → Int → Int → Except ErrorKind Int
  | .add, a, b => .ok (a + b)
  | .sub, a, b => .ok (a - b)
  | .mul, a, b => .ok (a * b)
  | .div, a, b => if b = 0 then .error .DivisionByZero else .ok (Int.tdiv a b)

/-- Modelled from the spec: `Expression::eval` (absent). §4.1: a constant returns its
value, a variable is looked up and fails with `UndefinedVariable` when unset, a
binary operation evaluates the left operand, then the right one, then applies the
operator. -/
def Expression.eval : Expression → EvalState → Except ErrorKind Int
  | .Constant v, _ => .ok v
  | .Variable name, s =>
    match s.getValue name with
    | some v => .ok v
    | none => .error .UndefinedVariable
  | .BinaryOp op l r, s =>
    match l.eval s with
    | .error e => .error e
    | .ok a =>
      match r.eval s with
      | .error e => .error e
      | .ok b => applyOp op a b

/-! ## Number conversion -/

/-- Value of a string of decimal digits read left to right, `none` when a character
is not a digit. -/
def digitsValue : List Char → Nat → Option Nat
  | [], acc => some acc
  | c :: cs, acc =>
    if c.isDigit then digitsValue cs (10 * acc + (c.toNat - 48)) else none

/-- Largest value of a C++ `int`. -/
def INT_MAX : Int := 2147483647

/-- Smallest value of a C++ `int`. -/
def INT_MIN : Int := -2147483648

/-- Modelled from the spec: `stringToInteger` of `Utils/strlib` (absent), applied to one
scanner token. §4.3 and §4.5 ask for an integer line number and let a malformed
tail fail with `SyntaxError`: a non-empty run of decimal digits whose value fits an
`int` converts, any other token fails. -/
def stringToInteger (str : String) : Except ErrorKind Int :=
  match str.data with
  | [] => .error .SyntaxError
  | c :: cs =>
    match digitsValue (c :: cs) 0 with
    | some n => if (n : Int) ≤ INT_MAX then .ok (n : Int) else .error .SyntaxError
    | none => .error .SyntaxError

/-- White space as `isspace` sees it in the C locale. -/
def isSpaceChar (c : Char) : Bool :=
  c = ' ' || c = '\t' || c = '\n' || c = '\r' || c.toNat = 11 || c.toNat = 12

/-- The test `InputStmt::execute` applies to one line read from standard input:
`std::stringstream ss(line); ss >> value; !ss.fail() && ss.eof()`. The extraction
skips leading white space, reads an optional sign and a non-empty run of digits,
fails when the value does not fit an `int`, and has met the end of the stream only
when the digits run up to the end of the line. -/
def parseInputNumber (line : String) : Option Int :=
  let body := line.data.dropWhile isSpaceChar
  let signed : Bool × List Char :=
    match body with
    | '-' :: r => (true, r)
    | '+' :: r => (false, r)
    | r => (false, r)
  match signed.2 with
  | [] => none
  | c :: cs =>
    match digitsValue (c :: cs) 0 with
    | none => none
    | some n =>
      let v : Int := if signed.1 then -(n : Int) else (n : Int)
      if INT_MIN ≤ v ∧ v ≤ INT_MAX then some v else none

/-! ## The expression parser (modelled from the specification) -/

/-- Modelled from the spec: `TokenScanner::nextToken` (the scanner is an external
collaborator, §1, and `Utils/tokenScanner` is absent): the text of the next token
and the tokens left; asked for a token when none is left, the scanner returns the
empty string. -/
def nextToken : List Token → String × List Token
  | [] => ("", [])
  | t :: rest => (t.text, rest)

mutual

/-- Modelled from the spec: the expression level of the parser (`parser.hpp` is absent).
§4.1: recursive descent, `+ -` bind lowest. An expression is a term followed by
any number of `+ term` or `- term`, grouped to the left. -/
def readE : Nat → List Token → Except ErrorKind (Expression × List Token)
  | 0, _ => .error .SyntaxError
  | fuel + 1, toks =>
    match readT fuel toks with
    | .error e => .error e
    | .ok (lhs, rest) => readERest fuel lhs rest

/-- Modelled from the spec: the tail of an expression after its first term. -/
def readERest : Nat → Expression → List Token → Except ErrorKind (Expression × List Token)
  | 0, _, _ => .error .SyntaxError
  | _ + 1, lhs, [] => .ok (lhs, [])
  | fuel + 1, lhs, t :: rest =>
    if t.text = "+" then
      match readT fuel rest with
      | .error e => .error e
      | .ok (rhs, rest1) => readERest fuel (.BinaryOp .add lhs rhs) rest1
    else if t.text = "-" then
      match readT fuel rest with
      | .error e => .error e
      | .ok (rhs, rest1) => readERest fuel (.BinaryOp .sub lhs rhs) rest1
    else .ok (lhs, t :: rest)

/-- Modelled from the spec: the term level, `* /` bind tighter than `+ -`. A term is a
factor followed by any number of `* factor` or `/ factor`, grouped to the left. -/
def readT : Nat → List Token → Except ErrorKind (Expression × List Token)
  | 0, _ => .error .SyntaxError
  | fuel + 1, toks =>
    match readF fuel toks with
    | .error e => .error e
    | .ok (lhs, rest) => readTRest fuel lhs rest

/-- Modelled from the spec: the tail of a term after its first factor. -/
def readTRest : Nat → Expression → List Token → Except ErrorKind (Expression × List Token)
  | 0, _, _ => .error .SyntaxError
  | _ + 1, lhs, [] => .ok (lhs, [])
  | fuel + 1, lhs, t :: rest =>
    if t.text = "*" then
      match readF fuel rest with
      | .error e => .error e
      | .ok (rhs, rest1) => readTRest fuel (.BinaryOp .mul lhs rhs) rest1
    else if t.text = "/" then
      match readF fuel rest with
      | .error e => .error e
      | .ok (rhs, rest1) => readTRest fuel (.BinaryOp .div lhs rhs) rest1
    else .ok (lhs, t :: rest)

/-- Modelled from the spec: the factor level. Unary minus and parentheses bind tightest;
identifiers and integer literals are the terminals. §3 has no node for negation, so
`- f` is built as `0 - f`. -/
def readF : Nat → List Token → Except ErrorKind (Expression × List Token)
  | 0, _ => .error .SyntaxError
  | _ + 1, [] => .error .SyntaxError
  | fuel + 1, t :: rest =>
    if t.type = .NUMBER then
      match stringToInteger t.text with
      | .error e => .error e
      | .ok v => .ok (.Constant v, rest)
    else if t.type = .WORD then .ok (.Variable t.text, rest)
    else if t.text = "-" then
      match readF fuel rest with
      | .error e => .error e
      | .ok (f, rest1) => .ok (.BinaryOp .sub (.Constant 0) f, rest1)
    else if t.text = "(" then
      match readE fuel rest with
      | .error e => .error e
      | .ok (e, rest1) =>
        match rest1 with
        | c :: rest2 => if c.text = ")" then .ok (e, rest2) else .error .SyntaxError
        | [] => .error .SyntaxError
    else .error .SyntaxError

end

/-- Modelled from the spec: `parseExp` (absent). It reads the longest expression at
the head of the token stream and leaves the rest to its caller, as the IF branch
of `parseStatement` needs; any malformed sequence fails with `SyntaxError` (§4.1).
The descent is bounded in depth; the bound grows with the number of tokens and
`parseExp_fuel_enough` shows that a larger one never changes the result. -/
def parseExp (scanner : List Token) : Except ErrorKind (Expression × List Token) :=
  readE (4 * scanner.length + 4) scanner

/-! ## Statements -/

/-- The statement classes of `statement.cpp`, with the fields of each class. The
operator of `IfStmt` is kept as the string the class stores. -/
inductive Statement
  | RemStmt
  | LetStmt (var : String) (exp : Expression)
  | PrintStmt (exp : Expression)
  | InputStmt (var : String)
  | GotoStmt (lineNumber : Int)
  | IfStmt (lhs rhs : Expression) (op : String) (lineNumber : Int)
  | EndStmt
  deriving DecidableEq, Repr

/-! ## The program store (modelled from the specification) -/

/-- Modelled from the spec: one entry of the class `Program` (`program.hpp` is absent).
§3 `ProgramEntry`: the line number, the raw source text and the optional parsed
statement. -/
structure ProgramEntry where
  lineNumber : Int
  sourceText : String
  parsed : Option Statement
  deriving DecidableEq, Repr

/-- Modelled from the spec: the class `Program` (absent). §3: the entries in ascending
order of line number and the three control registers, which `statement.cpp` and
`Basic.cpp` access as the public members `shouldJump`, `jumpTarget`,
`currentLine`. -/
structure Program where
  entries : List ProgramEntry
  shouldJump : Bool
  jumpTarget : Int
  currentLine : Int
  deriving DecidableEq, Repr

/-- Modelled from the spec: the table update behind `Program::addSourceLine`, an
ordered upsert of a source text. The entry written has no parsed statement: §4.5
says that after `addOrReplaceLine` a failed parse leaves "the source_text stored but
no parsed statement", so the parsed form an older entry had does not survive the
upsert; it is attached again by `setParsedStatement`. -/
def upsertLine (n : Int) (text : String) : List ProgramEntry → List ProgramEntry
  | [] => [⟨n, text, none⟩]
  | e :: es =>
    if n < e.lineNumber then ⟨n, text, none⟩ :: e :: es
    else if n = e.lineNumber then ⟨n, text, none⟩ :: es
    else e :: upsertLine n text es

/-- Modelled from the spec: the table update behind `Program::setParsedStatement`,
which replaces the parsed statement of the entry with line number `n`, if there
is one. -/
def attachParsed (n : Int) (stmt : Statement) : List ProgramEntry → List ProgramEntry
  | [] => []
  | e :: es =>
    if e.lineNumber = n then ⟨e.lineNumber, e.sourceText, some stmt⟩ :: es
    else e :: attachParsed n stmt es

/-- Modelled from the spec: lookup in the table of `Program`, the entry stored for
line `n`, if any. -/
def findEntry (n : Int) (es : List ProgramEntry) : Option ProgramEntry :=
  es.find? (fun e => decide (e.lineNumber = n))

/-- Modelled from the spec: `Program::addSourceLine` (absent). §4.4
`addOrReplaceLine(line_number, source_text)`: upsert the entry's source text. -/
def Program.addSourceLine (p : Program) (n : Int) (text : String) : Program :=
  { p with entries := upsertLine n text p.entries }

/-- Modelled from the spec: `Program::removeSourceLine` (absent). §4.4 `removeLine`:
delete the entry if present, no-op otherwise. -/
def Program.removeSourceLine (p : Program) (n : Int) : Program :=
  { p with entries := p.entries.filter (fun e => decide (e.lineNumber ≠ n)) }

/-- Modelled from the spec: `Program::setParsedStatement` (absent). §4.4: attach or
replace the parsed form of an existing entry. -/
def Program.setParsedStatement (p : Program) (n : Int) (stmt : Statement) : Program :=
  { p with entries := attachParsed n stmt p.entries }

/-- Modelled from the spec: `Program::getParsedStatement` (absent). §4.4; `none` is the
null pointer the RUN loop tests for. -/
def Program.getParsedStatement (p : Program) (n : Int) : Option Statement :=
  match findEntry n p.entries with
  | some e => e.parsed
  | none => none

/-- Modelled from the spec: `Program::getSourceLine` (absent). §4.4 `getSourceText`; the
callers in `statement.cpp` test the returned string with `.empty()`, so a missing
line is the empty string. -/
def Program.getSourceLine (p : Program) (n : Int) : String :=
  match findEntry n p.entries with
  | some e => e.sourceText
  | none => ""

/-- The line number at the head of a list of entries, `-1` for the empty list. -/
def headLine : List ProgramEntry → Int
  | [] => -1
  | e :: _ => e.lineNumber

/-- Modelled from the spec: `Program::getFirstLineNumber` (absent). §4.4 `firstLine()`;
the loops of `processLine` compare the result with `-1`, the value for "no line". -/
def Program.getFirstLineNumber (p : Program) : Int :=
  headLine p.entries

/-- Modelled from the spec: `Program::getNextLineNumber` (absent). §4.4
`nextLine(after)`: the first line number above `n` in the ascending traversal, `-1`
when there is none. -/
def Program.getNextLineNumber (p : Program) (n : Int) : Int :=
  match p.entries.find? (fun e => decide (n < e.lineNumber)) with
  | some e => e.lineNumber
  | none => -1

/-- Modelled from the spec: `Program::clear` (absent). §4.4: empty the store and reset
the control registers. -/
def Program.clear (_p : Program) : Program :=
  ⟨[], false, -1, -1⟩

/-- Modelled from the spec: the program object `main` starts with (the constructor
of `Program` is absent): no line, registers at rest. -/
def Program.empty : Program :=
  ⟨[], false, -1, -1⟩

/-! ## The machine -/

/-- Everything a statement or an input line can read or write: the variable
environment and the program (both passed by reference in the sources), what has
been written to standard output, and the lines still pending on standard input. -/
structure Machine where
  state : EvalState
  program : Program
  output : List Output
  input : List String
  deriving DecidableEq, Repr

/-- The machine `main` starts with, given the lines pending on standard input. -/
def Machine.initial (input : List String) : Machine :=
  ⟨⟨[]⟩, Program.empty, [], input⟩

/-- How a call ends: normal return, an `ErrorException` (with the machine as left at
the throw), `exit(0)`, or a loop that never ends (INPUT at the end of standard
input). -/
inductive Outcome
  | ok (m : Machine)
  | error (e : ErrorKind) (m : Machine)
  | exit (m : Machine)
  | hang
  deriving DecidableEq, Repr

/-- The machine an outcome leaves behind for the next input line, when there is one. -/
def Outcome.machine : Outcome → Option Machine
  | .ok m => some m
  | .error _ m => some m
  | .exit _ => none
  | .hang => none

/-! ## Parsing statements (`statement.cpp`) -/

/-- The thirteen words the LET and INPUT branches of `parseStatement` refuse as a
variable name. -/
def isReservedWord (var : String) : Bool :=
  var = "REM" || var = "LET" || var = "PRINT" || var = "INPUT" ||
  var = "END" || var = "GOTO" || var = "IF" || var = "THEN" ||
  var = "RUN" || var = "LIST" || var = "CLEAR" || var = "QUIT" || var = "HELP"

/-- The function `parseStatement(scanner, type)`: `scanner` holds the tokens after
the statement keyword `type`. -/
def parseStatement (scanner : List Token) (type : String) : Except ErrorKind Statement :=
  if type = "REM" then .ok .RemStmt
  else if type = "LET" then
    let (var, s1) := nextToken scanner
    if isReservedWord var then .error .SyntaxError
    else
      let (eq, s2) := nextToken s1
      if eq ≠ "=" then .error .SyntaxError
      else
        match parseExp s2 with
        | .error e => .error e
        | .ok (exp, _) => .ok (.LetStmt var exp)
  else if type = "PRINT" then
    match parseExp scanner with
    | .error e => .error e
    | .ok (exp, _) => .ok (.PrintStmt exp)
  else if type = "INPUT" then
    let (var, _) := nextToken scanner
    if isReservedWord var then .error .SyntaxError
    else .ok (.InputStmt var)
  else if type = "GOTO" then
    let (lineStr, _) := nextToken scanner
    match stringToInteger lineStr with
    | .error e => .error e
    | .ok lineNumber => .ok (.GotoStmt lineNumber)
  else if type = "IF" then
    match parseExp scanner with
    | .error e => .error e
    | .ok (lhs, s1) =>
      let (op, s2) := nextToken s1
      if op ≠ "=" ∧ op ≠ "<" ∧ op ≠ ">" then .error .SyntaxError
      else
        match parseExp s2 with
        | .error e => .error e
        | .ok (rhs, s3) =>
          let (thenTok, s4) := nextToken s3
          if thenTok ≠ "THEN" then .error .SyntaxError
          else
            let (lineStr, _) := nextToken s4
            match stringToInteger lineStr with
            | .error e => .error e
            | .ok lineNumber => .ok (.IfStmt lhs rhs op lineNumber)
  else if type = "END" then .ok .EndStmt
  else .error .SyntaxError

/-! ## Executing statements (`statement.cpp`) -/

/-- The reading loop of `InputStmt::execute`: lines are taken from standard input
until one passes `parseInputNumber`; every rejected line is answered with
`INVALID NUMBER` and a new prompt. At the end of standard input `getline` keeps
yielding the empty line, which is rejected for ever: `none`. -/
def readNumber : List String → List Output → Option (Int × List String × List Output)
  | [], _ => none
  | line :: rest, out =>
    match parseInputNumber line with
    | some value => some (value, rest, out)
    | none => readNumber rest (out ++ [.line "INVALID NUMBER", .prompt])

/-- The comparison of `IfStmt::execute`; an operator other than `=`, `<`, `>` leaves
the condition false. -/
def evalCondition (op : String) (leftValue rightValue : Int) : Bool :=
  if op = "=" then decide (leftValue = rightValue)
  else if op = "<" then decide (leftValue < rightValue)
  else if op = ">" then decide (leftValue > rightValue)
  else false

/-- The jump shared by `GotoStmt::execute` and the true branch of
`IfStmt::execute`: the existence test on the source text, then the two register
writes. -/
def requestJump (lineNumber : Int) (m : Machine) : Outcome :=
  if (m.program.getSourceLine lineNumber).isEmpty then .error .LineNumberError m
  else .ok { m with program := { m.program with shouldJump := true, jumpTarget := lineNumber } }

/-- The method `execute(state, program)` of the seven statement classes. -/
def execute : Statement → Machine → Outcome
  | .RemStmt, m => .ok m
  | .LetStmt var exp, m =>
    match exp.eval m.state with
    | .error e => .error e m
    | .ok value => .ok { m with state := m.state.setValue var value }
  | .PrintStmt exp, m =>
    match exp.eval m.state with
    | .error e => .error e m
    | .ok value => .ok { m with output := m.output ++ [.number value] }
  | .InputStmt var, m =>
    match readNumber m.input (m.output ++ [.prompt]) with
    | none => .hang
    | some (value, rest, out) =>
      .ok { m with state := m.state.setValue var value, output := out, input := rest }
  | .GotoStmt lineNumber, m => requestJump lineNumber m
  | .IfStmt lhs rhs op lineNumber, m =>
    match lhs.eval m.state with
    | .error e => .error e m
    | .ok leftValue =>
      match rhs.eval m.state with
      | .error e => .error e m
      | .ok rightValue =>
        if evalCondition op leftValue rightValue then requestJump lineNumber m
        else .ok m
  | .EndStmt, m =>
    .ok { m with program := { m.program with shouldJump := true, jumpTarget := -1 } }

/-! ## The line dispatcher (`Basic.cpp`) -/

/-- What one pass through the body of the RUN loop decides: go on with another
line, or leave the loop with an outcome. -/
inductive RunStep
  | next (line : Int) (m : Machine)
  | stop (o : Outcome)
  deriving DecidableEq, Repr

/-- The three register writes at the top of the body of the RUN loop. -/
def resetRegisters (currentLine : Int) (m : Machine) : Machine :=
  { m with program :=
      { m.program with shouldJump := false, jumpTarget := -1, currentLine := currentLine } }

/-- The statement part of the body of the RUN loop: with the registers reset, the
parsed statement of `currentLine` is executed; a line without a parsed statement
executes nothing. -/
def stepOutcome (currentLine : Int) (m : Machine) : Outcome :=
  match (resetRegisters currentLine m).program.getParsedStatement currentLine with
  | some stmt => execute stmt (resetRegisters currentLine m)
  | none => .ok (resetRegisters currentLine m)

/-- The body of the RUN loop for the line `currentLine`: reset the registers, execute
the parsed statement if there is one, then read the registers. -/
def runStep (currentLine : Int) (m : Machine) : RunStep :=
  match stepOutcome currentLine m with
  | .ok m2 =>
    if m2.program.shouldJump then
      if m2.program.jumpTarget = -1 then .stop (.ok m2)
      else .next m2.program.jumpTarget m2
    else .next (m2.program.getNextLineNumber currentLine) m2
  | other => .stop other

/-- The RUN loop `while (currentLine != -1)`, at most `fuel` passes through its
body. -/
def runLoop (fuel : Nat) (currentLine : Int) (m : Machine) : Option Outcome :=
  if currentLine = -1 then some (.ok m)
  else
    match fuel with
    | 0 => none
    | fuel + 1 =>
      match runStep currentLine m with
      | .next line m2 => runLoop fuel line m2
      | .stop o => some o

/-- The line numbers whose statement the RUN loop executes, in order of execution
(at most `fuel` of them). This is a reading of `runLoop`, not part of the
interpreter. -/
def runTrace (fuel : Nat) (currentLine : Int) (m : Machine) : List Int :=
  if currentLine = -1 then []
  else
    match fuel with
    | 0 => []
    | fuel + 1 =>
      match runStep currentLine m with
      | .next line m2 => currentLine :: runTrace fuel line m2
      | .stop _ => [currentLine]

/-- The LIST loop, at most `fuel` passes through its body. -/
def listLoop (fuel : Nat) (currentLine : Int) (m : Machine) : Option Outcome :=
  if currentLine = -1 then some (.ok m)
  else
    match fuel with
    | 0 => none
    | fuel + 1 =>
      listLoop fuel (m.program.getNextLineNumber currentLine)
        { m with output := m.output ++ [.line (m.program.getSourceLine currentLine)] }

/-- The seven keywords `processLine` accepts after a line number. -/
def isStatementKeyword (stmtType : String) : Bool :=
  stmtType = "REM" || stmtType = "LET" || stmtType = "PRINT" ||
  stmtType = "INPUT" || stmtType = "GOTO" || stmtType = "IF" || stmtType = "END"

/-- The function `processLine(line, program, state)`. The statement scanner the
source sets up on `line.substr(line.find(stmtType))` and advances by one token
delivers the tokens that follow the keyword: the text before the keyword token
is a number and white space, so the first occurrence of the keyword is that
token. `fuel` bounds the passes of the RUN and LIST loops. -/
def processLine (fuel : Nat) (line : InputLine) (m : Machine) : Option Outcome :=
  match line.tokens with
  | [] => some (.ok m)
  | token :: rest =>
    if token.type = .NUMBER then
      match stringToInteger token.text with
      | .error e => some (.error e m)
      | .ok lineNumber =>
        match rest with
        | [] => some (.ok { m with program := m.program.removeSourceLine lineNumber })
        | stmtTok :: tail =>
          let m1 : Machine := { m with program := m.program.addSourceLine lineNumber line.text }
          if isStatementKeyword stmtTok.text then
            match parseStatement tail stmtTok.text with
            | .error e => some (.error e m1)
            | .ok stmt =>
              some (.ok { m1 with program := m1.program.setParsedStatement lineNumber stmt })
          else some (.error .SyntaxError m1)
    else if token.text = "RUN" then runLoop fuel m.program.getFirstLineNumber m
    else if token.text = "LIST" then listLoop fuel m.program.getFirstLineNumber m
    else if token.text = "CLEAR" then
      some (.ok { m with program := m.program.clear, state := m.state.Clear })
    else if token.text = "QUIT" then some (.exit m)
    else if token.text = "HELP" then some (.ok m)
    else if token.text = "LET" ∨ token.text = "PRINT" ∨ token.text = "INPUT" then
      match parseStatement rest token.text with
      | .error e => some (.error e m)
      | .ok stmt => some (execute stmt m)
    else some (.error .SyntaxError m)

/-! ## The store invariant -/

/-- Whether the store has an entry for line `n`. -/
def Program.hasLine (p : Program) (n : Int) : Prop :=
  ∃ e ∈ p.entries, e.lineNumber = n

/-- The invariant of the program store: the entries are strictly ascending by line
number, no line number is negative, and no stored source text is empty. -/
def Program.WF (p : Program) : Prop :=
  p.entries.Pairwise (fun a b => a.lineNumber < b.lineNumber) ∧
  ∀ e ∈ p.entries, 0 ≤ e.lineNumber ∧ e.sourceText ≠ ""

/-- The machines the interpreter can be in: the initial one; what an input line
processed by `main` leaves behind, after a normal return or after an error (`main`
skips empty lines, so the line processed has a text); and every machine that has
the store of such a machine. The last rule covers the machines a RUN passes
through and standard input being read: no statement writes the store, and the
environment, the registers, the output and the pending input carry no invariant. -/
inductive Reachable : Machine → Prop
  | initial (input : List String) : Reachable (Machine.initial input)
  | step {m m1 : Machine} (fuel : Nat) (line : InputLine) (o : Outcome) :
      Reachable m → line.text ≠ "" → processLine fuel line m = some o →
      o.machine = some m1 → Reachable m1
  | sameStore {m : Machine} (m1 : Machine) :
      Reachable m → m1.program.entries = m.program.entries → Reachable m1

/-- The machine END leaves behind in the RUN loop at line `cur`. -/
def endMachine (cur : Int) (m : Machine) : Machine :=
  { m with program := { m.program with shouldJump := true, jumpTarget := -1, currentLine := cur } }

/-! ## Sample inputs -/

/-- A NUMBER token. -/
def numberToken (s : String) : Token := ⟨s, .NUMBER⟩

/-- A WORD token. -/
def wordToken (s : String) : Token := ⟨s, .WORD⟩

/-- An OPERATOR token. -/
def operatorToken (s : String) : Token := ⟨s, .OPERATOR⟩

/-- The input line `RUN`. -/
def runLine : InputLine := ⟨"RUN", [wordToken "RUN"]⟩

/-- The input line `LIST`. -/
def listLine : InputLine := ⟨"LIST", [wordToken "LIST"]⟩

/-- The input line `10 PRINT 1`. -/
def line10Print1 : InputLine :=
  ⟨"10 PRINT 1", [numberToken "10", wordToken "PRINT", numberToken "1"]⟩

/-- The input line `20 END`. -/
def line20End : InputLine := ⟨"20 END", [numberToken "20", wordToken "END"]⟩

/-- The input line `30 PRINT 2`. -/
def line30Print2 : InputLine :=
  ⟨"30 PRINT 2", [numberToken "30", wordToken "PRINT", numberToken "2"]⟩

/-- The machine after `10 PRINT 1`, `20 END`, `30 PRINT 2` have been entered. -/
def printEndPrint : Machine :=
  ⟨⟨[]⟩,
   ⟨[⟨10, "10 PRINT 1", some (.PrintStmt (.Constant 1))⟩,
     ⟨20, "20 END", some .EndStmt⟩,
     ⟨30, "30 PRINT 2", some (.PrintStmt (.Constant 2))⟩], false, -1, -1⟩,
   [], []⟩

/-- The machine `printEndPrint` after RUN has executed its line 10. -/
def afterPrint1 : Machine :=
  { printEndPrint with
    program := { printEndPrint.program with currentLine := 10 },
    output := [.number 1] }

/-- The input line `10 PRINT 1+2*3`. -/
def line10PrintSum : InputLine :=
  ⟨"10 PRINT 1+2*3",
    [numberToken "10", wordToken "PRINT", numberToken "1", operatorToken "+",
      numberToken "2", operatorToken "*", numberToken "3"]⟩

/-- The expression `1+2*3` as the parser builds it. -/
def sumExpression : Expression :=
  .BinaryOp .add (.Constant 1) (.BinaryOp .mul (.Constant 2) (.Constant 3))

/-- The input line `20`, a bare line number. -/
def line20Bare : InputLine := ⟨"20", [numberToken "20"]⟩

/-- The input line `40`, a bare line number. -/
def line40Bare : InputLine := ⟨"40", [numberToken "40"]⟩

/-! ## Sequences of input lines -/

/-- The line number a numbered line with content enters into the store; `none` for
every other input line. -/
def enteredLineNumber (line : InputLine) : Option Int :=
  match line.tokens with
  | tok :: _ :: _ =>
    if tok.type = .NUMBER then
      match stringToInteger tok.text with
      | .ok n => some n
      | .error _ => none
    else none
  | _ => none

/-- Processing a sequence of input lines one after the other, as the loop of `main`
does: after a normal return and after an error alike, the next line is processed
on the machine left behind. `none` when a line does not return. -/
def enterLines (fuel : Nat) : List InputLine → Machine → Option Machine
  | [], m => some m
  | line :: rest, m =>
    match processLine fuel line m with
    | some o =>
      match o.machine with
      | some m1 => enterLines fuel rest m1
      | none => none
    | none => none

/-- The text of the last line of a sequence that enters line number `n`. -/
def lastEntered (n : Int) : List InputLine → Option String
  | [] => none
  | line :: rest =>
    match lastEntered n rest with
    | some text => some text
    | none => if enteredLineNumber line = some n then some line.text else none

/-- The input lines `30 PRINT 2`, `10 PRINT 1`, `20 END`, entered in this order. -/
def shuffledLines : List InputLine := [line30Print2, line10Print1, line20End]

/-- The lines the LIST loop writes, as a function of the program alone. This is a
reading of `listLoop`, not part of the interpreter. -/
def listLines (fuel : Nat) (currentLine : Int) (p : Program) : Option (List Output) :=
  if currentLine = -1 then some []
  else
    match fuel with
    | 0 => none
    | fuel + 1 =>
      match listLines fuel (p.getNextLineNumber currentLine) p with
      | some lines => some (.line (p.getSourceLine currentLine) :: lines)
      | none => none

/-- The input line `PRINT 5+5`, without a line number. -/
def linePrintFivePlusFive : InputLine :=
  ⟨"PRINT 5+5", [wordToken "PRINT", numberToken "5", operatorToken "+", numberToken "5"]⟩

/-- The input line `CLEAR`. -/
def clearLine : InputLine := ⟨"CLEAR", [wordToken "CLEAR"]⟩

/-- The machine `printEndPrint` with the variable `X` bound to 4. -/
def printEndPrintWithX : Machine :=
  { printEndPrint with state := ⟨[("X", 4)]⟩ }

/-- The input line `10 FOO`: a line number followed by an unknown keyword. -/
def line10Foo : InputLine := ⟨"10 FOO", [numberToken "10", wordToken "FOO"]⟩

/-- The arithmetic operator an operator token stands for. -/
def operatorOf (text : String) : BinOp :=
  if text = "+" then .add
  else if text = "-" then .sub
  else if text = "*" then .mul
  else .div

/-- The initial machine after `10 PRINT 1+2*3` has been entered. -/
def printSumStored : Machine :=
  ⟨⟨[]⟩, ⟨[⟨10, "10 PRINT 1+2*3", some (.PrintStmt sumExpression)⟩], false, -1, -1⟩, [], []⟩

/-! ## The loop of `main`, paths of the RUN loop -/

/-- The body of the loop of `main` for a line read from standard input: an empty line
is skipped; otherwise the line is processed, and an `ErrorException` is caught and
its message written as one line, after which the session goes on. `message` is the
text an exception of each kind carries (`SYNTAX ERROR` and `LINE NUMBER ERROR` in
`Basic.cpp` and `statement.cpp`; the texts of the two evaluation errors are set in
the absent expression code, so the table is a parameter). -/
def mainStep (message : ErrorKind → String) (fuel : Nat) (line : InputLine) (m : Machine) :
    Option Outcome :=
  if line.text.isEmpty then some (.ok m)
  else
    match processLine fuel line m with
    | some (.error e m1) => some (.ok { m1 with output := m1.output ++ [.line (message e)] })
    | other => other

/-- The RUN loop, started on line `cur` with machine `m`, arrives on line `k` with
machine `mk` after having executed, in this order, the lines `pre`: every pass
before the arrival ended with "go on with another line". -/
inductive RunsTo : Int → Machine → List Int → Int → Machine → Prop
  | here (cur : Int) (m : Machine) : RunsTo cur m [] cur m
  | step {cur line k : Int} {m m2 mk : Machine} {pre : List Int} :
      cur ≠ -1 → runStep cur m = .next line m2 → RunsTo line m2 pre k mk →
      RunsTo cur m (cur :: pre) k mk

/-- Whether an expression contains a division. -/
def Expression.hasDivision : Expression → Bool
  | .Constant _ => false
  | .Variable _ => false
  | .BinaryOp op l r => decide (op = .div) || l.hasDivision || r.hasDivision

/-- The statements that neither jump nor read input: REM, LET, PRINT and END. -/
def Statement.isSequential : Statement → Bool
  | .RemStmt => true
  | .LetStmt _ _ => true
  | .PrintStmt _ => true
  | .EndStmt => true
  | _ => false

/-- A program whose parsed statements are all REM, LET, PRINT or END. -/
def Program.isSequential (p : Program) : Prop :=
  ∀ e ∈ p.entries, ∀ stmt, e.parsed = some stmt → stmt.isSequential = true

/-- The thirteen reserved words. -/
def reservedWords : List String :=
  ["REM", "LET", "PRINT", "INPUT", "END", "GOTO", "IF", "THEN", "RUN", "LIST", "CLEAR",
    "QUIT", "HELP"]

/-- The input line `LET PRINT = 5`, without a line number. -/
def lineLetPrint : InputLine :=
  ⟨"LET PRINT = 5",
    [wordToken "LET", wordToken "PRINT", operatorToken "=", numberToken "5"]⟩

/-- The input line `GOTO 10`, without a line number. -/
def lineImmediateGoto : InputLine :=
  ⟨"GOTO 10", [wordToken "GOTO", numberToken "10"]⟩

/-- The input line `END`, without a line number. -/
def lineImmediateEnd : InputLine := ⟨"END", [wordToken "END"]⟩

/-- What INPUT writes for lines it rejects: for each of them `INVALID NUMBER` and a new
prompt. -/
def rejectedLines : List String → List Output
  | [] => []
  | _ :: rest => .line "INVALID NUMBER" :: .prompt :: rejectedLines rest

/-- A message table for `mainStep`: `SYNTAX ERROR` and `LINE NUMBER ERROR` are the
texts of `Basic.cpp` and `statement.cpp`; the texts of the two evaluation errors are
set in the absent expression code and stand here as examples. -/
def sampleMessage : ErrorKind → String
  | .SyntaxError => "SYNTAX ERROR"
  | .LineNumberError => "LINE NUMBER ERROR"
  | .UndefinedVariable => "VARIABLE NOT DEFINED"
  | .DivisionByZero => "DIVIDE BY ZERO"

/-- The machine after `10 PRINT 1`, `20 GOTO 99`, `30 PRINT 2` have been entered, with
`X` bound to 4. -/
def printGotoMissingPrint : Machine :=
  ⟨⟨[("X", 4)]⟩,
   ⟨[⟨10, "10 PRINT 1", some (.PrintStmt (.Constant 1))⟩,
     ⟨20, "20 GOTO 99", some (.GotoStmt 99)⟩,
     ⟨30, "30 PRINT 2", some (.PrintStmt (.Constant 2))⟩], false, -1, -1⟩,
   [], []⟩

/-- The machine `printGotoMissingPrint` after RUN has executed its line 10. -/
def printGotoMissingPrintAt20 : Machine :=
  { printGotoMissingPrint with
    program := { printGotoMissingPrint.program with currentLine := 10 },
    output := [.number 1] }

/-- The expression `X+1`. -/
def xPlusOne : Expression := .BinaryOp .add (.Variable "X") (.Constant 1)

/-- The input line `10 GOTO 20`. -/
def line10Goto20 : InputLine :=
  ⟨"10 GOTO 20", [numberToken "10", wordToken "GOTO", numberToken "20"]⟩

/-- The input line `20 FOO`: a line number followed by an unknown keyword. -/
def line20Foo : InputLine := ⟨"20 FOO", [numberToken "20", wordToken "FOO"]⟩

/-- The machine after `10 GOTO 20`, `20 FOO`, `30 PRINT 2` have been entered: line 20
has its text stored and no parsed statement. -/
def gotoFooPrint : Machine :=
  ⟨⟨[]⟩,
   ⟨[⟨10, "10 GOTO 20", some (.GotoStmt 20)⟩,
     ⟨20, "20 FOO", none⟩,
     ⟨30, "30 PRINT 2", some (.PrintStmt (.Constant 2))⟩], false, -1, -1⟩,
   [], []⟩

/-- The machine `m` as a jump to line `t` requested on line `cur` of a RUN leaves
it. -/
def jumpMachine (cur t : Int) (m : Machine) : Machine :=
  { m with program :=
      { m.program with shouldJump := true, jumpTarget := t, currentLine := cur } }

/-- The machine after `10 GOTO 30`, `20 PRINT 1`, `30 PRINT 2`, `40 PRINT 3` have been
entered. -/
def gotoSkipPrint : Machine :=
  ⟨⟨[]⟩,
   ⟨[⟨10, "10 GOTO 30", some (.GotoStmt 30)⟩,
     ⟨20, "20 PRINT 1", some (.PrintStmt (.Constant 1))⟩,
     ⟨30, "30 PRINT 2", some (.PrintStmt (.Constant 2))⟩,
     ⟨40, "40 PRINT 3", some (.PrintStmt (.Constant 3))⟩], false, -1, -1⟩,
   [], []⟩

/-- The machine `m` with other values in the three control registers. -/
def withRegisters (shouldJump : Bool) (jumpTarget currentLine : Int) (m : Machine) :
    Machine :=
  { m with program :=
      { m.program with
        shouldJump := shouldJump, jumpTarget := jumpTarget, currentLine := currentLine } }

/-- The machine after `10 LET X = 1`, `20 PRINT X`, `30 END`, `40 PRINT 2` have been
entered. -/
def letPrintEndPrint : Machine :=
  ⟨⟨[]⟩,
   ⟨[⟨10, "10 LET X = 1", some (.LetStmt "X" (.Constant 1))⟩,
     ⟨20, "20 PRINT X", some (.PrintStmt (.Variable "X"))⟩,
     ⟨30, "30 END", some .EndStmt⟩,
     ⟨40, "40 PRINT 2", some (.PrintStmt (.Constant 2))⟩], false, -1, -1⟩,
   [], []⟩

/-- The input line `10 LET X = 1`. -/
def line10LetX1 : InputLine :=
  ⟨"10 LET X = 1",
    [numberToken "10", wordToken "LET", wordToken "X", operatorToken "=", numberToken "1"]⟩

/-- The input line `20 PRINT X`. -/
def line20PrintX : InputLine :=
  ⟨"20 PRINT X", [numberToken "20", wordToken "PRINT", wordToken "X"]⟩

/-- The input line `30 END`. -/
def line30End : InputLine := ⟨"30 END", [numberToken "30", wordToken "END"]⟩

/-- The input line `40 PRINT 2`. -/
def line40Print2 : InputLine :=
  ⟨"40 PRINT 2", [numberToken "40", wordToken "PRINT", numberToken "2"]⟩
/-! ## Lemmas on the store operations -/

/-- A converted token is never negative, so it is never the sentinel `-1`. -/
theorem stringToInteger_nonneg {s : String} {n : Int} (h : stringToInteger s = .ok n) : 0 ≤ n := by
  unfold stringToInteger at h
  split at h
  · cases h
  · split at h
    · split at h
      · cases h; exact Int.natCast_nonneg _
      · cases h
    · cases h

theorem mem_upsertLine {n : Int} {text : String} {es : List ProgramEntry} {e : ProgramEntry}
    (h : e ∈ upsertLine n text es) : e = ⟨n, text, none⟩ ∨ e ∈ es := by
  induction es with
  | nil => simp [upsertLine] at h; exact Or.inl h
  | cons a as ih =>
    unfold upsertLine at h
    split at h
    · rcases List.mem_cons.1 h with h | h
      · exact Or.inl h
      · exact Or.inr h
    · split at h
      · rcases List.mem_cons.1 h with h | h
        · exact Or.inl h
        · exact Or.inr (List.mem_cons_of_mem _ h)
      · rcases List.mem_cons.1 h with h | h
        · exact Or.inr (h ▸ List.mem_cons_self _ _)
        · rcases ih h with h | h
          · exact Or.inl h
          · exact Or.inr (List.mem_cons_of_mem _ h)

/-- The ordered upsert keeps the table strictly ascending. -/
theorem pairwise_upsertLine (n : Int) (text : String) {es : List ProgramEntry}
    (h : es.Pairwise (fun a b => a.lineNumber < b.lineNumber)) :
    (upsertLine n text es).Pairwise (fun a b => a.lineNumber < b.lineNumber) := by
  induction es with
  | nil => simp [upsertLine]
  | cons a as ih =>
    rw [List.pairwise_cons] at h
    unfold upsertLine
    split
    · rename_i hlt
      refine List.pairwise_cons.2 ⟨?_, List.pairwise_cons.2 h⟩
      intro b hb
      rcases List.mem_cons.1 hb with hb | hb
      · subst hb; exact hlt
      · exact lt_trans hlt (h.1 b hb)
    · split
      · rename_i heq
        refine List.pairwise_cons.2 ⟨?_, h.2⟩
        intro b hb
        simpa [heq] using h.1 b hb
      · rename_i hnlt hne
        refine List.pairwise_cons.2 ⟨?_, ih h.2⟩
        intro b hb
        rcases mem_upsertLine hb with hb | hb
        · subst hb; simp only; omega
        · exact h.1 b hb

theorem mem_attachParsed {n : Int} {stmt : Statement} {es : List ProgramEntry} {e : ProgramEntry}
    (h : e ∈ attachParsed n stmt es) :
    ∃ a ∈ es, e.lineNumber = a.lineNumber ∧ e.sourceText = a.sourceText := by
  induction es with
  | nil => simp [attachParsed] at h
  | cons a as ih =>
    unfold attachParsed at h
    split at h
    · rcases List.mem_cons.1 h with h | h
      · exact ⟨a, List.mem_cons_self _ _, by rw [h], by rw [h]⟩
      · exact ⟨e, List.mem_cons_of_mem _ h, rfl, rfl⟩
    · rcases List.mem_cons.1 h with h | h
      · exact ⟨a, List.mem_cons_self _ _, by rw [h], by rw [h]⟩
      · obtain ⟨b, hb, h1, h2⟩ := ih h
        exact ⟨b, List.mem_cons_of_mem _ hb, h1, h2⟩

theorem pairwise_attachParsed (n : Int) (stmt : Statement) {es : List ProgramEntry}
    (h : es.Pairwise (fun a b => a.lineNumber < b.lineNumber)) :
    (attachParsed n stmt es).Pairwise (fun a b => a.lineNumber < b.lineNumber) := by
  induction es with
  | nil => simp [attachParsed]
  | cons a as ih =>
    rw [List.pairwise_cons] at h
    unfold attachParsed
    split
    · exact List.pairwise_cons.2 ⟨fun b hb => h.1 b hb, h.2⟩
    · refine List.pairwise_cons.2 ⟨?_, ih h.2⟩
      intro b hb
      obtain ⟨c, hc, h1, _⟩ := mem_attachParsed hb
      rw [h1]; exact h.1 c hc

theorem Program.WF.addSourceLine {p : Program} (h : p.WF) {n : Int} (hn : 0 ≤ n)
    {text : String} (ht : text ≠ "") : (p.addSourceLine n text).WF := by
  refine ⟨pairwise_upsertLine n text h.1, ?_⟩
  intro e he
  rcases mem_upsertLine he with he | he
  · subst he; exact ⟨hn, ht⟩
  · exact h.2 e he

theorem Program.WF.setParsedStatement {p : Program} (h : p.WF) (n : Int) (stmt : Statement) :
    (p.setParsedStatement n stmt).WF := by
  refine ⟨pairwise_attachParsed n stmt h.1, ?_⟩
  intro e he
  obtain ⟨a, ha, h1, h2⟩ := mem_attachParsed he
  rw [h1, h2]; exact h.2 a ha

theorem Program.WF.removeSourceLine {p : Program} (h : p.WF) (n : Int) :
    (p.removeSourceLine n).WF := by
  refine ⟨List.Pairwise.filter _ h.1, ?_⟩
  intro e he
  exact h.2 e (List.mem_filter.1 he).1

theorem Program.WF.clear (p : Program) : p.clear.WF := by
  refine ⟨List.Pairwise.nil, ?_⟩
  intro e he
  cases he

/-! ## Frame lemmas: what execution leaves alone -/

theorem requestJump_entries {n : Int} {m m1 : Machine}
    (h : (requestJump n m).machine = some m1) :
    m1.program.entries = m.program.entries ∧ m1.state = m.state ∧ m1.output = m.output ∧
      m1.input = m.input := by
  unfold requestJump at h
  split at h <;> simp [Outcome.machine] at h <;> subst h <;> simp

/-- No statement writes the table of stored lines. -/
theorem execute_entries {stmt : Statement} {m m1 : Machine}
    (h : (execute stmt m).machine = some m1) : m1.program.entries = m.program.entries := by
  cases stmt with
  | RemStmt => simp [execute, Outcome.machine] at h; subst h; rfl
  | LetStmt var exp =>
    simp only [execute] at h
    split at h <;> simp [Outcome.machine] at h <;> subst h <;> rfl
  | PrintStmt exp =>
    simp only [execute] at h
    split at h <;> simp [Outcome.machine] at h <;> subst h <;> rfl
  | InputStmt var =>
    simp only [execute] at h
    split at h <;> simp [Outcome.machine] at h
    subst h; rfl
  | GotoStmt n => exact (requestJump_entries h).1
  | IfStmt lhs rhs op n =>
    simp only [execute] at h
    split at h
    · simp [Outcome.machine] at h; subst h; rfl
    · split at h
      · simp [Outcome.machine] at h; subst h; rfl
      · split at h
        · exact (requestJump_entries h).1
        · simp [Outcome.machine] at h; subst h; rfl
  | EndStmt => simp [execute, Outcome.machine] at h; subst h; rfl

theorem resetRegisters_entries (cur : Int) (m : Machine) :
    (resetRegisters cur m).program.entries = m.program.entries := rfl

theorem stepOutcome_entries {cur : Int} {m m1 : Machine}
    (h : (stepOutcome cur m).machine = some m1) : m1.program.entries = m.program.entries := by
  unfold stepOutcome at h
  split at h
  · exact (execute_entries h).trans (resetRegisters_entries cur m)
  · simp [Outcome.machine] at h; subst h; rfl

theorem runStep_next_entries {cur line : Int} {m m1 : Machine}
    (h : runStep cur m = .next line m1) : m1.program.entries = m.program.entries := by
  unfold runStep at h
  split at h
  · rename_i m2 hm2
    have : m2.program.entries = m.program.entries :=
      stepOutcome_entries (by rw [hm2]; rfl)
    split at h
    · split at h
      · cases h
      · cases h; exact this
    · cases h; exact this
  · cases h

theorem runStep_stop_entries {cur : Int} {m m1 : Machine} {o : Outcome}
    (h : runStep cur m = .stop o) (ho : o.machine = some m1) :
    m1.program.entries = m.program.entries := by
  unfold runStep at h
  split at h
  · rename_i m2 hm2
    have : m2.program.entries = m.program.entries :=
      stepOutcome_entries (by rw [hm2]; rfl)
    split at h
    · split at h
      · cases h; simp [Outcome.machine] at ho; subst ho; exact this
      · cases h
    · cases h
  · cases h; exact stepOutcome_entries ho

/-- RUN leaves the table of stored lines as it was, however it ends. -/
theorem runLoop_entries {fuel : Nat} {cur : Int} {m m1 : Machine} {o : Outcome}
    (h : runLoop fuel cur m = some o) (ho : o.machine = some m1) :
    m1.program.entries = m.program.entries := by
  induction fuel generalizing cur m with
  | zero =>
    unfold runLoop at h
    split at h
    · cases h; simp [Outcome.machine] at ho; subst ho; rfl
    · cases h
  | succ fuel ih =>
    unfold runLoop at h
    split at h
    · cases h; simp [Outcome.machine] at ho; subst ho; rfl
    · simp only at h
      split at h
      · rename_i line m2 hstep
        exact (ih h).trans (runStep_next_entries hstep)
      · rename_i o2 hstep
        cases h
        exact runStep_stop_entries hstep ho

/-- LIST only appends to the output. -/
theorem listLoop_frame {fuel : Nat} {cur : Int} {m : Machine} {o : Outcome}
    (h : listLoop fuel cur m = some o) :
    ∃ lines, o = .ok { m with output := m.output ++ lines } := by
  induction fuel generalizing cur m with
  | zero =>
    unfold listLoop at h
    split at h
    · cases h; exact ⟨[], by simp⟩
    · cases h
  | succ fuel ih =>
    unfold listLoop at h
    split at h
    · cases h; exact ⟨[], by simp⟩
    · simp only at h
      obtain ⟨lines, hl⟩ := ih h
      exact ⟨Output.line (m.program.getSourceLine cur) :: lines, by rw [hl]; simp⟩

/-- Every input line with a text keeps the invariant of the store. -/
theorem processLine_wf {fuel : Nat} {line : InputLine} {m m1 : Machine} {o : Outcome}
    (hwf : m.program.WF) (ht : line.text ≠ "") (h : processLine fuel line m = some o)
    (ho : o.machine = some m1) : m1.program.WF := by
  have keep : ∀ {a : Machine}, a.program.entries = m.program.entries → a.program.WF :=
    fun {a} ha => by unfold Program.WF; rw [ha]; exact hwf
  unfold processLine at h
  split at h
  · cases h; simp [Outcome.machine] at ho; subst ho; exact hwf
  · split at h
    · split at h
      · cases h; simp [Outcome.machine] at ho; subst ho; exact hwf
      · rename_i n hn
        split at h
        · cases h; simp [Outcome.machine] at ho; subst ho
          exact hwf.removeSourceLine n
        · simp only at h
          have hadd := hwf.addSourceLine (stringToInteger_nonneg hn) ht
          split at h
          · split at h
            · cases h; simp [Outcome.machine] at ho; subst ho; exact hadd
            · cases h; simp [Outcome.machine] at ho; subst ho
              exact hadd.setParsedStatement n _
          · cases h; simp [Outcome.machine] at ho; subst ho; exact hadd
    · split at h
      · exact keep (runLoop_entries h ho)
      · split at h
        · obtain ⟨lines, hl⟩ := listLoop_frame h
          subst hl; simp [Outcome.machine] at ho; subst ho; exact hwf
        · split at h
          · cases h; simp [Outcome.machine] at ho; subst ho
            exact Program.WF.clear m.program
          · split at h
            · cases h; simp [Outcome.machine] at ho
            · split at h
              · cases h; simp [Outcome.machine] at ho; subst ho; exact hwf
              · split at h
                · split at h
                  · cases h; simp [Outcome.machine] at ho; subst ho; exact hwf
                  · cases h; exact keep (execute_entries ho)
                · cases h; simp [Outcome.machine] at ho; subst ho; exact hwf

/-- The invariant of the store holds in every reachable machine. -/
theorem Reachable.wf {m : Machine} (h : Reachable m) : m.program.WF := by
  induction h with
  | initial input => exact ⟨List.Pairwise.nil, fun e he => by cases he⟩
  | step fuel line o _ ht hp ho ih => exact processLine_wf ih ht hp ho
  | sameStore m1 _ he ih => unfold Program.WF; rw [he]; exact ih

/-! ## Lemmas on the RUN loop -/

theorem getParsedStatement_congr {p q : Program} (h : p.entries = q.entries) (n : Int) :
    p.getParsedStatement n = q.getParsedStatement n := by
  unfold Program.getParsedStatement; rw [h]

theorem getSourceLine_congr {p q : Program} (h : p.entries = q.entries) (n : Int) :
    p.getSourceLine n = q.getSourceLine n := by
  unfold Program.getSourceLine; rw [h]

theorem getNextLineNumber_congr {p q : Program} (h : p.entries = q.entries) (n : Int) :
    p.getNextLineNumber n = q.getNextLineNumber n := by
  unfold Program.getNextLineNumber; rw [h]

theorem stepOutcome_parsed {cur : Int} {m : Machine} {stmt : Statement}
    (h : m.program.getParsedStatement cur = some stmt) :
    stepOutcome cur m = execute stmt (resetRegisters cur m) := by
  have h1 : (resetRegisters cur m).program.getParsedStatement cur = some stmt :=
    (getParsedStatement_congr (resetRegisters_entries cur m) cur).trans h
  unfold stepOutcome
  rw [h1]

theorem stepOutcome_unparsed {cur : Int} {m : Machine}
    (h : m.program.getParsedStatement cur = none) :
    stepOutcome cur m = .ok (resetRegisters cur m) := by
  have h1 : (resetRegisters cur m).program.getParsedStatement cur = none :=
    (getParsedStatement_congr (resetRegisters_entries cur m) cur).trans h
  unfold stepOutcome
  rw [h1]

theorem runStep_end {cur : Int} {m : Machine}
    (h : m.program.getParsedStatement cur = some .EndStmt) :
    runStep cur m = .stop (.ok (endMachine cur m)) := by
  unfold runStep
  rw [stepOutcome_parsed h]
  simp [execute, resetRegisters, endMachine]

theorem runLoop_end (fuel : Nat) {cur : Int} {m : Machine} (hc : cur ≠ -1)
    (h : m.program.getParsedStatement cur = some .EndStmt) :
    runLoop (fuel + 1) cur m = some (.ok (endMachine cur m)) ∧
      runTrace (fuel + 1) cur m = [cur] := by
  simp [runLoop, runTrace, hc, runStep_end h]

/-- An executed END line ends the trace of the RUN loop, and the loop returns
normally with the registers END wrote. -/
theorem runTrace_end_last (fuel : Nat) (cur : Int) (m : Machine) (k : Int)
    (hk : k ∈ runTrace fuel cur m) (h : m.program.getParsedStatement k = some .EndStmt) :
    ∃ pre m1, runTrace fuel cur m = pre ++ [k] ∧ k ∉ pre ∧
      runLoop fuel cur m = some (.ok (endMachine k m1)) ∧
      m1.program.entries = m.program.entries := by
  induction fuel generalizing cur m with
  | zero =>
    unfold runTrace at hk
    split at hk <;> simp at hk
  | succ fuel ih =>
    by_cases hc : cur = -1
    · simp [runTrace, hc] at hk
    · by_cases hck : cur = k
      · subst hck
        refine ⟨[], m, ?_, by simp, ?_, rfl⟩
        · simpa using (runLoop_end fuel hc h).2
        · exact (runLoop_end fuel hc h).1
      · cases hstep : runStep cur m with
        | next line m2 =>
          have he := runStep_next_entries hstep
          have hk2 : k ∈ runTrace fuel line m2 := by
            simp [runTrace, hc, hstep] at hk
            rcases hk with hk | hk
            · exact absurd hk.symm hck
            · exact hk
          obtain ⟨pre, m1, h1, h2, h3, h4⟩ :=
            ih line m2 hk2 ((getParsedStatement_congr he k).trans h)
          refine ⟨cur :: pre, m1, ?_, ?_, ?_, h4.trans he⟩
          · simp [runTrace, hc, hstep, h1]
          · simp [h2]; exact fun hkc => hck hkc.symm
          · simp [runLoop, hc, hstep, h3]
        | stop o =>
          simp [runTrace, hc, hstep] at hk
          exact absurd hk.symm hck

theorem processLine_run {fuel : Nat} {line : InputLine} {m : Machine} {tok : Token}
    {rest : List Token} (hl : line.tokens = tok :: rest) (hty : tok.type ≠ .NUMBER)
    (htx : tok.text = "RUN") :
    processLine fuel line m = runLoop fuel m.program.getFirstLineNumber m := by
  unfold processLine
  rw [hl]
  simp [hty, htx]

theorem processLine_runLine (fuel : Nat) (m : Machine) :
    processLine fuel runLine m = runLoop fuel m.program.getFirstLineNumber m := rfl

theorem processLine_listLine (fuel : Nat) (m : Machine) :
    processLine fuel listLine m = listLoop fuel m.program.getFirstLineNumber m := rfl

/-! ## Lookup in the store -/

theorem findEntry_none_iff {n : Int} {es : List ProgramEntry} :
    findEntry n es = none ↔ ∀ e ∈ es, e.lineNumber ≠ n := by
  unfold findEntry
  rw [List.find?_eq_none]
  simp

theorem findEntry_some {n : Int} {es : List ProgramEntry} {e : ProgramEntry}
    (h : findEntry n es = some e) : e ∈ es ∧ e.lineNumber = n := by
  unfold findEntry at h
  exact ⟨List.mem_of_find?_eq_some h, by simpa using List.find?_some h⟩

/-- In an ascending table every entry is the one found under its line number. -/
theorem findEntry_of_mem {es : List ProgramEntry}
    (hs : es.Pairwise (fun a b => a.lineNumber < b.lineNumber)) {e : ProgramEntry}
    (he : e ∈ es) : findEntry e.lineNumber es = some e := by
  induction es with
  | nil => cases he
  | cons a as ih =>
    rw [List.pairwise_cons] at hs
    rcases List.mem_cons.1 he with h | h
    · subst h; simp [findEntry]
    · have hlt := hs.1 e h
      have hne : ¬ a.lineNumber = e.lineNumber := by omega
      have := ih hs.2 h
      unfold findEntry at this ⊢
      rw [List.find?_cons]
      simp [hne, this]

theorem hasLine_iff_findEntry {p : Program} {n : Int} :
    p.hasLine n ↔ findEntry n p.entries ≠ none := by
  unfold Program.hasLine
  rw [Ne, findEntry_none_iff]
  push_neg
  rfl

theorem getSourceLine_of_not_hasLine {p : Program} {n : Int} (h : ¬ p.hasLine n) :
    p.getSourceLine n = "" := by
  have : findEntry n p.entries = none := by
    by_contra hc; exact h (hasLine_iff_findEntry.2 hc)
  simp [Program.getSourceLine, this]

theorem getSourceLine_of_hasLine {p : Program} (hwf : p.WF) {n : Int} (h : p.hasLine n) :
    p.getSourceLine n ≠ "" := by
  obtain ⟨e, he, hn⟩ := h
  have := findEntry_of_mem hwf.1 he
  rw [hn] at this
  simp only [Program.getSourceLine, this]
  exact (hwf.2 e he).2

/-- The test `.empty()` holds of the empty string only. -/
theorem string_isEmpty_iff (s : String) : s.isEmpty = true ↔ s = "" := by
  constructor
  · intro h
    have h1 : s.endPos = 0 := by simpa [String.isEmpty] using h
    have h2 : s.utf8ByteSize = 0 := by
      simpa [String.endPos, String.Pos.ext_iff] using h1
    have h3 : s.length = 0 := by
      cases s with
      | mk d =>
        cases d with
        | nil => rfl
        | cons c cs =>
          exfalso
          simp [String.utf8ByteSize, String.utf8ByteSize.go] at h2
          have := Char.utf8Size_pos c
          omega
    cases s with
    | mk d =>
      cases d with
      | nil => rfl
      | cons c cs => simp [String.length] at h3
  · intro h; subst h; rfl

/-- The next line in a store in ascending order: the least stored line number above
`cur`, and `-1` when no stored line number is above `cur`. -/
theorem getNextLineNumber_spec {p : Program} (hwf : p.WF) (cur : Int) :
    (p.getNextLineNumber cur = -1 ∧ ∀ e ∈ p.entries, e.lineNumber ≤ cur) ∨
    (p.hasLine (p.getNextLineNumber cur) ∧ cur < p.getNextLineNumber cur ∧
      ∀ e ∈ p.entries, cur < e.lineNumber → p.getNextLineNumber cur ≤ e.lineNumber) := by
  obtain ⟨hs, _⟩ := hwf
  unfold Program.getNextLineNumber Program.hasLine
  generalize p.entries = es at hs
  induction es with
  | nil => left; simp
  | cons a as ih =>
    rw [List.pairwise_cons] at hs
    by_cases hlt : cur < a.lineNumber
    · right
      have hfind : (a :: as).find? (fun e => decide (cur < e.lineNumber)) = some a := by
        simp [List.find?_cons, hlt]
      rw [hfind]
      refine ⟨⟨a, List.mem_cons_self _ _, rfl⟩, hlt, ?_⟩
      intro e he _
      rcases List.mem_cons.1 he with h | h
      · rw [h]
      · exact le_of_lt (hs.1 e h)
    · have hfind : (a :: as).find? (fun e => decide (cur < e.lineNumber)) =
          as.find? (fun e => decide (cur < e.lineNumber)) := by
        simp [List.find?_cons, hlt]
      rw [hfind]
      rcases ih hs.2 with ⟨h1, h2⟩ | ⟨⟨e, he, h1⟩, h2, h3⟩
      · left
        refine ⟨h1, ?_⟩
        intro e he
        rcases List.mem_cons.1 he with h | h
        · rw [h]; omega
        · exact h2 e h
      · right
        refine ⟨⟨e, List.mem_cons_of_mem _ he, h1⟩, h2, ?_⟩
        intro b hb hcb
        rcases List.mem_cons.1 hb with h | h
        · rw [h] at hcb; exact absurd hcb hlt
        · exact h3 b h hcb

theorem reachable_printEndPrint : Reachable printEndPrint :=
  Reachable.step 0 line30Print2 (.ok printEndPrint)
    (Reachable.step 0 line20End
      (.ok ⟨⟨[]⟩,
        ⟨[⟨10, "10 PRINT 1", some (.PrintStmt (.Constant 1))⟩,
          ⟨20, "20 END", some .EndStmt⟩], false, -1, -1⟩, [], []⟩)
      (Reachable.step 0 line10Print1
        (.ok ⟨⟨[]⟩,
          ⟨[⟨10, "10 PRINT 1", some (.PrintStmt (.Constant 1))⟩], false, -1, -1⟩, [], []⟩)
        (Reachable.initial []) (by decide) (by decide) rfl)
      (by decide) (by decide) rfl)
    (by decide) (by decide) rfl

/-! ## Lemmas on jumps -/

theorem requestJump_of_not_hasLine {m : Machine} {t : Int} (h : ¬ m.program.hasLine t) :
    requestJump t m = .error .LineNumberError m := by
  have he : (m.program.getSourceLine t).isEmpty = true := by
    rw [getSourceLine_of_not_hasLine h]; rfl
  simp [requestJump, he]

theorem requestJump_of_hasLine {m : Machine} (hwf : m.program.WF) {t : Int}
    (h : m.program.hasLine t) :
    requestJump t m =
      .ok { m with program := { m.program with shouldJump := true, jumpTarget := t } } := by
  have hne := getSourceLine_of_hasLine hwf h
  have : (m.program.getSourceLine t).isEmpty = false := by
    cases hb : (m.program.getSourceLine t).isEmpty with
    | false => rfl
    | true => exact absurd ((string_isEmpty_iff _).1 hb) hne
  simp [requestJump, this]

theorem runLoop_succ_next {fuel : Nat} {cur line : Int} {m m2 : Machine} (hc : cur ≠ -1)
    (h : runStep cur m = .next line m2) :
    runLoop (fuel + 1) cur m = runLoop fuel line m2 := by
  simp [runLoop, hc, h]

theorem runLoop_succ_stop {fuel : Nat} {cur : Int} {m : Machine} {o : Outcome} (hc : cur ≠ -1)
    (h : runStep cur m = .stop o) :
    runLoop (fuel + 1) cur m = some o := by
  simp [runLoop, hc, h]

/-! ## Lemmas on the LIST loop -/

theorem getNextLineNumber_middle {pre rest : List ProgramEntry} {e : ProgramEntry}
    (hs : (pre ++ e :: rest).Pairwise (fun a b => a.lineNumber < b.lineNumber))
    (p : Program) (hp : p.entries = pre ++ e :: rest) :
    p.getNextLineNumber e.lineNumber = headLine rest := by
  rw [List.pairwise_append] at hs
  obtain ⟨_, hs2, hs3⟩ := hs
  rw [List.pairwise_cons] at hs2
  have hpre : pre.find? (fun a => decide (e.lineNumber < a.lineNumber)) = none := by
    rw [List.find?_eq_none]
    intro a ha
    have := hs3 a ha e (List.mem_cons_self _ _)
    simp only [decide_eq_true_eq]; omega
  unfold Program.getNextLineNumber
  rw [hp, List.find?_append, hpre]
  cases rest with
  | nil => simp [headLine]
  | cons r rs =>
    have := hs2.1 r (List.mem_cons_self _ _)
    simp [List.find?_cons, headLine, this]

/-- The LIST loop started at the head of a suffix of the table writes the texts of
that suffix, given one unit of fuel for each entry. -/
theorem listLoop_suffix (suf : List ProgramEntry) :
    ∀ (pre : List ProgramEntry) (m : Machine) (fuel : Nat),
      m.program.entries = pre ++ suf →
      (pre ++ suf).Pairwise (fun a b => a.lineNumber < b.lineNumber) →
      (∀ e ∈ pre ++ suf, 0 ≤ e.lineNumber) →
      suf.length ≤ fuel →
      listLoop fuel (headLine suf) m =
        some (.ok { m with output := m.output ++ suf.map (fun e => Output.line e.sourceText) }) := by
  induction suf with
  | nil =>
    intro pre m fuel _ _ _ _
    unfold listLoop
    simp [headLine]
  | cons e rest ih =>
    intro pre m fuel he hs hn hf
    obtain ⟨f, rfl⟩ : ∃ f, fuel = f + 1 := ⟨fuel - 1, by simp at hf; omega⟩
    have hmem : e ∈ pre ++ e :: rest := List.mem_append_right _ (List.mem_cons_self _ _)
    have hne : headLine (e :: rest) ≠ -1 := by
      have := hn e hmem
      simp only [headLine]; omega
    have hsrc : m.program.getSourceLine e.lineNumber = e.sourceText := by
      have := findEntry_of_mem hs hmem
      rw [← he] at this
      simp [Program.getSourceLine, this]
    have hnext := getNextLineNumber_middle hs m.program he
    have hh : headLine (e :: rest) = e.lineNumber := rfl
    rw [hh] at hne ⊢
    unfold listLoop
    rw [if_neg hne]
    simp only [hnext, hsrc]
    have := ih (pre ++ [e])
      { m with output := m.output ++ [Output.line e.sourceText] } f
      (by simp [he]) (by simpa using hs) (by simpa using hn) (by simp at hf; omega)
    rw [this]
    simp

theorem processLine_list {fuel : Nat} {line : InputLine} {m : Machine} {tok : Token}
    {rest : List Token} (hl : line.tokens = tok :: rest) (hty : tok.type ≠ .NUMBER)
    (htx : tok.text = "LIST") :
    processLine fuel line m = listLoop fuel m.program.getFirstLineNumber m := by
  unfold processLine
  rw [hl]
  simp [hty, htx]

/-- With one unit of fuel for each stored line, LIST writes all stored texts in the
order of the table. -/
theorem listLoop_all {m : Machine} (hwf : m.program.WF) {fuel : Nat}
    (hf : m.program.entries.length ≤ fuel) :
    listLoop fuel m.program.getFirstLineNumber m =
      some (.ok { m with
        output := m.output ++ m.program.entries.map (fun e => Output.line e.sourceText) }) :=
  listLoop_suffix m.program.entries [] m fuel rfl hwf.1 (fun e he => (hwf.2 e he).1) hf

/-! ## Lookup after the store operations -/

theorem findEntry_upsertLine_self (n : Int) (text : String) (es : List ProgramEntry) :
    findEntry n (upsertLine n text es) = some ⟨n, text, none⟩ := by
  induction es with
  | nil => simp [upsertLine, findEntry]
  | cons a as ih =>
    unfold upsertLine
    split
    · simp [findEntry]
    · split
      · simp [findEntry]
      · rename_i _ hne
        have hne2 : ¬ a.lineNumber = n := fun h => hne h.symm
        unfold findEntry at ih ⊢
        rw [List.find?_cons]
        simp [hne2, ih]

theorem findEntry_upsertLine_other {n k : Int} (hk : k ≠ n) (text : String)
    (es : List ProgramEntry) : findEntry k (upsertLine n text es) = findEntry k es := by
  have hnk : ¬ n = k := fun h => hk h.symm
  induction es with
  | nil => simp [upsertLine, findEntry, hnk]
  | cons a as ih =>
    unfold upsertLine
    split
    · simp [findEntry, List.find?_cons, hnk]
    · split
      · rename_i _ heq
        have : ¬ a.lineNumber = k := by rw [← heq]; exact hnk
        simp [findEntry, List.find?_cons, hnk, this]
      · unfold findEntry at ih ⊢
        rw [List.find?_cons, List.find?_cons, ih]

theorem findEntry_attachParsed_self (n : Int) (stmt : Statement) (es : List ProgramEntry) :
    findEntry n (attachParsed n stmt es) =
      (findEntry n es).map (fun e => ⟨e.lineNumber, e.sourceText, some stmt⟩) := by
  induction es with
  | nil => simp [attachParsed, findEntry]
  | cons a as ih =>
    unfold attachParsed
    split
    · rename_i h
      simp [findEntry, List.find?_cons, h]
    · rename_i h
      unfold findEntry at ih ⊢
      rw [List.find?_cons, List.find?_cons]
      simp [h, ih]

theorem findEntry_attachParsed_other {n k : Int} (hk : k ≠ n) (stmt : Statement)
    (es : List ProgramEntry) : findEntry k (attachParsed n stmt es) = findEntry k es := by
  induction es with
  | nil => simp [attachParsed, findEntry]
  | cons a as ih =>
    unfold attachParsed
    split
    · rename_i h
      have : ¬ a.lineNumber = k := by rw [h]; exact fun h2 => hk h2.symm
      simp [findEntry, List.find?_cons, this]
    · unfold findEntry at ih ⊢
      rw [List.find?_cons, List.find?_cons, ih]

theorem findEntry_remove_self (n : Int) (es : List ProgramEntry) :
    findEntry n (es.filter (fun e => decide (e.lineNumber ≠ n))) = none := by
  rw [findEntry_none_iff]
  intro e he
  simpa using (List.mem_filter.1 he).2

theorem findEntry_remove_other {n k : Int} (hk : k ≠ n) (es : List ProgramEntry) :
    findEntry k (es.filter (fun e => decide (e.lineNumber ≠ n))) = findEntry k es := by
  induction es with
  | nil => rfl
  | cons a as ih =>
    by_cases h : a.lineNumber = n
    · have : ¬ a.lineNumber = k := by rw [h]; exact fun h2 => hk h2.symm
      rw [List.filter_cons]
      simp only [h, ne_eq, not_true_eq_false, decide_False, Bool.false_eq_true, if_false]
      rw [ih]
      simp [findEntry, List.find?_cons, this]
    · rw [List.filter_cons]
      simp only [h, ne_eq, not_false_eq_true, decide_True, if_true]
      unfold findEntry at ih ⊢
      rw [List.find?_cons, List.find?_cons, ih]

theorem remove_of_not_hasLine {p : Program} {n : Int} (h : ¬ p.hasLine n) :
    p.removeSourceLine n = p := by
  have : p.entries.filter (fun e => decide (e.lineNumber ≠ n)) = p.entries := by
    rw [List.filter_eq_self]
    intro e he
    simp only [ne_eq, decide_eq_true_eq]
    exact fun hn => h ⟨e, he, hn⟩
  unfold Program.removeSourceLine
  rw [this]

/-- In an ascending table a line number has one entry only. -/
theorem filter_line_eq_singleton {es : List ProgramEntry}
    (hs : es.Pairwise (fun a b => a.lineNumber < b.lineNumber)) {e : ProgramEntry}
    (he : e ∈ es) : es.filter (fun a => decide (a.lineNumber = e.lineNumber)) = [e] := by
  induction es with
  | nil => cases he
  | cons a as ih =>
    rw [List.pairwise_cons] at hs
    rcases List.mem_cons.1 he with h | h
    · subst h
      rw [List.filter_cons]
      simp only [decide_True, if_true, List.cons.injEq, true_and]
      rw [List.filter_eq_nil_iff]
      intro b hb
      have := hs.1 b hb
      simp only [decide_eq_true_eq]; omega
    · have := hs.1 e h
      have hne : ¬ a.lineNumber = e.lineNumber := by omega
      rw [List.filter_cons]
      simp only [hne, decide_False, Bool.false_eq_true, if_false]
      exact ih hs.2 h

/-! ## Lemmas on entering lines -/

theorem getSourceLine_addSourceLine_self (p : Program) (n : Int) (text : String) :
    (p.addSourceLine n text).getSourceLine n = text := by
  simp [Program.getSourceLine, Program.addSourceLine, findEntry_upsertLine_self]

theorem getParsedStatement_addSourceLine_self (p : Program) (n : Int) (text : String) :
    (p.addSourceLine n text).getParsedStatement n = none := by
  simp [Program.getParsedStatement, Program.addSourceLine, findEntry_upsertLine_self]

theorem processLine_store {fuel : Nat} {line : InputLine} {m : Machine} {tok kw : Token}
    {tail : List Token} {n : Int} {stmt : Statement}
    (hl : line.tokens = tok :: kw :: tail) (hty : tok.type = .NUMBER)
    (hn : stringToInteger tok.text = .ok n) (hkw : isStatementKeyword kw.text = true)
    (hp : parseStatement tail kw.text = .ok stmt) :
    processLine fuel line m =
      some (.ok { m with
        program := (m.program.addSourceLine n line.text).setParsedStatement n stmt }) := by
  unfold processLine
  rw [hl]
  simp [hty, hn, hkw, hp]

/-! ## Lemmas on sequences of entries -/

/-- What a numbered line with content does to the texts of the store, whether its
statement parses or not. -/
theorem processLine_entry {fuel : Nat} {line : InputLine} {m : Machine} {n : Int}
    (h : enteredLineNumber line = some n) :
    ∃ o m1, processLine fuel line m = some o ∧ o.machine = some m1 ∧
      (∀ k, m1.program.getSourceLine k =
        if k = n then line.text else m.program.getSourceLine k) ∧
      (∀ k, m1.program.hasLine k ↔ (k = n ∨ m.program.hasLine k)) := by
  unfold enteredLineNumber at h
  split at h
  · rename_i tok kw tail hl
    split at h
    · rename_i hty
      split at h
      · rename_i n1 hn
        cases h
        have hsrc1 : ∀ k, (m.program.addSourceLine n line.text).getSourceLine k =
            if k = n then line.text else m.program.getSourceLine k := by
          intro k
          by_cases hk : k = n
          · subst hk; simp [getSourceLine_addSourceLine_self]
          · simp [Program.getSourceLine, Program.addSourceLine, hk,
              findEntry_upsertLine_other hk]
        have hhas1 : ∀ k, (m.program.addSourceLine n line.text).hasLine k ↔
            (k = n ∨ m.program.hasLine k) := by
          intro k
          rw [hasLine_iff_findEntry, hasLine_iff_findEntry]
          by_cases hk : k = n
          · subst hk; simp [Program.addSourceLine, findEntry_upsertLine_self]
          · simp [Program.addSourceLine, hk, findEntry_upsertLine_other hk]
        have hsrc2 : ∀ stmt k,
            ((m.program.addSourceLine n line.text).setParsedStatement n stmt).getSourceLine k =
              if k = n then line.text else m.program.getSourceLine k := by
          intro stmt k
          rw [← hsrc1 k]
          by_cases hk : k = n
          · subst hk
            simp [Program.getSourceLine, Program.setParsedStatement, Program.addSourceLine,
              findEntry_attachParsed_self, findEntry_upsertLine_self]
          · simp [Program.getSourceLine, Program.setParsedStatement,
              findEntry_attachParsed_other hk]
        have hhas2 : ∀ stmt k,
            ((m.program.addSourceLine n line.text).setParsedStatement n stmt).hasLine k ↔
              (k = n ∨ m.program.hasLine k) := by
          intro stmt k
          rw [← hhas1 k, hasLine_iff_findEntry, hasLine_iff_findEntry]
          by_cases hk : k = n
          · subst hk
            simp [Program.setParsedStatement, Program.addSourceLine,
              findEntry_attachParsed_self, findEntry_upsertLine_self]
          · simp [Program.setParsedStatement, findEntry_attachParsed_other hk]
        unfold processLine
        rw [hl]
        simp only [hty, if_true, hn]
        split
        · split
          · exact ⟨_, _, rfl, rfl, hsrc1, hhas1⟩
          · exact ⟨_, _, rfl, rfl, hsrc2 _, hhas2 _⟩
        · exact ⟨_, _, rfl, rfl, hsrc1, hhas1⟩
      · cases h
    · cases h
  · cases h

/-- After a sequence of numbered lines with content, the text stored for a line
number is the last one entered for it. -/
theorem enterLines_entries (fuel : Nat) (ls : List InputLine) :
    ∀ (m : Machine), Reachable m →
      (∀ l ∈ ls, enteredLineNumber l ≠ none ∧ l.text ≠ "") →
      ∃ m1, enterLines fuel ls m = some m1 ∧ Reachable m1 ∧
        (∀ k, m1.program.getSourceLine k =
          (lastEntered k ls).getD (m.program.getSourceLine k)) ∧
        (∀ k, m1.program.hasLine k ↔ (lastEntered k ls ≠ none ∨ m.program.hasLine k)) := by
  induction ls with
  | nil =>
    intro m hm _
    exact ⟨m, rfl, hm, fun k => rfl, fun k => by simp [lastEntered]⟩
  | cons l ls ih =>
    intro m hm hall
    obtain ⟨hl1, hl2⟩ := hall l (List.mem_cons_self _ _)
    obtain ⟨n, hn⟩ := Option.ne_none_iff_exists'.1 hl1
    obtain ⟨o, m1, hp, ho, hsrc, hhas⟩ := @processLine_entry fuel l m n hn
    have hm1 : Reachable m1 := Reachable.step fuel l o hm hl2 hp ho
    obtain ⟨m2, h2, hr2, hsrc2, hhas2⟩ :=
      ih m1 hm1 (fun x hx => hall x (List.mem_cons_of_mem _ hx))
    refine ⟨m2, ?_, hr2, ?_, ?_⟩
    · simp [enterLines, hp, ho, h2]
    · intro k
      rw [hsrc2 k, hsrc k]
      simp only [lastEntered, hn]
      cases lastEntered k ls with
      | some t => rfl
      | none =>
        by_cases hk : k = n
        · subst hk; simp
        · have : ¬ n = k := fun h => hk h.symm
          simp [hk, this]
    · intro k
      rw [hhas2 k, hhas k]
      simp only [lastEntered, hn]
      cases lastEntered k ls with
      | some t => simp
      | none =>
        by_cases hk : k = n
        · subst hk; simp
        · have : ¬ n = k := fun h => hk h.symm
          simp [hk, this]

/-! ## Lemmas on immediate statements -/

/-- The LIST loop writes what `listLines` reads off the program. -/
theorem listLoop_eq_listLines (fuel : Nat) :
    ∀ (cur : Int) (m : Machine),
      listLoop fuel cur m =
        match listLines fuel cur m.program with
        | some lines => some (.ok { m with output := m.output ++ lines })
        | none => none := by
  induction fuel with
  | zero =>
    intro cur m
    unfold listLoop listLines
    by_cases hc : cur = -1 <;> simp [hc]
  | succ f ih =>
    intro cur m
    unfold listLoop listLines
    by_cases hc : cur = -1
    · simp [hc]
    · simp only [hc, if_false]
      rw [ih]
      cases listLines f (m.program.getNextLineNumber cur) m.program with
      | none => rfl
      | some lines => simp

theorem listLoop_same_program {fuel : Nat} {cur : Int} {m m1 : Machine} {lines : List Output}
    (hp : m1.program = m.program)
    (h : listLoop fuel cur m = some (.ok { m with output := m.output ++ lines })) :
    listLoop fuel cur m1 = some (.ok { m1 with output := m1.output ++ lines }) := by
  rw [listLoop_eq_listLines] at h ⊢
  rw [hp]
  cases hl : listLines fuel cur m.program with
  | none => rw [hl] at h; cases h
  | some ls =>
    rw [hl] at h
    simp only [Option.some.injEq, Outcome.ok.injEq, Machine.mk.injEq, true_and,
      and_true] at h
    have : ls = lines := List.append_cancel_left h
    rw [this]

theorem parseStatement_let {toks : List Token} {stmt : Statement}
    (h : parseStatement toks "LET" = .ok stmt) : ∃ var exp, stmt = .LetStmt var exp := by
  unfold parseStatement at h
  simp only [show ¬ ("LET" = "REM") by decide, if_false, if_true] at h
  split at h
  · cases h
  · split at h
    · cases h
    · split at h
      · cases h
      · cases h; exact ⟨_, _, rfl⟩

theorem parseStatement_print {toks : List Token} {stmt : Statement}
    (h : parseStatement toks "PRINT" = .ok stmt) : ∃ exp, stmt = .PrintStmt exp := by
  unfold parseStatement at h
  simp only [show ¬ ("PRINT" = "REM") by decide, show ¬ ("PRINT" = "LET") by decide,
    if_false, if_true] at h
  split at h
  · cases h
  · cases h; exact ⟨_, rfl⟩

theorem parseStatement_input {toks : List Token} {stmt : Statement}
    (h : parseStatement toks "INPUT" = .ok stmt) : ∃ var, stmt = .InputStmt var := by
  unfold parseStatement at h
  simp only [show ¬ ("INPUT" = "REM") by decide, show ¬ ("INPUT" = "LET") by decide,
    show ¬ ("INPUT" = "PRINT") by decide, if_false, if_true] at h
  split at h
  · cases h
  · cases h; exact ⟨_, rfl⟩

theorem execute_let_program {var : String} {exp : Expression} {m m1 : Machine}
    (h : (execute (.LetStmt var exp) m).machine = some m1) : m1.program = m.program := by
  simp only [execute] at h
  split at h <;> simp [Outcome.machine] at h <;> subst h <;> rfl

theorem execute_print_program {exp : Expression} {m m1 : Machine}
    (h : (execute (.PrintStmt exp) m).machine = some m1) : m1.program = m.program := by
  simp only [execute] at h
  split at h <;> simp [Outcome.machine] at h <;> subst h <;> rfl

theorem execute_input_program {var : String} {m m1 : Machine}
    (h : (execute (.InputStmt var) m).machine = some m1) : m1.program = m.program := by
  simp only [execute] at h
  split at h <;> simp [Outcome.machine] at h
  subst h; rfl

theorem processLine_immediate {fuel : Nat} {line : InputLine} {m : Machine} {tok : Token}
    {rest : List Token} (hl : line.tokens = tok :: rest) (hty : tok.type ≠ .NUMBER)
    (htx : tok.text = "LET" ∨ tok.text = "PRINT" ∨ tok.text = "INPUT") :
    processLine fuel line m =
      match parseStatement rest tok.text with
      | .error e => some (.error e m)
      | .ok stmt => some (execute stmt m) := by
  unfold processLine
  rw [hl]
  rcases htx with h | h | h <;> simp [hty, h]

theorem runLoop_at_end (fuel : Nat) (m : Machine) : runLoop fuel (-1) m = some (.ok m) := by
  unfold runLoop; simp

theorem runTrace_at_end (fuel : Nat) (m : Machine) : runTrace fuel (-1) m = [] := by
  unfold runTrace; simp

theorem listLoop_at_end (fuel : Nat) (m : Machine) : listLoop fuel (-1) m = some (.ok m) := by
  unfold listLoop; simp

/-! ## Lemmas on a stored PRINT line -/

theorem parseStatement_print_ok {toks rest : List Token} {e : Expression}
    (h : parseExp toks = .ok (e, rest)) : parseStatement toks "PRINT" = .ok (.PrintStmt e) := by
  unfold parseStatement
  simp only [show ¬ ("PRINT" = "REM") by decide, show ¬ ("PRINT" = "LET") by decide,
    if_false, if_true, h]

theorem parseExp_precedence (a b c lo hi : Token) (x y z : Int)
    (ha : a.type = .NUMBER) (hx : stringToInteger a.text = .ok x)
    (hb : b.type = .NUMBER) (hy : stringToInteger b.text = .ok y)
    (hc : c.type = .NUMBER) (hz : stringToInteger c.text = .ok z)
    (hlo : lo.text = "+" ∨ lo.text = "-") (hhi : hi.text = "*" ∨ hi.text = "/") :
    parseExp [a, lo, b, hi, c] =
      .ok (.BinaryOp (operatorOf lo.text) (.Constant x)
        (.BinaryOp (operatorOf hi.text) (.Constant y) (.Constant z)), []) ∧
    parseExp [a, hi, b, lo, c] =
      .ok (.BinaryOp (operatorOf lo.text)
        (.BinaryOp (operatorOf hi.text) (.Constant x) (.Constant y)) (.Constant z), []) := by
  rcases hlo with hlo | hlo <;> rcases hhi with hhi | hhi <;>
    simp [parseExp, readE, readT, readF, readERest, readTRest, ha, hb, hc, hx, hy, hz, hlo, hhi,
      operatorOf]

theorem runStep_print_last {n : Int} {m : Machine} {text : String} {e : Expression} {v : Int}
    (hent : m.program.entries = [⟨n, text, some (.PrintStmt e)⟩])
    (hv : e.eval m.state = .ok v) :
    runStep n m = .next (-1) { resetRegisters n m with output := m.output ++ [.number v] } := by
  have hp : m.program.getParsedStatement n = some (.PrintStmt e) := by
    simp [Program.getParsedStatement, findEntry, hent]
  have hv1 : e.eval (resetRegisters n m).state = .ok v := hv
  unfold runStep
  rw [stepOutcome_parsed hp]
  simp only [execute, hv1]
  simp [resetRegisters, Program.getNextLineNumber, hent]

/-! ## Lemmas on the expression parser -/

/-- The parser never returns more tokens than it was given. -/
theorem read_length_le (fuel : Nat) :
    (∀ toks e rest, readE fuel toks = .ok (e, rest) → rest.length ≤ toks.length) ∧
    (∀ lhs toks e rest, readERest fuel lhs toks = .ok (e, rest) → rest.length ≤ toks.length) ∧
    (∀ toks e rest, readT fuel toks = .ok (e, rest) → rest.length ≤ toks.length) ∧
    (∀ lhs toks e rest, readTRest fuel lhs toks = .ok (e, rest) → rest.length ≤ toks.length) ∧
    (∀ toks e rest, readF fuel toks = .ok (e, rest) → rest.length ≤ toks.length) := by
  induction fuel with
  | zero =>
    refine ⟨?_, ?_, ?_, ?_, ?_⟩ <;> intros <;> rename_i h <;> simp [readE, readERest, readT, readTRest, readF] at h
  | succ f ih =>
    obtain ⟨ihE, ihER, ihT, ihTR, ihF⟩ := ih
    refine ⟨?_, ?_, ?_, ?_, ?_⟩
    · intro toks e rest h
      simp only [readE] at h
      split at h
      · cases h
      · rename_i lhs r hT
        exact le_trans (ihER _ _ _ _ h) (ihT _ _ _ hT)
    · intro lhs toks e rest h
      cases toks with
      | nil => simp [readERest] at h; simp [h.2]
      | cons t ts =>
        simp only [readERest] at h
        split at h
        · split at h
          · cases h
          · rename_i rhs r hT
            have h1 := ihER _ _ _ _ h
            have h2 := ihT _ _ _ hT
            simp only [List.length_cons]; omega
        · split at h
          · split at h
            · cases h
            · rename_i rhs r hT
              have h1 := ihER _ _ _ _ h
              have h2 := ihT _ _ _ hT
              simp only [List.length_cons]; omega
          · cases h; exact le_refl _
    · intro toks e rest h
      simp only [readT] at h
      split at h
      · cases h
      · rename_i lhs r hF
        exact le_trans (ihTR _ _ _ _ h) (ihF _ _ _ hF)
    · intro lhs toks e rest h
      cases toks with
      | nil => simp [readTRest] at h; simp [h.2]
      | cons t ts =>
        simp only [readTRest] at h
        split at h
        · split at h
          · cases h
          · rename_i rhs r hF
            have h1 := ihTR _ _ _ _ h
            have h2 := ihF _ _ _ hF
            simp only [List.length_cons]; omega
        · split at h
          · split at h
            · cases h
            · rename_i rhs r hF
              have h1 := ihTR _ _ _ _ h
              have h2 := ihF _ _ _ hF
              simp only [List.length_cons]; omega
          · cases h; exact le_refl _
    · intro toks e rest h
      cases toks with
      | nil => simp [readF] at h
      | cons t ts =>
        simp only [readF] at h
        split at h
        · split at h
          · cases h
          · cases h; simp
        · split at h
          · cases h; simp
          · split at h
            · split at h
              · cases h
              · rename_i g r hF
                cases h
                have := ihF _ _ _ hF
                simp only [List.length_cons]; omega
            · split at h
              · split at h
                · cases h
                · rename_i g r hE
                  split at h
                  · split at h
                    · cases h
                      have := ihE _ _ _ hE
                      simp only [List.length_cons] at this ⊢; omega
                    · cases h
                  · cases h
              · cases h

/-- Beyond a depth linear in the number of tokens, one more level of depth gives
the same parse. -/
theorem read_stable (fuel : Nat) :
    (∀ toks, 4 * toks.length + 3 ≤ fuel → readE fuel toks = readE (fuel + 1) toks) ∧
    (∀ lhs toks, 4 * toks.length + 1 ≤ fuel →
      readERest fuel lhs toks = readERest (fuel + 1) lhs toks) ∧
    (∀ toks, 4 * toks.length + 2 ≤ fuel → readT fuel toks = readT (fuel + 1) toks) ∧
    (∀ lhs toks, 4 * toks.length + 1 ≤ fuel →
      readTRest fuel lhs toks = readTRest (fuel + 1) lhs toks) ∧
    (∀ toks, 4 * toks.length + 1 ≤ fuel → readF fuel toks = readF (fuel + 1) toks) := by
  induction fuel with
  | zero =>
    refine ⟨?_, ?_, ?_, ?_, ?_⟩ <;> intros <;> omega
  | succ f ih =>
    obtain ⟨ihE, ihER, ihT, ihTR, ihF⟩ := ih
    obtain ⟨_, _, lenT, _, lenF⟩ := read_length_le f
    refine ⟨?_, ?_, ?_, ?_, ?_⟩
    · intro toks hf
      rw [readE, readE, ← ihT toks (by omega)]
      cases hT : readT f toks with
      | error e => rfl
      | ok p =>
        obtain ⟨lhs, rest⟩ := p
        have := lenT _ _ _ hT
        simp only
        exact ihER lhs rest (by omega)
    · intro lhs toks hf
      cases toks with
      | nil => simp [readERest]
      | cons t ts =>
        simp only [List.length_cons] at hf
        rw [readERest, readERest, ← ihT ts (by omega)]
        cases hT : readT f ts with
        | error e => rfl
        | ok p =>
          obtain ⟨rhs, rest⟩ := p
          have := lenT _ _ _ hT
          simp only
          rw [ihER _ rest (by omega), ihER _ rest (by omega)]
    · intro toks hf
      rw [readT, readT, ← ihF toks (by omega)]
      cases hF : readF f toks with
      | error e => rfl
      | ok p =>
        obtain ⟨lhs, rest⟩ := p
        have := lenF _ _ _ hF
        simp only
        exact ihTR lhs rest (by omega)
    · intro lhs toks hf
      cases toks with
      | nil => simp [readTRest]
      | cons t ts =>
        simp only [List.length_cons] at hf
        rw [readTRest, readTRest, ← ihF ts (by omega)]
        cases hF : readF f ts with
        | error e => rfl
        | ok p =>
          obtain ⟨rhs, rest⟩ := p
          have := lenF _ _ _ hF
          simp only
          rw [ihTR _ rest (by omega), ihTR _ rest (by omega)]
    · intro toks hf
      cases toks with
      | nil => simp [readF]
      | cons t ts =>
        simp only [List.length_cons] at hf
        rw [readF, readF, ← ihF ts (by omega), ← ihE ts (by omega)]

/-- The depth allowed in `parseExp` is enough: any larger depth gives the same
result, so no failure of `parseExp` is due to the bound. -/
theorem parseExp_fuel_enough (toks : List Token) (extra : Nat) :
    readE (4 * toks.length + 4 + extra) toks = parseExp toks := by
  induction extra with
  | zero => rfl
  | succ k ih =>
    rw [← ih]
    exact ((read_stable (4 * toks.length + 4 + k)).1 toks (by omega)).symm

/-! ## Lemmas on the statement parser -/

theorem isReservedWord_of_mem {w : String} (hw : w ∈ reservedWords) : isReservedWord w = true := by
  simp only [reservedWords, List.mem_cons, List.mem_singleton, List.not_mem_nil, or_false] at hw
  rcases hw with h | h | h | h | h | h | h | h | h | h | h | h | h <;> subst h <;> decide

theorem parseStatement_let_reserved {tok : Token} {rest : List Token}
    (h : isReservedWord tok.text = true) :
    parseStatement (tok :: rest) "LET" = .error .SyntaxError := by
  unfold parseStatement
  simp only [show ¬ ("LET" = "REM") by decide, if_false, if_true, nextToken, h]

theorem parseStatement_input_reserved {tok : Token} {rest : List Token}
    (h : isReservedWord tok.text = true) :
    parseStatement (tok :: rest) "INPUT" = .error .SyntaxError := by
  unfold parseStatement
  simp only [show ¬ ("INPUT" = "REM") by decide, show ¬ ("INPUT" = "LET") by decide,
    show ¬ ("INPUT" = "PRINT") by decide, if_false, if_true, nextToken, h]

theorem processLine_numbered_error {fuel : Nat} {line : InputLine} {m : Machine} {tok kw : Token}
    {tail : List Token} {n : Int} {e : ErrorKind}
    (hl : line.tokens = tok :: kw :: tail) (hty : tok.type = .NUMBER)
    (hn : stringToInteger tok.text = .ok n) (hkw : isStatementKeyword kw.text = true)
    (hp : parseStatement tail kw.text = .error e) :
    processLine fuel line m =
      some (.error e { m with program := m.program.addSourceLine n line.text }) := by
  unfold processLine
  rw [hl]
  simp [hty, hn, hkw, hp]

theorem stringToInteger_error_kind {s : String} {e : ErrorKind}
    (h : stringToInteger s = .error e) : e = .SyntaxError := by
  unfold stringToInteger at h
  split at h
  · cases h; rfl
  · split at h
    · split at h
      · cases h
      · cases h; rfl
    · cases h; rfl

/-- Every failure of the expression parser is a `SyntaxError`. -/
theorem read_error_kind (fuel : Nat) :
    (∀ toks e, readE fuel toks = .error e → e = .SyntaxError) ∧
    (∀ lhs toks e, readERest fuel lhs toks = .error e → e = .SyntaxError) ∧
    (∀ toks e, readT fuel toks = .error e → e = .SyntaxError) ∧
    (∀ lhs toks e, readTRest fuel lhs toks = .error e → e = .SyntaxError) ∧
    (∀ toks e, readF fuel toks = .error e → e = .SyntaxError) := by
  induction fuel with
  | zero =>
    refine ⟨?_, ?_, ?_, ?_, ?_⟩ <;> intros <;> rename_i h <;>
      simp [readE, readERest, readT, readTRest, readF] at h <;> exact h.symm
  | succ f ih =>
    obtain ⟨ihE, ihER, ihT, ihTR, ihF⟩ := ih
    refine ⟨?_, ?_, ?_, ?_, ?_⟩
    · intro toks e h
      simp only [readE] at h
      split at h
      · rename_i e1 hT
        cases h; exact ihT _ _ hT
      · exact ihER _ _ _ h
    · intro lhs toks e h
      cases toks with
      | nil => simp [readERest] at h
      | cons t ts =>
        simp only [readERest] at h
        split at h
        · split at h
          · rename_i e1 hT
            cases h; exact ihT _ _ hT
          · exact ihER _ _ _ h
        · split at h
          · split at h
            · rename_i e1 hT
              cases h; exact ihT _ _ hT
            · exact ihER _ _ _ h
          · cases h
    · intro toks e h
      simp only [readT] at h
      split at h
      · rename_i e1 hF
        cases h; exact ihF _ _ hF
      · exact ihTR _ _ _ h
    · intro lhs toks e h
      cases toks with
      | nil => simp [readTRest] at h
      | cons t ts =>
        simp only [readTRest] at h
        split at h
        · split at h
          · rename_i e1 hF
            cases h; exact ihF _ _ hF
          · exact ihTR _ _ _ h
        · split at h
          · split at h
            · rename_i e1 hF
              cases h; exact ihF _ _ hF
            · exact ihTR _ _ _ h
          · cases h
    · intro toks e h
      cases toks with
      | nil => simp [readF] at h; exact h.symm
      | cons t ts =>
        simp only [readF] at h
        split at h
        · split at h
          · rename_i e1 hS
            cases h; exact stringToInteger_error_kind hS
          · cases h
        · split at h
          · cases h
          · split at h
            · split at h
              · rename_i e1 hF
                cases h; exact ihF _ _ hF
              · cases h
            · split at h
              · split at h
                · rename_i e1 hE
                  cases h; exact ihE _ _ hE
                · split at h
                  · split at h
                    · cases h
                    · cases h; rfl
                  · cases h; rfl
              · cases h; rfl

theorem parseExp_error_kind {toks : List Token} {e : ErrorKind}
    (h : parseExp toks = .error e) : e = .SyntaxError :=
  (read_error_kind _).1 toks e h

/-- Every failure of `parseStatement` is a `SyntaxError`. -/
theorem parseStatement_error_kind {toks : List Token} {type : String} {e : ErrorKind}
    (h : parseStatement toks type = .error e) : e = .SyntaxError := by
  unfold parseStatement at h
  split at h
  · cases h
  · split at h
    · simp only at h
      split at h
      · cases h; rfl
      · split at h
        · cases h; rfl
        · split at h
          · rename_i e1 hp
            cases h; exact parseExp_error_kind hp
          · cases h
    · split at h
      · split at h
        · rename_i e1 hp
          cases h; exact parseExp_error_kind hp
        · cases h
      · split at h
        · simp only at h
          split at h
          · cases h; rfl
          · cases h
        · split at h
          · simp only at h
            split at h
            · rename_i e1 hs
              cases h; exact stringToInteger_error_kind hs
            · cases h
          · split at h
            · split at h
              · rename_i e1 hp
                cases h; exact parseExp_error_kind hp
              · simp only at h
                split at h
                · cases h; rfl
                · split at h
                  · rename_i e1 hp
                    cases h; exact parseExp_error_kind hp
                  · split at h
                    · cases h; rfl
                    · split at h
                      · rename_i e1 hs
                        cases h; exact stringToInteger_error_kind hs
                      · cases h
            · split at h
              · cases h
              · cases h; rfl

theorem parseStatement_if_eq {toks s1 : List Token} {lhs : Expression}
    (hl : parseExp toks = .ok (lhs, s1)) :
    parseStatement toks "IF" =
      if (nextToken s1).1 ≠ "=" ∧ (nextToken s1).1 ≠ "<" ∧ (nextToken s1).1 ≠ ">" then
        .error .SyntaxError
      else
        match parseExp (nextToken s1).2 with
        | .error e => .error e
        | .ok (rhs, s3) =>
          if (nextToken s3).1 ≠ "THEN" then .error .SyntaxError
          else
            match stringToInteger (nextToken (nextToken s3).2).1 with
            | .error e => .error e
            | .ok lineNumber => .ok (.IfStmt lhs rhs (nextToken s1).1 lineNumber) := by
  unfold parseStatement
  simp only [show ¬ ("IF" = "REM") by decide, show ¬ ("IF" = "LET") by decide,
    show ¬ ("IF" = "PRINT") by decide, show ¬ ("IF" = "INPUT") by decide,
    show ¬ ("IF" = "GOTO") by decide, if_false, if_true, hl]

theorem parseStatement_goto_eq (toks : List Token) :
    parseStatement toks "GOTO" =
      match stringToInteger (nextToken toks).1 with
      | .error e => .error e
      | .ok lineNumber => .ok (.GotoStmt lineNumber) := by
  unfold parseStatement
  simp only [show ¬ ("GOTO" = "REM") by decide, show ¬ ("GOTO" = "LET") by decide,
    show ¬ ("GOTO" = "PRINT") by decide, show ¬ ("GOTO" = "INPUT") by decide,
    if_false, if_true]

theorem parseStatement_input_eq (toks : List Token) :
    parseStatement toks "INPUT" =
      if isReservedWord (nextToken toks).1 then .error .SyntaxError
      else .ok (.InputStmt (nextToken toks).1) := by
  unfold parseStatement
  simp only [show ¬ ("INPUT" = "REM") by decide, show ¬ ("INPUT" = "LET") by decide,
    show ¬ ("INPUT" = "PRINT") by decide, if_false, if_true]

theorem parseStatement_let_eq (toks : List Token) :
    parseStatement toks "LET" =
      if isReservedWord (nextToken toks).1 then .error .SyntaxError
      else if (nextToken (nextToken toks).2).1 ≠ "=" then .error .SyntaxError
      else
        match parseExp (nextToken (nextToken toks).2).2 with
        | .error e => .error e
        | .ok (exp, _) => .ok (.LetStmt (nextToken toks).1 exp) := by
  unfold parseStatement
  simp only [show ¬ ("LET" = "REM") by decide, if_false, if_true]

/-! ## Lemmas on INPUT -/

theorem readNumber_accepts (pre : List String) :
    ∀ (out : List Output) (line : String) (rest : List String) (v : Int),
      (∀ l ∈ pre, parseInputNumber l = none) → parseInputNumber line = some v →
      readNumber (pre ++ line :: rest) out = some (v, rest, out ++ rejectedLines pre) := by
  induction pre with
  | nil =>
    intro out line rest v _ hv
    simp [readNumber, hv, rejectedLines]
  | cons p ps ih =>
    intro out line rest v hpre hv
    have hp : parseInputNumber p = none := hpre p (List.mem_cons_self _ _)
    have := ih (out ++ [.line "INVALID NUMBER", .prompt]) line rest v
      (fun l hl => hpre l (List.mem_cons_of_mem _ hl)) hv
    show readNumber (p :: (ps ++ line :: rest)) out = _
    simp only [readNumber, hp, rejectedLines]
    rw [this]
    simp

theorem readNumber_exhausted (ls : List String) :
    ∀ out : List Output, (∀ l ∈ ls, parseInputNumber l = none) → readNumber ls out = none := by
  induction ls with
  | nil => intro out _; rfl
  | cons p ps ih =>
    intro out h
    have hp : parseInputNumber p = none := h p (List.mem_cons_self _ _)
    simp only [readNumber, hp]
    exact ih _ (fun l hl => h l (List.mem_cons_of_mem _ hl))

theorem getBinding_setBinding_self (name : String) (value : Int) (bs : List (String × Int)) :
    getBinding name (setBinding name value bs) = some value := by
  induction bs with
  | nil => simp [setBinding, getBinding]
  | cons b bs ih =>
    obtain ⟨k, w⟩ := b
    by_cases h : k = name
    · simp [setBinding, getBinding, h]
    · simp [setBinding, getBinding, h, ih]

theorem getBinding_setBinding_other {name other : String} (h : other ≠ name) (value : Int)
    (bs : List (String × Int)) :
    getBinding other (setBinding name value bs) = getBinding other bs := by
  have hno : ¬ name = other := fun e => h e.symm
  induction bs with
  | nil => simp [setBinding, getBinding, hno]
  | cons b bs ih =>
    obtain ⟨k, w⟩ := b
    by_cases hk : k = name
    · have : ¬ k = other := by rw [hk]; exact hno
      simp [setBinding, getBinding, hk, hno, this]
    · by_cases hko : k = other
      · subst hko
        simp [setBinding, getBinding, h]
      · simp [setBinding, getBinding, hk, hko, ih]

theorem digitsValue_all_digits (cs : List Char) :
    ∀ (acc n : Nat), digitsValue cs acc = some n → ∀ c ∈ cs, c.isDigit = true := by
  induction cs with
  | nil => intro _ _ _ c hc; cases hc
  | cons d ds ih =>
    intro acc n h c hc
    simp only [digitsValue] at h
    split at h
    · rename_i hd
      rcases List.mem_cons.1 hc with e | e
      · rw [e]; exact hd
      · exact ih _ _ h c e
    · cases h

/-- A line INPUT accepts ends with a digit: no character, white space included, may
follow the number. -/
theorem parseInputNumber_last_digit {line : String} {v : Int}
    (h : parseInputNumber line = some v) :
    ∃ c, line.data.getLast? = some c ∧ c.isDigit = true := by
  unfold parseInputNumber at h
  simp only at h
  split at h
  · cases h
  · rename_i c cs hsig
    split at h
    · cases h
    · rename_i n hn
      have hall := digitsValue_all_digits (c :: cs) 0 n hn
      -- the digits are a suffix of the line
      have hsuf : ∃ front, line.data = front ++ c :: cs := by
        have h1 : ∃ f1, line.data = f1 ++ line.data.dropWhile isSpaceChar :=
          ⟨line.data.takeWhile isSpaceChar, (List.takeWhile_append_dropWhile _ _).symm⟩
        obtain ⟨f1, hf1⟩ := h1
        generalize line.data.dropWhile isSpaceChar = body at hsig hf1
        split at hsig
        · rename_i r
          simp only at hsig
          exact ⟨f1 ++ ['-'], by rw [hf1, hsig]; simp⟩
        · rename_i r
          simp only at hsig
          exact ⟨f1 ++ ['+'], by rw [hf1, hsig]; simp⟩
        · simp only at hsig
          exact ⟨f1, by rw [hf1, hsig]⟩
      obtain ⟨front, hfront⟩ := hsuf
      have hne : c :: cs ≠ [] := by simp
      refine ⟨(c :: cs).getLast hne, ?_, hall _ (List.getLast_mem hne)⟩
      rw [hfront, List.getLast?_append_of_ne_nil _ hne, List.getLast?_eq_getLast _ hne]

theorem isDigit_toNat {c : Char} (h : c.isDigit = true) : 48 ≤ c.toNat ∧ c.toNat ≤ 57 := by
  simp only [Char.isDigit, Bool.and_eq_true, decide_eq_true_eq] at h
  obtain ⟨h1, h2⟩ := h
  have h1n : (48 : UInt32).toNat ≤ c.val.toNat := h1
  have h2n : c.val.toNat ≤ (57 : UInt32).toNat := h2
  exact ⟨h1n, h2n⟩

theorem isDigit_not_space {c : Char} (h : c.isDigit = true) : isSpaceChar c = false := by
  have hn := isDigit_toNat h
  have h1 : c ≠ ' ' := by intro e; subst e; revert h; decide
  have h2 : c ≠ '\t' := by intro e; subst e; revert h; decide
  have h3 : c ≠ '\n' := by intro e; subst e; revert h; decide
  have h4 : c ≠ '\r' := by intro e; subst e; revert h; decide
  have h5 : c.toNat ≠ 11 := by omega
  have h6 : c.toNat ≠ 12 := by omega
  simp [isSpaceChar, h1, h2, h3, h4, h5, h6]

theorem dropWhile_space_append (ws rest : List Char)
    (hws : ∀ c ∈ ws, isSpaceChar c = true)
    (hrest : ∀ c, rest.head? = some c → isSpaceChar c = false) :
    (ws ++ rest).dropWhile isSpaceChar = rest := by
  induction ws with
  | nil =>
    cases rest with
    | nil => rfl
    | cons r rs =>
      have := hrest r rfl
      simp [List.dropWhile, this]
  | cons w ws ih =>
    have hw := hws w (List.mem_cons_self _ _)
    simp only [List.cons_append, List.dropWhile, hw]
    exact ih (fun c hc => hws c (List.mem_cons_of_mem _ hc))

theorem sign_split (body : List Char) :
    ∃ (neg : Bool) (r : List Char),
      (match body with
        | '-' :: r => (true, r)
        | '+' :: r => (false, r)
        | r => (false, r)) = (neg, r) ∧
      ((neg = true ∧ body = '-' :: r) ∨ (neg = false ∧ body = '+' :: r) ∨
        (neg = false ∧ body = r ∧ ∀ r2, body ≠ '-' :: r2 ∧ body ≠ '+' :: r2)) := by
  split
  · rename_i r
    exact ⟨true, r, rfl, Or.inl ⟨rfl, rfl⟩⟩
  · rename_i r
    exact ⟨false, r, rfl, Or.inr (Or.inl ⟨rfl, rfl⟩)⟩
  · rename_i h1 h2
    exact ⟨false, body, rfl, Or.inr (Or.inr ⟨rfl, rfl, fun r2 => ⟨h1 r2, h2 r2⟩⟩)⟩

theorem parseInputNumber_of_no_digits (line : String) {neg : Bool}
    (hsg : (match line.data.dropWhile isSpaceChar with
        | '-' :: r => (true, r)
        | '+' :: r => (false, r)
        | r => (false, r)) = (neg, [])) :
    parseInputNumber line = none := by
  unfold parseInputNumber
  simp only [hsg]

theorem parseInputNumber_of_digits (line : String) {neg : Bool} {c : Char} {cs : List Char}
    (hsg : (match line.data.dropWhile isSpaceChar with
        | '-' :: r => (true, r)
        | '+' :: r => (false, r)
        | r => (false, r)) = (neg, c :: cs)) :
    parseInputNumber line =
      match digitsValue (c :: cs) 0 with
      | none => none
      | some n =>
        if INT_MIN ≤ (if neg then -(n : Int) else (n : Int)) ∧
            (if neg then -(n : Int) else (n : Int)) ≤ INT_MAX then
          some (if neg then -(n : Int) else (n : Int))
        else none := by
  unfold parseInputNumber
  simp only [hsg]

/-- The lines INPUT accepts: white space, then an optional sign, then a non-empty
run of decimal digits up to the end of the line, with a value that fits an `int`. -/
theorem parseInputNumber_iff (line : String) (v : Int) :
    parseInputNumber line = some v ↔
      ∃ (ws sign ds : List Char) (n : Nat),
        line.data = ws ++ sign ++ ds ∧ (∀ c ∈ ws, isSpaceChar c = true) ∧
        (sign = [] ∨ sign = ['+'] ∨ sign = ['-']) ∧ ds ≠ [] ∧
        digitsValue ds 0 = some n ∧
        v = (if sign = ['-'] then -(n : Int) else (n : Int)) ∧
        INT_MIN ≤ v ∧ v ≤ INT_MAX := by
  obtain ⟨neg, r, hsg, hcases⟩ := sign_split (line.data.dropWhile isSpaceChar)
  have hsplit : line.data =
      line.data.takeWhile isSpaceChar ++ line.data.dropWhile isSpaceChar :=
    (List.takeWhile_append_dropWhile _ _).symm
  have hws : ∀ c ∈ line.data.takeWhile isSpaceChar, isSpaceChar c = true :=
    fun c hc => List.mem_takeWhile_imp hc
  constructor
  · intro h
    cases r with
    | nil => rw [parseInputNumber_of_no_digits line hsg] at h; cases h
    | cons c cs =>
      rw [parseInputNumber_of_digits line hsg] at h
      cases hn : digitsValue (c :: cs) 0 with
      | none => rw [hn] at h; cases h
      | some n =>
        rw [hn] at h
        simp only at h
        by_cases hrange : INT_MIN ≤ (if neg = true then -(n : Int) else (n : Int)) ∧
            (if neg = true then -(n : Int) else (n : Int)) ≤ INT_MAX
        · rw [if_pos hrange] at h
          cases h
          rcases hcases with ⟨h1, h2⟩ | ⟨h1, h2⟩ | ⟨h1, h2, _⟩
          · subst h1
            refine ⟨_, ['-'], c :: cs, n, ?_, hws, Or.inr (Or.inr rfl), by simp, hn, by simp,
              by simpa using hrange.1, by simpa using hrange.2⟩
            rw [List.append_assoc, List.singleton_append, ← h2]; exact hsplit
          · subst h1
            refine ⟨_, ['+'], c :: cs, n, ?_, hws, Or.inr (Or.inl rfl), by simp, hn, by simp,
              by simpa using hrange.1, by simpa using hrange.2⟩
            rw [List.append_assoc, List.singleton_append, ← h2]; exact hsplit
          · subst h1
            refine ⟨_, [], c :: cs, n, ?_, hws, Or.inl rfl, by simp, hn, by simp,
              by simpa using hrange.1, by simpa using hrange.2⟩
            rw [List.append_nil, ← h2]; exact hsplit
        · rw [if_neg hrange] at h; cases h
  · rintro ⟨ws, sign, ds, n, hline, hws2, hsign, hds, hn, hv, hlo, hhi⟩
    obtain ⟨d, ds1, rfl⟩ : ∃ d ds1, ds = d :: ds1 := by
      cases ds with
      | nil => exact absurd rfl hds
      | cons d ds1 => exact ⟨d, ds1, rfl⟩
    have hd : d.isDigit = true := digitsValue_all_digits _ 0 n hn d (List.mem_cons_self _ _)
    have hm : d ≠ '-' := by intro e; subst e; revert hd; decide
    have hp : d ≠ '+' := by intro e; subst e; revert hd; decide
    have hbody : line.data.dropWhile isSpaceChar = sign ++ d :: ds1 := by
      rw [hline, List.append_assoc]
      apply dropWhile_space_append ws _ hws2
      intro c hc
      rcases hsign with h | h | h <;> subst h <;> simp at hc <;> subst hc
      · exact isDigit_not_space hd
      · decide
      · decide
    rw [hbody] at hcases
    have key : r = d :: ds1 ∧ (neg = true ↔ sign = ['-']) := by
      rcases hsign with h | h | h <;> subst h
      · rcases hcases with ⟨_, h2⟩ | ⟨_, h2⟩ | ⟨h1, h2, _⟩
        · simp at h2; exact absurd h2.1 hm
        · simp at h2; exact absurd h2.1 hp
        · subst h1; exact ⟨by simpa using h2.symm, by simp⟩
      · rcases hcases with ⟨_, h2⟩ | ⟨h1, h2⟩ | ⟨_, _, h3⟩
        · simp at h2
        · subst h1; simp at h2; exact ⟨h2.symm, by simp⟩
        · exact absurd rfl (h3 (d :: ds1)).2
      · rcases hcases with ⟨h1, h2⟩ | ⟨_, h2⟩ | ⟨_, _, h3⟩
        · subst h1; simp at h2; exact ⟨h2.symm, by simp⟩
        · simp at h2
        · exact absurd rfl (h3 (d :: ds1)).1
    obtain ⟨hr, hneg⟩ := key
    subst hr
    rw [parseInputNumber_of_digits line hsg, hn]
    have hval : (if neg = true then -(n : Int) else (n : Int)) = v := by
      rw [hv]
      by_cases hs : sign = ['-']
      · simp [hs, hneg.2 hs]
      · have : neg = false := by
          cases neg with
          | false => rfl
          | true => exact absurd (hneg.1 rfl) hs
        simp [hs, this]
    simp only [hval]
    rw [if_pos ⟨hlo, hhi⟩]

/-! ## Lemmas on paths of the RUN loop -/

theorem execute_error_same {stmt : Statement} {m m1 : Machine} {e : ErrorKind}
    (h : execute stmt m = .error e m1) : m1 = m := by
  cases stmt with
  | RemStmt => simp [execute] at h
  | LetStmt var exp =>
    simp only [execute] at h
    split at h <;> cases h
    rfl
  | PrintStmt exp =>
    simp only [execute] at h
    split at h <;> cases h
    rfl
  | InputStmt var =>
    simp only [execute] at h
    split at h <;> cases h
  | GotoStmt n =>
    simp only [execute, requestJump] at h
    split at h <;> cases h
    rfl
  | IfStmt lhs rhs op n =>
    simp only [execute, requestJump] at h
    split at h
    · cases h; rfl
    · split at h
      · cases h; rfl
      · split at h
        · split at h <;> cases h
          rfl
        · cases h
  | EndStmt => simp [execute] at h

theorem stepOutcome_error {cur : Int} {m m1 : Machine} {e : ErrorKind}
    (h : stepOutcome cur m = .error e m1) :
    m1 = resetRegisters cur m ∧
    ∃ stmt, m.program.getParsedStatement cur = some stmt ∧
      execute stmt (resetRegisters cur m) = .error e (resetRegisters cur m) := by
  cases hp : m.program.getParsedStatement cur with
  | none => rw [stepOutcome_unparsed hp] at h; cases h
  | some stmt =>
    rw [stepOutcome_parsed hp] at h
    have := execute_error_same h
    subst this
    exact ⟨rfl, stmt, rfl, h⟩

theorem runStep_stop_error_iff {cur : Int} {m m1 : Machine} {e : ErrorKind} :
    runStep cur m = .stop (.error e m1) ↔ stepOutcome cur m = .error e m1 := by
  unfold runStep
  cases hso : stepOutcome cur m with
  | ok m2 =>
    simp only
    constructor
    · intro h
      split at h
      · split at h <;> cases h
      · cases h
    · intro h; cases h
  | error e2 m2 => simp
  | exit m2 => simp
  | hang => simp

theorem runTrace_succ_next {fuel : Nat} {cur line : Int} {m m2 : Machine} (hc : cur ≠ -1)
    (h : runStep cur m = .next line m2) :
    runTrace (fuel + 1) cur m = cur :: runTrace fuel line m2 := by
  conv_lhs => unfold runTrace
  rw [if_neg hc]
  simp only [h]

theorem runTrace_succ_stop {fuel : Nat} {cur : Int} {m : Machine} {o : Outcome} (hc : cur ≠ -1)
    (h : runStep cur m = .stop o) :
    runTrace (fuel + 1) cur m = [cur] := by
  conv_lhs => unfold runTrace
  rw [if_neg hc]
  simp only [h]

theorem RunsTo.entries {cur k : Int} {m mk : Machine} {pre : List Int}
    (h : RunsTo cur m pre k mk) : mk.program.entries = m.program.entries := by
  induction h with
  | here cur m => rfl
  | step _ hstep _ ih => exact ih.trans (runStep_next_entries hstep)

/-- A path of the RUN loop uses one unit of fuel for each line it executes. -/
theorem RunsTo.runLoop {cur k : Int} {m mk : Machine} {pre : List Int}
    (h : RunsTo cur m pre k mk) (fuel : Nat) :
    runLoop (pre.length + fuel) cur m = runLoop fuel k mk ∧
    runTrace (pre.length + fuel) cur m = pre ++ runTrace fuel k mk := by
  induction h with
  | here cur m => simp
  | @step cur line k m m2 mk pre hc hstep _ ih =>
    have e : (cur :: pre).length + fuel = (pre.length + fuel) + 1 := by
      simp only [List.length_cons]; omega
    rw [e]
    refine ⟨?_, ?_⟩
    · rw [runLoop_succ_next hc hstep]; exact ih.1
    · rw [runTrace_succ_next hc hstep, ih.2]
      rfl

/-- Every RUN that returns has followed a path of the loop to the line on which it
left: either the end of the program, or a line whose pass said "stop". -/
theorem runLoop_path (fuel : Nat) :
    ∀ (cur : Int) (m : Machine) (o : Outcome), runLoop fuel cur m = some o →
      ∃ pre k mk, RunsTo cur m pre k mk ∧ pre.length ≤ fuel ∧
        ((k = -1 ∧ o = .ok mk ∧ runTrace fuel cur m = pre) ∨
         (k ≠ -1 ∧ runStep k mk = .stop o ∧ runTrace fuel cur m = pre ++ [k] ∧
            pre.length < fuel)) := by
  induction fuel with
  | zero =>
    intro cur m o h
    unfold runLoop at h
    split at h
    · rename_i hc
      cases h
      exact ⟨[], cur, m, RunsTo.here cur m, le_refl _,
        Or.inl ⟨hc, rfl, by unfold runTrace; simp [hc]⟩⟩
    · cases h
  | succ f ih =>
    intro cur m o h
    by_cases hc : cur = -1
    · unfold runLoop at h
      rw [if_pos hc] at h
      cases h
      exact ⟨[], cur, m, RunsTo.here cur m, Nat.zero_le _,
        Or.inl ⟨hc, rfl, by unfold runTrace; simp [hc]⟩⟩
    · cases hstep : runStep cur m with
      | next line m2 =>
        rw [runLoop_succ_next hc hstep] at h
        obtain ⟨pre, k, mk, hpath, hlen, hcase⟩ := ih line m2 o h
        have htr : runTrace (f + 1) cur m = cur :: runTrace f line m2 :=
          runTrace_succ_next hc hstep
        refine ⟨cur :: pre, k, mk, RunsTo.step hc hstep hpath, by simp; omega, ?_⟩
        rcases hcase with ⟨h1, h2, h3⟩ | ⟨h1, h2, h3, h4⟩
        · exact Or.inl ⟨h1, h2, by rw [htr, h3]⟩
        · exact Or.inr ⟨h1, h2, by rw [htr, h3]; simp, by simp; omega⟩
      | stop o2 =>
        rw [runLoop_succ_stop hc hstep] at h
        cases h
        have htr : runTrace (f + 1) cur m = [cur] := runTrace_succ_stop hc hstep
        exact ⟨[], cur, m, RunsTo.here cur m, Nat.zero_le _,
          Or.inr ⟨hc, hstep, by rw [htr]; simp, by simp⟩⟩

/-! ## Lemmas on evaluation -/

theorem applyOp_not_div {op : BinOp} (h : op ≠ .div) (a b : Int) :
    ∃ v, applyOp op a b = .ok v := by
  cases op with
  | add => exact ⟨_, rfl⟩
  | sub => exact ⟨_, rfl⟩
  | mul => exact ⟨_, rfl⟩
  | div => exact absurd rfl h

theorem eval_division_free (e : Expression) (s : EvalState) (h : e.hasDivision = false) :
    (∃ v, e.eval s = .ok v) ∨ e.eval s = .error .UndefinedVariable := by
  induction e with
  | Constant v => exact Or.inl ⟨v, rfl⟩
  | Variable name =>
    simp only [Expression.eval]
    cases s.getValue name with
    | none => exact Or.inr rfl
    | some v => exact Or.inl ⟨v, rfl⟩
  | BinaryOp op l r ihl ihr =>
    simp only [Expression.hasDivision, Bool.or_eq_false_iff, decide_eq_false_iff_not] at h
    obtain ⟨⟨hop, hl⟩, hr⟩ := h
    simp only [Expression.eval]
    rcases ihl hl with ⟨a, ha⟩ | ha
    · rw [ha]
      rcases ihr hr with ⟨b, hb⟩ | hb
      · rw [hb]
        exact Or.inl (applyOp_not_div hop a b)
      · rw [hb]
        exact Or.inr rfl
    · rw [ha]
      exact Or.inr rfl

theorem eval_congr (e : Expression) (s t : EvalState)
    (h : ∀ name, t.getValue name = s.getValue name) : e.eval t = e.eval s := by
  induction e with
  | Constant v => rfl
  | Variable name => simp only [Expression.eval, h name]
  | BinaryOp op l r ihl ihr => simp only [Expression.eval, ihl, ihr]

/-! ## Lemmas on single passes of the RUN loop -/

theorem runStep_unparsed {cur : Int} {m : Machine}
    (h : m.program.getParsedStatement cur = none) :
    runStep cur m = .next (m.program.getNextLineNumber cur) (resetRegisters cur m) := by
  unfold runStep
  rw [stepOutcome_unparsed h]
  simp [resetRegisters, Program.getNextLineNumber]

theorem runStep_jump {cur t : Int} {m m2 : Machine} (h : stepOutcome cur m = .ok m2)
    (hj : m2.program.shouldJump = true) (ht : m2.program.jumpTarget = t) (hne : t ≠ -1) :
    runStep cur m = .next t m2 := by
  unfold runStep
  rw [h]
  simp only [hj, ht, if_true, if_neg hne]

theorem hasLine_ne_end {p : Program} (hwf : p.WF) {t : Int} (h : p.hasLine t) : t ≠ -1 := by
  obtain ⟨e, he, rfl⟩ := h
  have := (hwf.2 e he).1
  omega

theorem reachable_gotoFooPrint : Reachable gotoFooPrint :=
  Reachable.step 0 line30Print2 (.ok gotoFooPrint)
    (Reachable.step 0 line20Foo
      (.error .SyntaxError ⟨⟨[]⟩,
        ⟨[⟨10, "10 GOTO 20", some (.GotoStmt 20)⟩,
          ⟨20, "20 FOO", none⟩], false, -1, -1⟩, [], []⟩)
      (Reachable.step 0 line10Goto20
        (.ok ⟨⟨[]⟩,
          ⟨[⟨10, "10 GOTO 20", some (.GotoStmt 20)⟩], false, -1, -1⟩, [], []⟩)
        (Reachable.initial []) (by decide) (by decide) rfl)
      (by decide) (by decide) rfl)
    (by decide) (by decide) rfl

/-! ## Lemmas on the control registers -/

theorem runLoop_withRegisters (sj : Bool) (jt cl : Int) (fuel : Nat) {cur : Int}
    (hc : cur ≠ -1) (m : Machine) :
    runLoop fuel cur (withRegisters sj jt cl m) = runLoop fuel cur m := by
  have hstep : runStep cur (withRegisters sj jt cl m) = runStep cur m := rfl
  cases fuel with
  | zero =>
    unfold runLoop
    rw [if_neg hc, if_neg hc]
  | succ f =>
    unfold runLoop
    rw [if_neg hc, if_neg hc, hstep]

theorem runTrace_withRegisters (sj : Bool) (jt cl : Int) (fuel : Nat) (cur : Int)
    (m : Machine) :
    runTrace fuel cur (withRegisters sj jt cl m) = runTrace fuel cur m := by
  have hstep : runStep cur (withRegisters sj jt cl m) = runStep cur m := rfl
  cases fuel with
  | zero =>
    unfold runTrace
    rfl
  | succ f =>
    unfold runTrace
    rw [hstep]

/-- A statement that returns with `shouldJump` set, when it was not set before, is a
GOTO or an IF on the line in `jumpTarget`, or an END. -/
theorem execute_sets_jump {stmt : Statement} {m m2 : Machine}
    (h0 : m.program.shouldJump = false) (h : execute stmt m = .ok m2)
    (hj : m2.program.shouldJump = true) :
    stmt = .GotoStmt m2.program.jumpTarget ∨
    (∃ lhs rhs op, stmt = .IfStmt lhs rhs op m2.program.jumpTarget) ∨
    (stmt = .EndStmt ∧ m2.program.jumpTarget = -1) := by
  cases stmt with
  | RemStmt =>
    simp only [execute] at h
    cases h
    rw [h0] at hj; cases hj
  | LetStmt var exp =>
    have hp := @execute_let_program var exp m m2 (by rw [h]; rfl)
    rw [hp, h0] at hj; cases hj
  | PrintStmt exp =>
    have hp := @execute_print_program exp m m2 (by rw [h]; rfl)
    rw [hp, h0] at hj; cases hj
  | InputStmt var =>
    have hp := @execute_input_program var m m2 (by rw [h]; rfl)
    rw [hp, h0] at hj; cases hj
  | GotoStmt n =>
    simp only [execute, requestJump] at h
    split at h
    · cases h
    · cases h
      exact Or.inl rfl
  | IfStmt lhs rhs op n =>
    simp only [execute, requestJump] at h
    split at h
    · cases h
    · split at h
      · cases h
      · split at h
        · split at h
          · cases h
          · cases h
            exact Or.inr (Or.inl ⟨lhs, rhs, op, rfl⟩)
        · cases h
          rw [h0] at hj; cases hj
  | EndStmt =>
    simp only [execute] at h
    cases h
    exact Or.inr (Or.inr ⟨rfl, rfl⟩)

/-! ## Lemmas on the lines a RUN moves to -/

theorem headLine_hasLine (p : Program) :
    (p.getFirstLineNumber = -1 ∧ p.entries = []) ∨ p.hasLine p.getFirstLineNumber := by
  unfold Program.getFirstLineNumber
  cases h : p.entries with
  | nil => exact Or.inl ⟨rfl, rfl⟩
  | cons e es =>
    right
    exact ⟨e, by rw [h]; exact List.mem_cons_self _ _, rfl⟩

theorem getNextLineNumber_hasLine (p : Program) (n : Int) :
    p.getNextLineNumber n = -1 ∨ p.hasLine (p.getNextLineNumber n) := by
  unfold Program.getNextLineNumber
  cases h : p.entries.find? (fun e => decide (n < e.lineNumber)) with
  | none => exact Or.inl rfl
  | some e => exact Or.inr ⟨e, List.mem_of_find?_eq_some h, rfl⟩

theorem hasLine_congr {p q : Program} (h : p.entries = q.entries) (n : Int) :
    p.hasLine n ↔ q.hasLine n := by
  unfold Program.hasLine
  rw [h]

theorem requestJump_ok_hasLine {t : Int} {m m2 : Machine} (h : requestJump t m = .ok m2) :
    m.program.hasLine t := by
  by_contra hn
  rw [requestJump_of_not_hasLine hn] at h
  cases h

theorem execute_jump_hasLine {stmt : Statement} {m m2 : Machine}
    (h0 : m.program.shouldJump = false) (h : execute stmt m = .ok m2)
    (hj : m2.program.shouldJump = true) :
    m2.program.jumpTarget = -1 ∨ m.program.hasLine m2.program.jumpTarget := by
  rcases execute_sets_jump h0 h hj with hs | ⟨lhs, rhs, op, hs⟩ | ⟨_, ht⟩
  · rw [hs] at h
    exact Or.inr (requestJump_ok_hasLine h)
  · rw [hs] at h
    simp only [execute] at h
    split at h
    · cases h
    · split at h
      · cases h
      · split at h
        · exact Or.inr (requestJump_ok_hasLine h)
        · cases h
          rw [h0] at hj; cases hj
  · exact Or.inl ht

/-- The line a pass of the RUN loop goes on with is the target of a jump the
statement requested, which is stored, or the successor of the current line, which is
stored or the end of the program. -/
theorem runStep_next_hasLine {cur line : Int} {m m2 : Machine}
    (h : runStep cur m = .next line m2) :
    ((m2.program.shouldJump = true ∧ line = m2.program.jumpTarget ∧
        m.program.hasLine line) ∨
      (m2.program.shouldJump = false ∧ line = m.program.getNextLineNumber cur ∧
        (line = -1 ∨ m.program.hasLine line))) := by
  unfold runStep at h
  cases hso : stepOutcome cur m with
  | ok m3 =>
    rw [hso] at h
    have hent : m3.program.entries = m.program.entries :=
      stepOutcome_entries (by rw [hso]; rfl)
    simp only at h
    cases hb : m3.program.shouldJump with
    | true =>
      rw [hb] at h
      simp only [if_true] at h
      by_cases ht : m3.program.jumpTarget = -1
      · rw [if_pos ht] at h; cases h
      · rw [if_neg ht] at h
        cases h
        left
        refine ⟨hb, rfl, ?_⟩
        cases hp : m.program.getParsedStatement cur with
        | none =>
          rw [stepOutcome_unparsed hp] at hso
          cases hso
          cases hb
        | some stmt =>
          rw [stepOutcome_parsed hp] at hso
          rcases execute_jump_hasLine rfl hso hb with h1 | h1
          · exact absurd h1 ht
          · exact h1
    | false =>
      rw [hb] at h
      simp only [Bool.false_eq_true, if_false] at h
      cases h
      right
      have hn := getNextLineNumber_congr hent cur
      refine ⟨hb, hn, ?_⟩
      rw [hn]
      exact getNextLineNumber_hasLine m.program cur
  | error e m3 => rw [hso] at h; cases h
  | exit m3 => rw [hso] at h; cases h
  | hang => rw [hso] at h; cases h

theorem RunsTo.hasLine {cur k : Int} {m mk : Machine} {pre : List Int}
    (h : RunsTo cur m pre k mk) (hcur : cur = -1 ∨ m.program.hasLine cur) :
    (k = -1 ∨ m.program.hasLine k) ∧ ∀ j ∈ pre, m.program.hasLine j := by
  induction h with
  | here cur m => exact ⟨hcur, fun j hj => by cases hj⟩
  | @step cur line k m m2 mk pre hc hstep _ ih =>
    have hent := runStep_next_entries hstep
    have hline : line = -1 ∨ m2.program.hasLine line := by
      rcases runStep_next_hasLine hstep with ⟨_, _, h3⟩ | ⟨_, _, h3⟩
      · exact Or.inr ((hasLine_congr hent line).mpr h3)
      · exact h3.imp id (fun h => (hasLine_congr hent line).mpr h)
    obtain ⟨h1, h2⟩ := ih hline
    refine ⟨h1.imp id (fun h => (hasLine_congr hent k).mp h), ?_⟩
    intro j hj
    rcases List.mem_cons.1 hj with rfl | hj
    · rcases hcur with h | h
      · exact absurd h hc
      · exact h
    · exact (hasLine_congr hent j).mp (h2 j hj)

theorem runTrace_hasLine (fuel : Nat) :
    ∀ (cur : Int) (m : Machine), (cur = -1 ∨ m.program.hasLine cur) →
      ∀ k ∈ runTrace fuel cur m, m.program.hasLine k := by
  induction fuel with
  | zero =>
    intro cur m _ k hk
    unfold runTrace at hk
    split at hk <;> cases hk
  | succ f ih =>
    intro cur m hcur k hk
    by_cases hc : cur = -1
    · rw [hc, runTrace_at_end] at hk; cases hk
    · have hl : m.program.hasLine cur := hcur.resolve_left hc
      cases hstep : runStep cur m with
      | next line m2 =>
        rw [runTrace_succ_next hc hstep] at hk
        rcases List.mem_cons.1 hk with rfl | hk
        · exact hl
        · have hent := runStep_next_entries hstep
          have hline : line = -1 ∨ m2.program.hasLine line := by
            rcases runStep_next_hasLine hstep with ⟨_, _, h3⟩ | ⟨_, _, h3⟩
            · exact Or.inr ((hasLine_congr hent line).mpr h3)
            · exact h3.imp id (fun h => (hasLine_congr hent line).mpr h)
          exact (hasLine_congr hent k).mp (ih line m2 hline k hk)
      | stop o =>
        rw [runTrace_succ_stop hc hstep] at hk
        rcases List.mem_singleton.1 hk with rfl
        exact hl

/-! ## Lemmas on programs without jumps -/

theorem runStep_of_no_jump {cur : Int} {m m2 : Machine} (hso : stepOutcome cur m = .ok m2)
    (hnj : m2.program.shouldJump = false) :
    runStep cur m = .next (m.program.getNextLineNumber cur) m2 := by
  have hent : m2.program.entries = m.program.entries :=
    stepOutcome_entries (by rw [hso]; rfl)
  unfold runStep
  rw [hso]
  simp only [hnj]
  rw [getNextLineNumber_congr hent]
  rfl

/-- A pass of the RUN loop on a line that holds no statement, or a REM, LET, PRINT or
END: it goes on with the successor line, or it stops normally on an END, or it
stops with the error of the statement. -/
theorem runStep_sequential {cur : Int} {m : Machine}
    (hseq : ∀ stmt, m.program.getParsedStatement cur = some stmt → stmt.isSequential = true) :
    (m.program.getParsedStatement cur ≠ some .EndStmt ∧
      ∃ m2, runStep cur m = .next (m.program.getNextLineNumber cur) m2) ∨
    (m.program.getParsedStatement cur = some .EndStmt ∧
      ∃ m1, runStep cur m = .stop (.ok m1)) ∨
    (∃ stmt err m1, m.program.getParsedStatement cur = some stmt ∧
      runStep cur m = .stop (.error err m1) ∧ execute stmt m1 = .error err m1) := by
  cases hp : m.program.getParsedStatement cur with
  | none => exact Or.inl ⟨by simp, _, runStep_unparsed hp⟩
  | some stmt =>
    have hs := hseq stmt hp
    cases hso : stepOutcome cur m with
    | ok m2 =>
      by_cases hend : stmt = .EndStmt
      · subst hend
        exact Or.inr (Or.inl ⟨rfl, _, runStep_end hp⟩)
      · left
        refine ⟨by simpa using hend, m2, ?_⟩
        have hex := hso
        rw [stepOutcome_parsed hp] at hex
        have hnj : m2.program.shouldJump = false := by
          cases hb : m2.program.shouldJump with
          | false => rfl
          | true =>
            rcases execute_sets_jump rfl hex hb with h | ⟨_, _, _, h⟩ | ⟨h, _⟩
            · rw [h] at hs; cases hs
            · rw [h] at hs; cases hs
            · exact absurd h hend
        exact runStep_of_no_jump hso hnj
    | error err m1 =>
      right; right
      obtain ⟨h1, stmt2, h2, h3⟩ := stepOutcome_error hso
      rw [hp] at h2
      cases h2
      subst h1
      exact ⟨stmt, err, _, rfl, runStep_stop_error_iff.mpr hso, h3⟩
    | exit m1 =>
      rw [stepOutcome_parsed hp] at hso
      cases stmt with
      | RemStmt => simp [execute] at hso
      | LetStmt var exp => simp only [execute] at hso; split at hso <;> cases hso
      | PrintStmt exp => simp only [execute] at hso; split at hso <;> cases hso
      | InputStmt var => cases hs
      | GotoStmt n => cases hs
      | IfStmt lhs rhs op n => cases hs
      | EndStmt => simp [execute] at hso
    | hang =>
      rw [stepOutcome_parsed hp] at hso
      cases stmt with
      | RemStmt => simp [execute] at hso
      | LetStmt var exp => simp only [execute] at hso; split at hso <;> cases hso
      | PrintStmt exp => simp only [execute] at hso; split at hso <;> cases hso
      | InputStmt var => cases hs
      | GotoStmt n => cases hs
      | IfStmt lhs rhs op n => cases hs
      | EndStmt => simp [execute] at hso

/-- The RUN loop on the rest `suf` of a store without jumps, with fuel for every line
of `suf`: it returns, after having executed a beginning `done` of `suf` line by line,
and has stopped after the last line, on the first END, or on a failing statement. -/
theorem runLoop_sequential_suffix (suf : List ProgramEntry) :
    ∀ (pre : List ProgramEntry) (m : Machine) (fuel : Nat),
      m.program.entries = pre ++ suf →
      (pre ++ suf).Pairwise (fun a b => a.lineNumber < b.lineNumber) →
      (∀ e ∈ pre ++ suf, 0 ≤ e.lineNumber) →
      (∀ e ∈ pre ++ suf, ∀ stmt, e.parsed = some stmt → stmt.isSequential = true) →
      suf.length ≤ fuel →
      ∃ (done : List ProgramEntry) (o : Outcome), done <+: suf ∧
        runLoop fuel (headLine suf) m = some o ∧
        runTrace fuel (headLine suf) m = done.map (fun e => e.lineNumber) ∧
        ((∃ m1, o = .ok m1 ∧ done = suf ∧ ∀ e ∈ suf, e.parsed ≠ some .EndStmt) ∨
         (∃ m1 init e, o = .ok m1 ∧ done = init ++ [e] ∧ e.parsed = some .EndStmt ∧
            ∀ b ∈ init, b.parsed ≠ some .EndStmt) ∨
         (∃ err m1 init e stmt, o = .error err m1 ∧ done = init ++ [e] ∧
            e.parsed = some stmt ∧ execute stmt m1 = .error err m1 ∧
            ∀ b ∈ init, b.parsed ≠ some .EndStmt)) := by
  induction suf with
  | nil =>
    intro pre m fuel _ _ _ _ _
    refine ⟨[], .ok m, List.prefix_refl _, runLoop_at_end fuel m, runTrace_at_end fuel m,
      Or.inl ⟨m, rfl, rfl, fun e he => by cases he⟩⟩
  | cons e rest ih =>
    intro pre m fuel he hs hn hseq hf
    obtain ⟨f, rfl⟩ : ∃ f, fuel = f + 1 := ⟨fuel - 1, by simp at hf; omega⟩
    have hmem : e ∈ pre ++ e :: rest := List.mem_append_right _ (List.mem_cons_self _ _)
    have hne : e.lineNumber ≠ -1 := by
      have := hn e hmem
      omega
    have hp : m.program.getParsedStatement e.lineNumber = e.parsed := by
      have := findEntry_of_mem hs hmem
      rw [← he] at this
      simp [Program.getParsedStatement, this]
    have hnext := getNextLineNumber_middle hs m.program he
    have hh : headLine (e :: rest) = e.lineNumber := rfl
    rw [hh]
    have hseq1 : ∀ stmt, m.program.getParsedStatement e.lineNumber = some stmt →
        stmt.isSequential = true := by
      intro stmt h
      rw [hp] at h
      exact hseq e hmem stmt h
    rcases runStep_sequential hseq1 with ⟨hnend, m2, hstep⟩ | ⟨hend, m1, hstep⟩ |
        ⟨stmt, err, m1, hst, hstep, hex⟩
    · rw [hnext] at hstep
      rw [hp] at hnend
      have hent : m2.program.entries = (pre ++ [e]) ++ rest := by
        rw [runStep_next_entries hstep, he]; simp
      obtain ⟨done, o, h1, h2, h3, h4⟩ := ih (pre ++ [e]) m2 f hent
        (by simpa using hs) (by simpa using hn) (by simpa using hseq)
        (by simp at hf; omega)
      refine ⟨e :: done, o, ?_, ?_, ?_, ?_⟩
      · exact List.prefix_cons_inj e |>.mpr h1
      · rw [runLoop_succ_next hne hstep]; exact h2
      · rw [runTrace_succ_next hne hstep, h3]; rfl
      · rcases h4 with ⟨m1, ho, hd, hall⟩ | ⟨m1, init, b, ho, hd, hb, hall⟩ |
            ⟨err, m1, init, b, stmt, ho, hd, hb, hex, hall⟩
        · refine Or.inl ⟨m1, ho, by rw [hd], ?_⟩
          intro a ha
          rcases List.mem_cons.1 ha with rfl | ha
          · exact hnend
          · exact hall a ha
        · refine Or.inr (Or.inl ⟨m1, e :: init, b, ho, by rw [hd]; rfl, hb, ?_⟩)
          intro a ha
          rcases List.mem_cons.1 ha with rfl | ha
          · exact hnend
          · exact hall a ha
        · refine Or.inr (Or.inr ⟨err, m1, e :: init, b, stmt, ho, by rw [hd]; rfl, hb, hex, ?_⟩)
          intro a ha
          rcases List.mem_cons.1 ha with rfl | ha
          · exact hnend
          · exact hall a ha
    · rw [hp] at hend
      refine ⟨[e], .ok m1, by simp, runLoop_succ_stop hne hstep,
        by rw [runTrace_succ_stop hne hstep]; rfl,
        Or.inr (Or.inl ⟨m1, [], e, rfl, rfl, hend, fun b hb => by cases hb⟩)⟩
    · rw [hp] at hst
      refine ⟨[e], .error err m1, by simp, runLoop_succ_stop hne hstep,
        by rw [runTrace_succ_stop hne hstep]; rfl,
        Or.inr (Or.inr ⟨err, m1, [], e, stmt, rfl, rfl, hst, hex, fun b hb => by cases hb⟩)⟩

theorem reachable_letPrintEndPrint : Reachable letPrintEndPrint :=
  Reachable.step 0 line40Print2 (.ok letPrintEndPrint)
    (Reachable.step 0 line30End
      (.ok ⟨⟨[]⟩,
        ⟨[⟨10, "10 LET X = 1", some (.LetStmt "X" (.Constant 1))⟩,
          ⟨20, "20 PRINT X", some (.PrintStmt (.Variable "X"))⟩,
          ⟨30, "30 END", some .EndStmt⟩], false, -1, -1⟩, [], []⟩)
      (Reachable.step 0 line20PrintX
        (.ok ⟨⟨[]⟩,
          ⟨[⟨10, "10 LET X = 1", some (.LetStmt "X" (.Constant 1))⟩,
            ⟨20, "20 PRINT X", some (.PrintStmt (.Variable "X"))⟩], false, -1, -1⟩, [], []⟩)
        (Reachable.step 0 line10LetX1
          (.ok ⟨⟨[]⟩,
            ⟨[⟨10, "10 LET X = 1", some (.LetStmt "X" (.Constant 1))⟩], false, -1, -1⟩,
            [], []⟩)
          (Reachable.initial []) (by decide) (by decide) rfl)
        (by decide) (by decide) rfl)
      (by decide) (by decide) rfl)
    (by decide) (by decide) rfl

theorem isSequential_letPrintEndPrint : letPrintEndPrint.program.isSequential := by
  intro e he stmt hst
  simp only [letPrintEndPrint, List.mem_cons, List.mem_singleton, List.not_mem_nil,
    or_false] at he
  rcases he with rfl | rfl | rfl | rfl <;> cases hst <;> rfl

/-! # Main theorems -/

/-! ## RUN and END -/

/-- C1: END halts RUN at once. Executing END sets `shouldJump = true` and
`jumpTarget = -1`; a pass of the RUN loop on a line holding END leaves the loop with
that machine and executes no further line; in every RUN, a line holding END that
is executed is the last line executed and is executed once, and the RUN line
returns normally with the registers as END left them; and for the program
`10 PRINT 1`, `20 END`, `30 PRINT 2`, RUN writes exactly `1` and executes the lines
10 and 20 only. -/
theorem end_halts_run :
    (∀ m : Machine, execute .EndStmt m =
        .ok { m with program := { m.program with shouldJump := true, jumpTarget := -1 } }) ∧
    (∀ (fuel : Nat) (cur : Int) (m : Machine), cur ≠ -1 →
        m.program.getParsedStatement cur = some .EndStmt →
        runLoop (fuel + 1) cur m = some (.ok (endMachine cur m)) ∧
        runTrace (fuel + 1) cur m = [cur]) ∧
    (∀ (fuel : Nat) (m : Machine) (line : InputLine) (tok : Token) (rest : List Token)
        (k : Int),
        line.tokens = tok :: rest → tok.type ≠ .NUMBER → tok.text = "RUN" →
        k ∈ runTrace fuel m.program.getFirstLineNumber m →
        m.program.getParsedStatement k = some .EndStmt →
        ∃ pre m1, runTrace fuel m.program.getFirstLineNumber m = pre ++ [k] ∧ k ∉ pre ∧
          processLine fuel line m = some (.ok (endMachine k m1)) ∧
          m1.program.entries = m.program.entries) ∧
    (∃ m1 m2, processLine 0 line10Print1 (Machine.initial []) = some (.ok m1) ∧
        processLine 0 line20End m1 = some (.ok m2) ∧
        processLine 0 line30Print2 m2 = some (.ok printEndPrint)) ∧
    (∀ fuel : Nat, 2 ≤ fuel →
        ∃ m4, processLine fuel runLine printEndPrint = some (.ok m4) ∧
          m4.output = [.number 1] ∧
          runTrace fuel printEndPrint.program.getFirstLineNumber printEndPrint = [10, 20]) := by
  refine ⟨fun m => rfl, fun fuel cur m hc h => runLoop_end fuel hc h, ?_, ?_, ?_⟩
  · intro fuel m line tok rest k hl hty htx hk h
    rw [processLine_run hl hty htx]
    exact runTrace_end_last fuel _ m k hk h
  · refine ⟨_, _, rfl, rfl, ?_⟩
    decide
  · intro fuel hf
    obtain ⟨f, rfl⟩ : ∃ f, fuel = f + 2 := ⟨fuel - 2, by omega⟩
    have hstep : runStep 10 printEndPrint = .next 20 afterPrint1 := by decide
    have hfirst : printEndPrint.program.getFirstLineNumber = 10 := rfl
    have hend := @runLoop_end f 20 afterPrint1 (by decide) (by decide)
    refine ⟨endMachine 20 afterPrint1, ?_, rfl, ?_⟩
    · rw [processLine_runLine, hfirst]
      show runLoop (f + 1 + 1) 10 printEndPrint = _
      unfold runLoop
      rw [if_neg (by decide)]
      simp only [hstep]
      exact hend.1
    · rw [hfirst]
      show runTrace (f + 1 + 1) 10 printEndPrint = _
      unfold runTrace
      rw [if_neg (by decide)]
      simp only [hstep]
      rw [hend.2]

/-- C1 at the program `10 PRINT 1`, `20 END`, `30 PRINT 2`: a RUN loop that stands
at line 20 leaves at once. -/
theorem end_halts_run_witness :
    (20 : Int) ≠ -1 ∧ printEndPrint.program.getParsedStatement 20 = some .EndStmt ∧
      runLoop (0 + 1) 20 printEndPrint = some (.ok (endMachine 20 printEndPrint)) ∧
      runTrace (0 + 1) 20 printEndPrint = [20] :=
  ⟨by decide, by decide,
    end_halts_run.2.1 0 20 printEndPrint (by decide) (by decide)⟩

/-! ## GOTO -/

/-- C2: GOTO and the existence of its target. In every machine the interpreter can
reach, executing `GOTO t` fails with `LineNumberError` exactly when the store has no
entry (no source text) for line `t`; it fails with no other error, and a failure
leaves the whole machine, control registers and environment included, as it was;
otherwise the result is the same machine with `shouldJump = true` and
`jumpTarget = t` and nothing else changed. -/
theorem goto_fails_iff_line_missing (m : Machine) (hm : Reachable m) (t : Int) :
    ((∃ m1, execute (.GotoStmt t) m = .error .LineNumberError m1) ↔ ¬ m.program.hasLine t) ∧
    (∀ e m1, execute (.GotoStmt t) m = .error e m1 → e = .LineNumberError ∧ m1 = m) ∧
    (¬ m.program.hasLine t → execute (.GotoStmt t) m = .error .LineNumberError m) ∧
    (m.program.hasLine t → execute (.GotoStmt t) m =
      .ok { m with program := { m.program with shouldJump := true, jumpTarget := t } }) := by
  have hwf := hm.wf
  have hmiss : ∀ e m1, execute (.GotoStmt t) m = .error e m1 → ¬ m.program.hasLine t := by
    intro e m1 h hl
    have := requestJump_of_hasLine hwf hl
    simp only [execute] at h
    rw [this] at h
    cases h
  refine ⟨⟨?_, ?_⟩, ?_, fun h => requestJump_of_not_hasLine h,
    fun h => requestJump_of_hasLine hwf h⟩
  · rintro ⟨m1, h⟩
    exact hmiss _ _ h
  · intro h
    exact ⟨m, requestJump_of_not_hasLine h⟩
  · intro e m1 h
    have h2 : execute (.GotoStmt t) m = .error .LineNumberError m :=
      requestJump_of_not_hasLine (hmiss e m1 h)
    rw [h2] at h
    cases h
    exact ⟨rfl, rfl⟩

/-- C2 at `GOTO 999` in the program `10 PRINT 1`, `20 END`, `30 PRINT 2`, which has
no line 999: the statement fails with `LineNumberError` and changes nothing. -/
theorem goto_fails_iff_line_missing_witness :
    Reachable printEndPrint ∧ ¬ printEndPrint.program.hasLine 999 ∧
      execute (.GotoStmt 999) printEndPrint = .error .LineNumberError printEndPrint :=
  ⟨reachable_printEndPrint, by simp [Program.hasLine, printEndPrint],
    (goto_fails_iff_line_missing printEndPrint reachable_printEndPrint 999).2.2.1
      (by simp [Program.hasLine, printEndPrint])⟩

/-! ## IF -/

/-- C3: IF. For an IF statement whose two operands evaluate to `a` and `b`: the
operators `=`, `<`, `>` compare `a` with `b`; when the comparison holds, executing
the statement gives exactly the outcome of `GOTO` on its target line (the same
registers, or the same `LineNumberError`); when it does not hold, the statement
returns normally and leaves the machine as it was, whether or not the target line
is stored, and a RUN loop standing on that statement goes on with the next stored
line in ascending order: the least stored line number above the current one, or
the end of the program when there is none. -/
theorem if_jumps_as_goto_or_falls_through (m : Machine) (hm : Reachable m)
    (lhs rhs : Expression) (op : String) (t a b : Int)
    (ha : lhs.eval m.state = .ok a) (hb : rhs.eval m.state = .ok b) :
    (evalCondition "=" a b = decide (a = b) ∧ evalCondition "<" a b = decide (a < b) ∧
      evalCondition ">" a b = decide (a > b)) ∧
    (evalCondition op a b = true →
      execute (.IfStmt lhs rhs op t) m = execute (.GotoStmt t) m) ∧
    (evalCondition op a b = false →
      execute (.IfStmt lhs rhs op t) m = .ok m ∧
      ∀ cur : Int, cur ≠ -1 → m.program.getParsedStatement cur = some (.IfStmt lhs rhs op t) →
        runStep cur m = .next (m.program.getNextLineNumber cur) (resetRegisters cur m) ∧
        (∀ fuel, runLoop (fuel + 1) cur m =
          runLoop fuel (m.program.getNextLineNumber cur) (resetRegisters cur m)) ∧
        ((m.program.getNextLineNumber cur = -1 ∧ ∀ e ∈ m.program.entries, e.lineNumber ≤ cur) ∨
         (m.program.hasLine (m.program.getNextLineNumber cur) ∧
           cur < m.program.getNextLineNumber cur ∧
           ∀ e ∈ m.program.entries, cur < e.lineNumber →
             m.program.getNextLineNumber cur ≤ e.lineNumber))) := by
  refine ⟨⟨rfl, rfl, rfl⟩, ?_, ?_⟩
  · intro hc
    simp [execute, ha, hb, hc]
  · intro hc
    refine ⟨by simp [execute, ha, hb, hc], ?_⟩
    intro cur hcur hp
    have hstep : runStep cur m =
        .next (m.program.getNextLineNumber cur) (resetRegisters cur m) := by
      unfold runStep
      rw [stepOutcome_parsed hp]
      have ha1 : lhs.eval (resetRegisters cur m).state = .ok a := ha
      have hb1 : rhs.eval (resetRegisters cur m).state = .ok b := hb
      simp only [execute, ha1, hb1, hc]
      simp [resetRegisters, Program.getNextLineNumber]
    exact ⟨hstep, fun fuel => runLoop_succ_next hcur hstep, getNextLineNumber_spec hm.wf cur⟩

/-- C3 at `IF 1<2 THEN 10` and `IF 2<1 THEN 10` in the program `10 PRINT 1`,
`20 END`, `30 PRINT 2`: the first requests the jump to line 10, the second leaves
the machine as it was. -/
theorem if_jumps_as_goto_or_falls_through_witness :
    Reachable printEndPrint ∧
    execute (.IfStmt (.Constant 1) (.Constant 2) "<" 10) printEndPrint =
      .ok { printEndPrint with
        program := { printEndPrint.program with shouldJump := true, jumpTarget := 10 } } ∧
    execute (.IfStmt (.Constant 2) (.Constant 1) "<" 10) printEndPrint = .ok printEndPrint :=
  ⟨reachable_printEndPrint,
    ((if_jumps_as_goto_or_falls_through printEndPrint reachable_printEndPrint
        (.Constant 1) (.Constant 2) "<" 10 1 2 rfl rfl).2.1 (by decide)).trans (by decide),
    ((if_jumps_as_goto_or_falls_through printEndPrint reachable_printEndPrint
        (.Constant 2) (.Constant 1) "<" 10 2 1 rfl rfl).2.2 (by decide)).1⟩

/-! ## LIST -/

/-- C4: LIST. (1) In every machine the interpreter can reach, a line whose first
token is `LIST` returns normally and appends to the output exactly the source
texts of the entries of the store, in the order of the store; that order is strictly
ascending by line number, and every stored line number has exactly one entry, which
holds the text stored for it. (2) After any sequence of numbered lines with
content has been entered from the initial machine, in whatever order, LIST emits a
listing that is strictly ascending by line number and holds the pair `(n, t)`
exactly when `t` is the text of the last line entered with number `n`. The fuel
asked for is the number of stored lines. -/
theorem list_emits_stored_lines_ascending :
    (∀ (m : Machine), Reachable m →
      ∀ (line : InputLine) (tok : Token) (rest : List Token),
        line.tokens = tok :: rest → tok.type ≠ .NUMBER → tok.text = "LIST" →
      ∀ fuel : Nat, m.program.entries.length ≤ fuel →
        processLine fuel line m = some (.ok { m with
          output := m.output ++ m.program.entries.map (fun e => Output.line e.sourceText) }) ∧
        m.program.entries.Pairwise (fun a b => a.lineNumber < b.lineNumber) ∧
        (∀ n, m.program.hasLine n →
          ∃ e, m.program.entries.filter (fun a => decide (a.lineNumber = n)) = [e] ∧
            e.sourceText = m.program.getSourceLine n)) ∧
    (∀ (ls : List InputLine) (input : List String) (fuel0 : Nat),
      (∀ l ∈ ls, enteredLineNumber l ≠ none ∧ l.text ≠ "") →
      ∃ (m : Machine) (listing : List (Int × String)),
        enterLines fuel0 ls (Machine.initial input) = some m ∧
        (∀ fuel : Nat, listing.length ≤ fuel →
          processLine fuel listLine m = some (.ok { m with
            output := m.output ++ listing.map (fun p => Output.line p.2) })) ∧
        listing.Pairwise (fun a b => a.1 < b.1) ∧
        (∀ n t, (n, t) ∈ listing ↔ lastEntered n ls = some t)) := by
  constructor
  · intro m hm line tok rest hl hty htx fuel hf
    refine ⟨?_, hm.wf.1, ?_⟩
    · rw [processLine_list hl hty htx]
      exact listLoop_all hm.wf hf
    · rintro n ⟨e, he, hn⟩
      refine ⟨e, ?_, ?_⟩
      · rw [← hn]; exact filter_line_eq_singleton hm.wf.1 he
      · have := findEntry_of_mem hm.wf.1 he
        rw [hn] at this
        simp [Program.getSourceLine, this]
  · intro ls input fuel0 hall
    obtain ⟨m, hrun, hreach, hsrc, hhas⟩ :=
      enterLines_entries fuel0 ls (Machine.initial input) (Reachable.initial input) hall
    have hinit : ∀ k, ¬ (Machine.initial input).program.hasLine k := by
      intro k
      simp [Program.hasLine, Machine.initial, Program.empty]
    refine ⟨m, m.program.entries.map (fun e => (e.lineNumber, e.sourceText)), hrun, ?_, ?_, ?_⟩
    · intro fuel hf
      rw [processLine_listLine, listLoop_all hreach.wf (by simpa using hf)]
      simp [List.map_map, Function.comp_def]
    · rw [List.pairwise_map]
      exact hreach.wf.1
    · intro n t
      constructor
      · intro h
        obtain ⟨e, he, heq⟩ := List.mem_map.1 h
        cases heq
        have hfind := findEntry_of_mem hreach.wf.1 he
        have h1 : m.program.getSourceLine e.lineNumber = e.sourceText := by
          simp [Program.getSourceLine, hfind]
        have h2 : lastEntered e.lineNumber ls ≠ none := by
          rcases (hhas e.lineNumber).1 ⟨e, he, rfl⟩ with h | h
          · exact h
          · exact absurd h (hinit _)
        obtain ⟨t, ht⟩ := Option.ne_none_iff_exists'.1 h2
        have h3 := hsrc e.lineNumber
        rw [ht, h1] at h3
        rw [ht, h3]; rfl
      · intro h
        obtain ⟨e, he, hn⟩ := (hhas n).2 (Or.inl (by rw [h]; simp))
        have hfind := findEntry_of_mem hreach.wf.1 he
        have h1 : m.program.getSourceLine e.lineNumber = e.sourceText := by
          simp [Program.getSourceLine, hfind]
        have h3 := hsrc n
        rw [h, ← hn, h1] at h3
        refine List.mem_map.2 ⟨e, he, ?_⟩
        rw [hn, h3]; rfl

/-- C4 at the lines `30 PRINT 2`, `10 PRINT 1`, `20 END` entered in this order: LIST
emits the three texts in the order 10, 20, 30. -/
theorem list_emits_stored_lines_ascending_witness :
    Reachable printEndPrint ∧ printEndPrint.program.entries.length ≤ 3 ∧
      enterLines 0 shuffledLines (Machine.initial []) = some printEndPrint ∧
      processLine 3 listLine printEndPrint = some (.ok { printEndPrint with
        output := [.line "10 PRINT 1", .line "20 END", .line "30 PRINT 2"] }) :=
  ⟨reachable_printEndPrint, by decide, by decide,
    (list_emits_stored_lines_ascending.1 printEndPrint reachable_printEndPrint listLine
      (wordToken "LIST") [] rfl (by decide) rfl 3 (by decide)).1⟩

/-! ## Replacing a line -/

/-- C5: re-entering a line number replaces the line. When a numbered line
`n <statement>` whose statement parses is entered, the entry for `n` afterwards is
the single entry made of the new source text and the new parsed statement, whatever
the store held for `n` before; the other lines, the environment and the output are
untouched; every later pass of the RUN loop on line `n` executes the new statement;
and LIST emits the stored texts, among which the new text is the only one with
line number `n`. -/
theorem reentered_line_replaces (m : Machine) (hm : Reachable m) (fuel : Nat)
    (line : InputLine) (tok kw : Token) (tail : List Token) (n : Int) (stmt : Statement)
    (hl : line.tokens = tok :: kw :: tail) (hty : tok.type = .NUMBER)
    (hn : stringToInteger tok.text = .ok n) (hkw : isStatementKeyword kw.text = true)
    (hp : parseStatement tail kw.text = .ok stmt) (htext : line.text ≠ "") :
    ∃ m1, processLine fuel line m = some (.ok m1) ∧
      m1.state = m.state ∧ m1.output = m.output ∧ m1.input = m.input ∧
      m1.program.entries.filter (fun e => decide (e.lineNumber = n)) =
        [⟨n, line.text, some stmt⟩] ∧
      m1.program.getSourceLine n = line.text ∧
      m1.program.getParsedStatement n = some stmt ∧
      (∀ k, k ≠ n → m1.program.getSourceLine k = m.program.getSourceLine k ∧
        m1.program.getParsedStatement k = m.program.getParsedStatement k) ∧
      (∀ later : Machine, later.program.entries = m1.program.entries →
        stepOutcome n later = execute stmt (resetRegisters n later)) ∧
      (∀ f, m1.program.entries.length ≤ f →
        processLine f listLine m1 = some (.ok { m1 with
          output := m1.output ++
            m1.program.entries.map (fun e => Output.line e.sourceText) })) := by
  have hproc := @processLine_store fuel line m tok kw tail n stmt hl hty hn hkw hp
  have hreach : Reachable { m with
      program := (m.program.addSourceLine n line.text).setParsedStatement n stmt } :=
    Reachable.step fuel line _ hm htext hproc rfl
  have hfind : findEntry n
      ((m.program.addSourceLine n line.text).setParsedStatement n stmt).entries =
        some ⟨n, line.text, some stmt⟩ := by
    simp [Program.setParsedStatement, Program.addSourceLine, findEntry_attachParsed_self,
      findEntry_upsertLine_self]
  have hparsed : ((m.program.addSourceLine n line.text).setParsedStatement n
      stmt).getParsedStatement n = some stmt := by
    simp [Program.getParsedStatement, hfind]
  refine ⟨_, hproc, rfl, rfl, rfl, ?_, ?_, hparsed, ?_, ?_, ?_⟩
  · have := filter_line_eq_singleton hreach.wf.1 (findEntry_some hfind).1
    exact this
  · simp [Program.getSourceLine, hfind]
  · intro k hk
    have : findEntry k ((m.program.addSourceLine n line.text).setParsedStatement n
        stmt).entries = findEntry k m.program.entries := by
      simp [Program.setParsedStatement, Program.addSourceLine,
        findEntry_attachParsed_other hk, findEntry_upsertLine_other hk]
    simp [Program.getSourceLine, Program.getParsedStatement, this]
  · intro later hlater
    exact stepOutcome_parsed ((getParsedStatement_congr hlater n).trans hparsed)
  · intro f hf
    rw [processLine_listLine]
    exact listLoop_all hreach.wf hf

/-- C5 at the program `10 PRINT 1`, `20 END`, `30 PRINT 2` when `10 PRINT 1+2*3` is
entered: line 10 then holds the new text and the new statement only. -/
theorem reentered_line_replaces_witness :
    ∃ m1, processLine 0 line10PrintSum printEndPrint = some (.ok m1) ∧
      m1.program.entries.filter (fun e => decide (e.lineNumber = 10)) =
        [⟨10, "10 PRINT 1+2*3", some (.PrintStmt sumExpression)⟩] ∧
      m1.program.getParsedStatement 10 = some (.PrintStmt sumExpression) := by
  obtain ⟨m1, h1, _, _, _, h2, _, h3, _⟩ :=
    reentered_line_replaces printEndPrint reachable_printEndPrint 0 line10PrintSum
      (numberToken "10") (wordToken "PRINT")
      [numberToken "1", operatorToken "+", numberToken "2", operatorToken "*", numberToken "3"]
      10 (.PrintStmt sumExpression) rfl rfl rfl rfl rfl (by decide)
  exact ⟨m1, h1, h2, h3⟩

/-! ## Removing a line -/

/-- C6: a bare line number removes the line. Entering the line number `n` alone
returns normally with the store from which the entry for `n` has been removed:
afterwards `n` has neither source text nor parsed statement, the entries of all
other line numbers are the ones held before, in the same order, and the registers,
the environment and the output are untouched; when the store has no line `n`,
the machine is left exactly as it was. -/
theorem bare_line_number_removes (m : Machine) (fuel : Nat) (line : InputLine)
    (tok : Token) (n : Int) (hl : line.tokens = [tok]) (hty : tok.type = .NUMBER)
    (hn : stringToInteger tok.text = .ok n) :
    processLine fuel line m =
        some (.ok { m with program := m.program.removeSourceLine n }) ∧
      ¬ (m.program.removeSourceLine n).hasLine n ∧
      (m.program.removeSourceLine n).getSourceLine n = "" ∧
      (m.program.removeSourceLine n).getParsedStatement n = none ∧
      (m.program.removeSourceLine n).entries =
        m.program.entries.filter (fun e => decide (e.lineNumber ≠ n)) ∧
      (∀ e, e ∈ (m.program.removeSourceLine n).entries ↔
        e ∈ m.program.entries ∧ e.lineNumber ≠ n) ∧
      (∀ k, k ≠ n →
        (m.program.removeSourceLine n).getSourceLine k = m.program.getSourceLine k ∧
        (m.program.removeSourceLine n).getParsedStatement k =
          m.program.getParsedStatement k) ∧
      ((m.program.removeSourceLine n).shouldJump = m.program.shouldJump ∧
        (m.program.removeSourceLine n).jumpTarget = m.program.jumpTarget ∧
        (m.program.removeSourceLine n).currentLine = m.program.currentLine) ∧
      (¬ m.program.hasLine n → processLine fuel line m = some (.ok m)) := by
  have hproc : processLine fuel line m =
      some (.ok { m with program := m.program.removeSourceLine n }) := by
    unfold processLine
    rw [hl]
    simp [hty, hn]
  have hfind : findEntry n (m.program.removeSourceLine n).entries = none :=
    findEntry_remove_self n m.program.entries
  refine ⟨hproc, ?_, ?_, ?_, rfl, ?_, ?_, ⟨rfl, rfl, rfl⟩, ?_⟩
  · rw [hasLine_iff_findEntry]; simp [hfind]
  · simp [Program.getSourceLine, hfind]
  · simp [Program.getParsedStatement, hfind]
  · intro e
    simp [Program.removeSourceLine, List.mem_filter]
  · intro k hk
    have : findEntry k (m.program.removeSourceLine n).entries =
        findEntry k m.program.entries := findEntry_remove_other hk m.program.entries
    simp [Program.getSourceLine, Program.getParsedStatement, this]
  · intro h
    rw [hproc, remove_of_not_hasLine h]

/-- C6 at the program `10 PRINT 1`, `20 END`, `30 PRINT 2`: entering `20` leaves the
lines 10 and 30, entering `40` changes nothing. -/
theorem bare_line_number_removes_witness :
    processLine 0 line20Bare printEndPrint =
        some (.ok { printEndPrint with program := printEndPrint.program.removeSourceLine 20 }) ∧
      (printEndPrint.program.removeSourceLine 20).entries =
        [⟨10, "10 PRINT 1", some (.PrintStmt (.Constant 1))⟩,
         ⟨30, "30 PRINT 2", some (.PrintStmt (.Constant 2))⟩] ∧
      processLine 0 line40Bare printEndPrint = some (.ok printEndPrint) :=
  ⟨(bare_line_number_removes printEndPrint 0 line20Bare (numberToken "20") 20 rfl rfl rfl).1,
    by decide,
    (bare_line_number_removes printEndPrint 0 line40Bare (numberToken "40") 40 rfl rfl
      rfl).2.2.2.2.2.2.2.2 (by simp [Program.hasLine, printEndPrint])⟩

/-! ## Immediate statements -/

/-- C7: immediate LET, PRINT and INPUT. For an input line whose first token is not a
line number and reads `LET`, `PRINT` or `INPUT`: when the rest of the line parses,
processing the line is executing the parsed statement once on the machine; when it
does not parse, the line fails with the parser's error and the machine is as
before; in either case the line returns, and whenever it leaves a machine behind
(success or error) the program, store and registers, is the one held before, and
LIST writes after it the very lines it would have written before it. -/
theorem immediate_statement_leaves_store (fuel : Nat) (line : InputLine) (m : Machine)
    (tok : Token) (rest : List Token)
    (hl : line.tokens = tok :: rest) (hty : tok.type ≠ .NUMBER)
    (htx : tok.text = "LET" ∨ tok.text = "PRINT" ∨ tok.text = "INPUT") :
    (∀ stmt, parseStatement rest tok.text = .ok stmt →
      processLine fuel line m = some (execute stmt m)) ∧
    (∀ e, parseStatement rest tok.text = .error e →
      processLine fuel line m = some (.error e m)) ∧
    (∃ o, processLine fuel line m = some o ∧
      ∀ m1, o.machine = some m1 →
        m1.program = m.program ∧
        ∀ (f : Nat) (lines : List Output),
          processLine f listLine m = some (.ok { m with output := m.output ++ lines }) →
          processLine f listLine m1 = some (.ok { m1 with output := m1.output ++ lines })) := by
  have hproc := @processLine_immediate fuel line m tok rest hl hty htx
  refine ⟨fun stmt h => by rw [hproc, h], fun e h => by rw [hproc, h], ?_⟩
  have hlist : ∀ m1 : Machine, m1.program = m.program →
      ∀ (f : Nat) (lines : List Output),
        processLine f listLine m = some (.ok { m with output := m.output ++ lines }) →
        processLine f listLine m1 = some (.ok { m1 with output := m1.output ++ lines }) := by
    intro m1 hp f lines h
    rw [processLine_listLine] at h ⊢
    have hfirst : m1.program.getFirstLineNumber = m.program.getFirstLineNumber := by rw [hp]
    rw [hfirst]
    exact listLoop_same_program hp h
  cases hps : parseStatement rest tok.text with
  | error e =>
    refine ⟨.error e m, by rw [hproc, hps], ?_⟩
    intro m1 h1
    simp [Outcome.machine] at h1
    subst h1
    exact ⟨rfl, hlist m rfl⟩
  | ok stmt =>
    refine ⟨execute stmt m, by rw [hproc, hps], ?_⟩
    intro m1 h1
    have hp : m1.program = m.program := by
      rcases htx with h | h | h
      · rw [h] at hps
        obtain ⟨var, exp, rfl⟩ := parseStatement_let hps
        exact execute_let_program h1
      · rw [h] at hps
        obtain ⟨exp, rfl⟩ := parseStatement_print hps
        exact execute_print_program h1
      · rw [h] at hps
        obtain ⟨var, rfl⟩ := parseStatement_input hps
        exact execute_input_program h1
    exact ⟨hp, hlist m1 hp⟩

/-- C7 at the immediate line `PRINT 5+5` in the program `10 PRINT 1`, `20 END`,
`30 PRINT 2`: the line writes `10`, and LIST afterwards shows the three stored lines
only. -/
theorem immediate_statement_leaves_store_witness :
    processLine 0 linePrintFivePlusFive printEndPrint =
        some (.ok { printEndPrint with output := [.number 10] }) ∧
      processLine 3 listLine { printEndPrint with output := [.number 10] } =
        some (.ok { printEndPrint with
          output := [.number 10, .line "10 PRINT 1", .line "20 END", .line "30 PRINT 2"] }) :=
  ⟨((immediate_statement_leaves_store 0 linePrintFivePlusFive printEndPrint
      (wordToken "PRINT") [numberToken "5", operatorToken "+", numberToken "5"]
      rfl (by decide) (Or.inr (Or.inl rfl))).1
      (.PrintStmt (.BinaryOp .add (.Constant 5) (.Constant 5))) rfl).trans (by decide),
    by decide⟩

/-! ## CLEAR -/

/-- C8: CLEAR. A line whose first token is `CLEAR` returns normally with a machine
whose store has no entry and whose environment has no binding, the output being
untouched; afterwards LIST writes nothing, RUN executes no statement and writes
nothing, looking up any variable finds no value, evaluating a reference to any
variable fails with `UndefinedVariable`, and so does printing it. -/
theorem clear_empties_store_and_environment (fuel : Nat) (line : InputLine) (m : Machine)
    (tok : Token) (rest : List Token)
    (hl : line.tokens = tok :: rest) (hty : tok.type ≠ .NUMBER) (htx : tok.text = "CLEAR") :
    ∃ m1, processLine fuel line m = some (.ok m1) ∧
      m1.program.entries = [] ∧ m1.state.bindings = [] ∧
      m1.output = m.output ∧ m1.input = m.input ∧
      (∀ n, ¬ m1.program.hasLine n) ∧
      (∀ f, processLine f listLine m1 = some (.ok m1)) ∧
      (∀ f, processLine f runLine m1 = some (.ok m1) ∧
        runTrace f m1.program.getFirstLineNumber m1 = []) ∧
      (∀ x, m1.state.getValue x = none ∧
        (Expression.Variable x).eval m1.state = .error .UndefinedVariable ∧
        execute (.PrintStmt (.Variable x)) m1 = .error .UndefinedVariable m1) := by
  have hproc : processLine fuel line m =
      some (.ok { m with program := m.program.clear, state := m.state.Clear }) := by
    unfold processLine
    rw [hl]
    simp [hty, htx]
  refine ⟨_, hproc, rfl, rfl, rfl, rfl, ?_, ?_, ?_, ?_⟩
  · intro n
    simp [Program.hasLine, Program.clear]
  · intro f
    rw [processLine_listLine]
    exact listLoop_at_end f _
  · intro f
    rw [processLine_runLine]
    exact ⟨runLoop_at_end f _, runTrace_at_end f _⟩
  · intro x
    refine ⟨rfl, rfl, rfl⟩

/-- C8 at the program `10 PRINT 1`, `20 END`, `30 PRINT 2` with `X` bound to 4: after
`CLEAR`, LIST writes nothing and `X` is undefined. -/
theorem clear_empties_store_and_environment_witness :
    printEndPrintWithX.state.getValue "X" = some 4 ∧
    ∃ m1, processLine 0 clearLine printEndPrintWithX = some (.ok m1) ∧
      processLine 0 listLine m1 = some (.ok m1) ∧
      (Expression.Variable "X").eval m1.state = .error .UndefinedVariable := by
  obtain ⟨m1, h1, _, _, _, _, _, h2, _, h3⟩ :=
    clear_empties_store_and_environment 0 clearLine printEndPrintWithX
      (wordToken "CLEAR") [] rfl (by decide) rfl
  exact ⟨by decide, m1, h1, h2 0, (h3 "X").2.1⟩

/-! ## A stored PRINT line and RUN -/

/-- C9: a stored PRINT line and RUN. (1) When the line `n PRINT e` is entered into a
machine with an empty program, where the tokens after `PRINT` parse to the
expression `e` and `e` evaluates to `v` in the environment, the line is stored as
the only entry, and RUN then returns normally after one pass of its loop, having
executed line `n` only and appended to the output exactly the one line `v`; the
environment and the store are as before. (2) The parser gives `*` and `/`
precedence over `+` and `-`: for integer literals `x`, `y`, `z`, the tokens
`x lo y hi z` parse to `x lo (y hi z)` and `x hi y lo z` to `(x hi y) lo z` for `lo`
one of `+`, `-` and `hi` one of `*`, `/`, so that `x + y * z` has the value
`x + y * z`. (3) Entering `10 PRINT 1+2*3` and then RUN writes `7`. -/
theorem stored_print_line_prints_value :
    (∀ (m : Machine) (fuel : Nat) (line : InputLine) (tok kw : Token)
        (etoks rest : List Token) (n : Int) (e : Expression) (v : Int),
      m.program.entries = [] → line.tokens = tok :: kw :: etoks → tok.type = .NUMBER →
      stringToInteger tok.text = .ok n → kw.text = "PRINT" →
      parseExp etoks = .ok (e, rest) → e.eval m.state = .ok v →
      ∃ m1, processLine fuel line m = some (.ok m1) ∧
        m1.program.entries = [⟨n, line.text, some (.PrintStmt e)⟩] ∧
        m1.state = m.state ∧ m1.output = m.output ∧
        ∀ f : Nat, ∃ m2, processLine (f + 1) runLine m1 = some (.ok m2) ∧
          m2.output = m1.output ++ [.number v] ∧ m2.state = m1.state ∧
          m2.program.entries = m1.program.entries ∧
          runTrace (f + 1) m1.program.getFirstLineNumber m1 = [n]) ∧
    (∀ (a b c lo hi : Token) (x y z : Int),
      a.type = .NUMBER → stringToInteger a.text = .ok x →
      b.type = .NUMBER → stringToInteger b.text = .ok y →
      c.type = .NUMBER → stringToInteger c.text = .ok z →
      (lo.text = "+" ∨ lo.text = "-") → (hi.text = "*" ∨ hi.text = "/") →
      parseExp [a, lo, b, hi, c] =
        .ok (.BinaryOp (operatorOf lo.text) (.Constant x)
          (.BinaryOp (operatorOf hi.text) (.Constant y) (.Constant z)), []) ∧
      parseExp [a, hi, b, lo, c] =
        .ok (.BinaryOp (operatorOf lo.text)
          (.BinaryOp (operatorOf hi.text) (.Constant x) (.Constant y)) (.Constant z), []) ∧
      ∀ s : EvalState,
        (Expression.BinaryOp (operatorOf "+") (.Constant x)
          (.BinaryOp (operatorOf "*") (.Constant y) (.Constant z))).eval s = .ok (x + y * z) ∧
        (Expression.BinaryOp (operatorOf "+")
          (.BinaryOp (operatorOf "*") (.Constant x) (.Constant y)) (.Constant z)).eval s =
            .ok (x * y + z)) ∧
    (processLine 0 line10PrintSum (Machine.initial []) = some (.ok printSumStored) ∧
      ∃ m2, processLine 1 runLine printSumStored = some (.ok m2) ∧
        m2.output = [.number 7]) := by
  refine ⟨?_, ?_, ?_⟩
  · intro m fuel line tok kw etoks rest n e v hempty hl hty hn hkw hp hv
    have hk : isStatementKeyword kw.text = true := by rw [hkw]; decide
    have hps : parseStatement etoks kw.text = .ok (.PrintStmt e) := by
      rw [hkw]; exact parseStatement_print_ok hp
    have hproc := @processLine_store fuel line m tok kw etoks n (.PrintStmt e) hl hty hn hk hps
    have hent : ((m.program.addSourceLine n line.text).setParsedStatement n
        (.PrintStmt e)).entries = [⟨n, line.text, some (.PrintStmt e)⟩] := by
      simp [Program.setParsedStatement, Program.addSourceLine, hempty, upsertLine, attachParsed]
    have hne : n ≠ -1 := by
      have := stringToInteger_nonneg hn
      omega
    have key : ∀ m1 : Machine,
        m1.program.entries = [⟨n, line.text, some (.PrintStmt e)⟩] →
        e.eval m1.state = .ok v →
        ∀ f : Nat, ∃ m2, processLine (f + 1) runLine m1 = some (.ok m2) ∧
          m2.output = m1.output ++ [.number v] ∧ m2.state = m1.state ∧
          m2.program.entries = m1.program.entries ∧
          runTrace (f + 1) m1.program.getFirstLineNumber m1 = [n] := by
      intro m1 hent1 hv1 f
      have hstep := @runStep_print_last n m1 line.text e v hent1 hv1
      have hfirst : m1.program.getFirstLineNumber = n := by
        simp [Program.getFirstLineNumber, hent1, headLine]
      refine ⟨{ resetRegisters n m1 with output := m1.output ++ [.number v] },
        ?_, ?_, ?_, ?_, ?_⟩
      · rw [processLine_runLine, hfirst, runLoop_succ_next hne hstep]
        exact runLoop_at_end f _
      · rfl
      · rfl
      · rfl
      · rw [hfirst]
        unfold runTrace
        rw [if_neg hne]
        simp only [hstep, runTrace_at_end]
    exact ⟨_, hproc, hent, rfl, rfl, key _ hent hv⟩
  · intro a b c lo hi x y z ha hx hb hy hc hz hlo hhi
    have := parseExp_precedence a b c lo hi x y z ha hx hb hy hc hz hlo hhi
    refine ⟨this.1, this.2, ?_⟩
    intro s
    constructor <;> rfl
  · refine ⟨by decide, { printSumStored with
      program := { printSumStored.program with currentLine := 10 },
      output := [.number 7] }, by decide, rfl⟩

/-- C9 at `10 PRINT 1+2*3` entered into the initial machine: RUN writes the one
line `7`. -/
theorem stored_print_line_prints_value_witness :
    ∃ m1, processLine 0 line10PrintSum (Machine.initial []) = some (.ok m1) ∧
      ∃ m2, processLine 1 runLine m1 = some (.ok m2) ∧
        m2.output = [.number 7] ∧
        runTrace 1 m1.program.getFirstLineNumber m1 = [10] := by
  obtain ⟨m1, h1, _, _, h3, h4⟩ :=
    stored_print_line_prints_value.1 (Machine.initial []) 0 line10PrintSum
      (numberToken "10") (wordToken "PRINT")
      [numberToken "1", operatorToken "+", numberToken "2", operatorToken "*", numberToken "3"]
      [] 10 sumExpression 7 rfl rfl rfl rfl rfl rfl rfl
  obtain ⟨m2, h5, h6, _, _, h7⟩ := h4 0
  refine ⟨m1, h1, m2, h5, ?_, h7⟩
  rw [h6, h3]
  rfl

/-! ## An unknown keyword after a line number -/

/-- C10: an unknown keyword after a line number. When the token after the line
number `n` is none of `REM`, `LET`, `PRINT`, `INPUT`, `GOTO`, `IF`, `END`, processing the
line fails with `SyntaxError`; the machine left behind has the raw text of the
line stored for `n` and no parsed statement for `n`, whatever the store held for
`n` before: the only entry with line number `n` is the text without a parsed
statement; the other lines, the environment, the output and the registers are
untouched. -/
theorem unknown_keyword_stores_text_only (m : Machine) (hm : Reachable m) (fuel : Nat)
    (line : InputLine) (tok kw : Token) (tail : List Token) (n : Int)
    (hl : line.tokens = tok :: kw :: tail) (hty : tok.type = .NUMBER)
    (hn : stringToInteger tok.text = .ok n)
    (hkw : kw.text ∉ ["REM", "LET", "PRINT", "INPUT", "GOTO", "IF", "END"])
    (htext : line.text ≠ "") :
    ∃ m1, processLine fuel line m = some (.error .SyntaxError m1) ∧
      m1.program.hasLine n ∧
      m1.program.getSourceLine n = line.text ∧
      m1.program.getParsedStatement n = none ∧
      m1.program.entries.filter (fun e => decide (e.lineNumber = n)) =
        [⟨n, line.text, none⟩] ∧
      (∀ k, k ≠ n → m1.program.getSourceLine k = m.program.getSourceLine k ∧
        m1.program.getParsedStatement k = m.program.getParsedStatement k) ∧
      m1.state = m.state ∧ m1.output = m.output ∧ m1.input = m.input ∧
      m1.program.shouldJump = m.program.shouldJump ∧
      m1.program.jumpTarget = m.program.jumpTarget ∧
      m1.program.currentLine = m.program.currentLine := by
  have hk : isStatementKeyword kw.text = false := by
    simp only [List.mem_cons, List.mem_singleton, List.not_mem_nil, or_false, not_or] at hkw
    simp [isStatementKeyword, hkw]
  have hproc : processLine fuel line m =
      some (.error .SyntaxError { m with program := m.program.addSourceLine n line.text }) := by
    unfold processLine
    rw [hl]
    simp [hty, hn, hk]
  have hfind : findEntry n (m.program.addSourceLine n line.text).entries =
      some ⟨n, line.text, none⟩ := findEntry_upsertLine_self n line.text m.program.entries
  refine ⟨_, hproc, ?_, ?_, ?_, ?_, ?_, rfl, rfl, rfl, rfl, rfl, rfl⟩
  · rw [hasLine_iff_findEntry]; simp [hfind]
  · simp [Program.getSourceLine, hfind]
  · simp [Program.getParsedStatement, hfind]
  · have hreach : Reachable { m with program := m.program.addSourceLine n line.text } :=
      Reachable.step fuel line _ hm htext hproc rfl
    exact filter_line_eq_singleton hreach.wf.1 (findEntry_some hfind).1
  · intro k hk
    have : findEntry k (m.program.addSourceLine n line.text).entries =
        findEntry k m.program.entries := findEntry_upsertLine_other hk _ _
    simp [Program.getSourceLine, Program.getParsedStatement, this]

/-- C10 at the program `10 PRINT 1`, `20 END`, `30 PRINT 2` when `10 FOO` is entered:
the line fails with `SyntaxError`, and line 10, which held `PRINT 1`, then holds
the text `10 FOO` and no parsed statement. -/
theorem unknown_keyword_stores_text_only_witness :
    printEndPrint.program.getParsedStatement 10 = some (.PrintStmt (.Constant 1)) ∧
    ∃ m1, processLine 0 line10Foo printEndPrint = some (.error .SyntaxError m1) ∧
      m1.program.getSourceLine 10 = "10 FOO" ∧
      m1.program.getParsedStatement 10 = none := by
  obtain ⟨m1, h1, _, h2, h3, _⟩ :=
    unknown_keyword_stores_text_only printEndPrint reachable_printEndPrint 0 line10Foo
      (numberToken "10") (wordToken "FOO") [] 10 rfl rfl rfl (by decide) (by decide)
  exact ⟨by decide, m1, h1, h2, h3⟩

/-! ## Reserved words as variable names -/

/-- C11: a reserved word as the target of LET or INPUT. For each of the thirteen
reserved words, `parseStatement` on a LET or an INPUT whose first token after the
keyword is that word fails with `SyntaxError`, so no statement is built; an
immediate line of this form fails with `SyntaxError` and leaves the machine, the
environment included, as it was; a numbered line of this form fails with
`SyntaxError`, leaves the environment and the output as they were, and leaves no
parsed statement for its line number. -/
theorem reserved_word_target_is_syntax_error (w : String) (hw : w ∈ reservedWords)
    (tok : Token) (rest : List Token) (htok : tok.text = w) :
    parseStatement (tok :: rest) "LET" = .error .SyntaxError ∧
    parseStatement (tok :: rest) "INPUT" = .error .SyntaxError ∧
    (∀ (fuel : Nat) (line : InputLine) (m : Machine) (kw : Token),
      line.tokens = kw :: tok :: rest → kw.type ≠ .NUMBER →
      (kw.text = "LET" ∨ kw.text = "INPUT") →
      processLine fuel line m = some (.error .SyntaxError m)) ∧
    (∀ (fuel : Nat) (line : InputLine) (m : Machine) (num kw : Token) (n : Int),
      line.tokens = num :: kw :: tok :: rest → num.type = .NUMBER →
      stringToInteger num.text = .ok n → (kw.text = "LET" ∨ kw.text = "INPUT") →
      ∃ m1, processLine fuel line m = some (.error .SyntaxError m1) ∧
        m1.state = m.state ∧ m1.output = m.output ∧
        m1.program.getParsedStatement n = none) := by
  have hres : isReservedWord tok.text = true := by rw [htok]; exact isReservedWord_of_mem hw
  have hlet := @parseStatement_let_reserved tok rest hres
  have hinput := @parseStatement_input_reserved tok rest hres
  refine ⟨hlet, hinput, ?_, ?_⟩
  · intro fuel line m kw hl hty hkw
    have hproc := @processLine_immediate fuel line m kw (tok :: rest) hl hty
      (by rcases hkw with h | h
          · exact Or.inl h
          · exact Or.inr (Or.inr h))
    rw [hproc]
    rcases hkw with h | h <;> rw [h]
    · rw [hlet]
    · rw [hinput]
  · intro fuel line m num kw n hl hty hn hkw
    have hk : isStatementKeyword kw.text = true := by
      rcases hkw with h | h <;> rw [h] <;> decide
    have hp : parseStatement (tok :: rest) kw.text = .error .SyntaxError := by
      rcases hkw with h | h <;> rw [h]
      · exact hlet
      · exact hinput
    refine ⟨_, processLine_numbered_error hl hty hn hk hp, rfl, rfl, ?_⟩
    exact getParsedStatement_addSourceLine_self m.program n line.text

/-- C11 at the immediate line `LET PRINT = 5`: the line fails with `SyntaxError` and
the machine, where `X` is bound to 4, is left as it was. -/
theorem reserved_word_target_is_syntax_error_witness :
    "PRINT" ∈ reservedWords ∧
    processLine 0 lineLetPrint printEndPrintWithX =
      some (.error .SyntaxError printEndPrintWithX) :=
  ⟨by decide,
    (reserved_word_target_is_syntax_error "PRINT" (by decide) (wordToken "PRINT")
      [operatorToken "=", numberToken "5"] rfl).2.2.1 0 lineLetPrint printEndPrintWithX
      (wordToken "LET") rfl (by decide) (Or.inl rfl)⟩

/-! ## Malformed statement tails -/

/-- C12, as stated, fails: `parseStatement` builds a statement for `LET 5 = 3`, for a
bare `INPUT`, for `INPUT 5`, and for `END`, `GOTO 10`, `INPUT X` followed by an extra
token. -/
theorem malformed_tail_accepted :
    parseStatement [numberToken "5", operatorToken "=", numberToken "3"] "LET" =
      .ok (.LetStmt "5" (.Constant 3)) ∧
    parseStatement [] "INPUT" = .ok (.InputStmt "") ∧
    parseStatement [numberToken "5"] "INPUT" = .ok (.InputStmt "5") ∧
    parseStatement [numberToken "5"] "END" = .ok .EndStmt ∧
    parseStatement [numberToken "10", numberToken "20"] "GOTO" = .ok (.GotoStmt 10) ∧
    parseStatement [wordToken "X", wordToken "Y"] "INPUT" = .ok (.InputStmt "X") := by
  refine ⟨rfl, rfl, rfl, rfl, rfl, rfl⟩

/-- C12, amended: the malformed tails `parseStatement` rejects, and the ones it
accepts. It fails with `SyntaxError` on a LET in which the token after the target
is not `=` (a LET with no target among them), on an IF whose operator is not one
of `=`, `<`, `>`, whose `THEN` is missing, or whose target line is missing or not an
integer, and on a GOTO whose target is missing or not an integer; every failure
of `parseStatement` is a `SyntaxError`. It does not ask the target of LET or INPUT
to be an identifier (any token that is not a reserved word is taken, and a
missing INPUT target gives the empty name), and it does not look at the tokens
that follow a complete END, LET, INPUT x, GOTO n or IF ... THEN n. -/
theorem malformed_tail_rejected_or_ignored :
    (∀ toks : List Token, (nextToken (nextToken toks).2).1 ≠ "=" →
      parseStatement toks "LET" = .error .SyntaxError) ∧
    (∀ (toks s1 : List Token) (lhs : Expression), parseExp toks = .ok (lhs, s1) →
      ((nextToken s1).1 ∉ ["=", "<", ">"] →
        parseStatement toks "IF" = .error .SyntaxError) ∧
      (∀ (opTok : Token) (s2 s3 : List Token) (rhs : Expression),
        s1 = opTok :: s2 → opTok.text ∈ ["=", "<", ">"] → parseExp s2 = .ok (rhs, s3) →
        ((nextToken s3).1 ≠ "THEN" → parseStatement toks "IF" = .error .SyntaxError) ∧
        (∀ (thenTok : Token) (s4 : List Token), s3 = thenTok :: s4 →
          thenTok.text = "THEN" →
          (∀ e, stringToInteger (nextToken s4).1 = .error e →
            parseStatement toks "IF" = .error .SyntaxError) ∧
          (∀ (numTok : Token) (extra : List Token) (n : Int), s4 = numTok :: extra →
            stringToInteger numTok.text = .ok n →
            parseStatement toks "IF" = .ok (.IfStmt lhs rhs opTok.text n))))) ∧
    (∀ (toks : List Token) (e : ErrorKind), stringToInteger (nextToken toks).1 = .error e →
      parseStatement toks "GOTO" = .error .SyntaxError) ∧
    (parseStatement [] "GOTO" = .error .SyntaxError ∧
      parseStatement [] "LET" = .error .SyntaxError) ∧
    (∀ (toks : List Token) (type : String) (e : ErrorKind),
      parseStatement toks type = .error e → e = .SyntaxError) ∧
    (∀ toks : List Token, parseStatement toks "END" = .ok .EndStmt ∧
      parseStatement toks "REM" = .ok .RemStmt) ∧
    (∀ toks : List Token, isReservedWord (nextToken toks).1 = false →
      parseStatement toks "INPUT" = .ok (.InputStmt (nextToken toks).1)) ∧
    (∀ (numTok : Token) (extra : List Token) (n : Int), stringToInteger numTok.text = .ok n →
      parseStatement (numTok :: extra) "GOTO" = .ok (.GotoStmt n)) ∧
    (∀ (target eq : Token) (toks extra : List Token) (value : Expression),
      isReservedWord target.text = false → eq.text = "=" →
      parseExp toks = .ok (value, extra) →
      parseStatement (target :: eq :: toks) "LET" = .ok (.LetStmt target.text value)) := by
  refine ⟨?_, ?_, ?_, ⟨rfl, rfl⟩, fun toks type e h => parseStatement_error_kind h, ?_, ?_, ?_,
    ?_⟩
  · intro toks h
    rw [parseStatement_let_eq]
    by_cases hr : isReservedWord (nextToken toks).1 = true
    · rw [if_pos hr]
    · rw [if_neg hr, if_pos h]
  · intro toks s1 lhs hl
    refine ⟨?_, ?_⟩
    · intro hop
      simp only [List.mem_cons, List.mem_singleton, List.not_mem_nil, or_false, not_or] at hop
      rw [parseStatement_if_eq hl, if_pos hop]
    · intro opTok s2 s3 rhs hs1 hop hr
      have hop2 : ¬ (opTok.text ≠ "=" ∧ opTok.text ≠ "<" ∧ opTok.text ≠ ">") := by
        simp only [List.mem_cons, List.mem_singleton, List.not_mem_nil, or_false] at hop
        rcases hop with h | h | h <;> simp [h]
      have hif : parseStatement toks "IF" =
          if (nextToken s3).1 ≠ "THEN" then .error .SyntaxError
          else
            match stringToInteger (nextToken (nextToken s3).2).1 with
            | .error e => .error e
            | .ok lineNumber => .ok (.IfStmt lhs rhs opTok.text lineNumber) := by
        have e1 : (nextToken (opTok :: s2)).1 = opTok.text := rfl
        have e2 : (nextToken (opTok :: s2)).2 = s2 := rfl
        rw [parseStatement_if_eq hl, hs1, e1, e2, if_neg hop2, hr]
      refine ⟨?_, ?_⟩
      · intro hthen
        rw [hif, if_pos hthen]
      · intro thenTok s4 hs3 hthen
        have hthen2 : ¬ (nextToken s3).1 ≠ "THEN" := by
          rw [hs3]; simp [nextToken, hthen]
        have hs4 : (nextToken s3).2 = s4 := by rw [hs3]; rfl
        refine ⟨?_, ?_⟩
        · intro e he
          have hk := stringToInteger_error_kind he
          subst hk
          rw [hif, if_neg hthen2, hs4, he]
        · intro numTok extra n hs4n hn
          have : stringToInteger (nextToken s4).1 = .ok n := by rw [hs4n]; exact hn
          rw [hif, if_neg hthen2, hs4, this]
  · intro toks e he
    have hk := stringToInteger_error_kind he
    subst hk
    rw [parseStatement_goto_eq, he]
  · intro toks
    exact ⟨rfl, rfl⟩
  · intro toks h
    rw [parseStatement_input_eq, h]
    rfl
  · intro numTok extra n hn
    have : stringToInteger (nextToken (numTok :: extra)).1 = .ok n := hn
    rw [parseStatement_goto_eq, this]
  · intro target eq toks extra value hres heq hp
    have h1 : isReservedWord (nextToken (target :: eq :: toks)).1 = false := hres
    have h2 : ¬ (nextToken (nextToken (target :: eq :: toks)).2).1 ≠ "=" := by
      simp [nextToken, heq]
    have h3 : parseExp (nextToken (nextToken (target :: eq :: toks)).2).2 = .ok (value, extra) :=
      hp
    rw [parseStatement_let_eq, h1, if_neg h2, h3]
    rfl

/-- C12, amended, at `LET X 5`: the token after the target is not `=`, and the
statement is rejected with `SyntaxError`. -/
theorem malformed_tail_rejected_or_ignored_witness :
    (nextToken (nextToken [wordToken "X", numberToken "5"]).2).1 ≠ "=" ∧
    parseStatement [wordToken "X", numberToken "5"] "LET" = .error .SyntaxError :=
  ⟨by decide, malformed_tail_rejected_or_ignored.1 [wordToken "X", numberToken "5"] (by decide)⟩

/-! ## Unknown commands -/

/-- C13: an unknown first token. For an input line whose first token is not a line
number and is none of `RUN`, `LIST`, `CLEAR`, `QUIT`, `HELP`, `LET`, `PRINT`, `INPUT`,
`processLine` fails with `SyntaxError`, and the machine carried by the failure is
the machine it was called on: program store, registers, environment, output and
pending input are as before. -/
theorem unknown_command_is_syntax_error (fuel : Nat) (line : InputLine) (m : Machine)
    (tok : Token) (rest : List Token)
    (hl : line.tokens = tok :: rest) (hty : tok.type ≠ .NUMBER)
    (htx : tok.text ∉ ["RUN", "LIST", "CLEAR", "QUIT", "HELP", "LET", "PRINT", "INPUT"]) :
    processLine fuel line m = some (.error .SyntaxError m) := by
  simp only [List.mem_cons, List.mem_singleton, List.not_mem_nil, or_false, not_or] at htx
  unfold processLine
  rw [hl]
  simp [hty, htx]

/-- C13 at the immediate lines `GOTO 10` and `END` in the program `10 PRINT 1`,
`20 END`, `30 PRINT 2` with `X` bound to 4: both fail with `SyntaxError` and leave the
machine as it was. -/
theorem unknown_command_is_syntax_error_witness :
    processLine 0 lineImmediateGoto printEndPrintWithX =
      some (.error .SyntaxError printEndPrintWithX) ∧
    processLine 0 lineImmediateEnd printEndPrintWithX =
      some (.error .SyntaxError printEndPrintWithX) :=
  ⟨unknown_command_is_syntax_error 0 lineImmediateGoto printEndPrintWithX
      (wordToken "GOTO") [numberToken "10"] rfl (by decide) (by decide),
    unknown_command_is_syntax_error 0 lineImmediateEnd printEndPrintWithX
      (wordToken "END") [] rfl (by decide) (by decide)⟩

/-! ## INPUT -/

/-- C14, as stated, fails: the line `5 ` (a trailing space) is not accepted. With the
lines `5 ` and `7` pending, `INPUT X` rejects the first with `INVALID NUMBER` and binds
`X` to 7. -/
theorem input_rejects_trailing_space :
    parseInputNumber "5 " = none ∧
    execute (.InputStmt "X") (Machine.initial ["5 ", "7"]) =
      .ok ⟨⟨[("X", 7)]⟩, Program.empty, [.prompt, .line "INVALID NUMBER", .prompt], []⟩ := by
  decide

/-- C14, amended: INPUT binds the first accepted line. When the pending lines are
`pre`, then `line`, then `rest`, where no line of `pre` is accepted and `line` is
accepted with value `v`, executing `INPUT x` returns normally: it has written the
prompt, and `INVALID NUMBER` with a new prompt for each line of `pre`, it has bound
`x` to `v`, left every other variable and the program as they were, and left `rest`
pending. INPUT raises no error on any input, and it never returns when no
pending line is accepted. A line is accepted exactly when it
is made of white space, then an optional sign, then a non-empty run of decimal
digits up to the end of the line, with a value that fits an `int`; so an accepted
line ends with a digit: leading white space is allowed, trailing white space is
not. Of the lines `5`, ` 5`, `5 `, `12abc`, `abc` the first two are accepted with
value 5 and the others are rejected. -/
theorem input_binds_first_accepted_line (var : String) (m : Machine)
    (pre : List String) (line : String) (rest : List String) (v : Int)
    (hin : m.input = pre ++ line :: rest)
    (hpre : ∀ l ∈ pre, parseInputNumber l = none) (hv : parseInputNumber line = some v) :
    execute (.InputStmt var) m =
      .ok { m with
        state := m.state.setValue var v,
        output := m.output ++ .prompt :: rejectedLines pre,
        input := rest } ∧
    (m.state.setValue var v).getValue var = some v ∧
    (∀ other, other ≠ var → (m.state.setValue var v).getValue other = m.state.getValue other) ∧
    (∀ (x : String) (m0 : Machine) (e : ErrorKind) (m1 : Machine),
      execute (.InputStmt x) m0 ≠ .error e m1) ∧
    (∀ (l : String) (w : Int), parseInputNumber l = some w ↔
      ∃ (ws sign ds : List Char) (n : Nat),
        l.data = ws ++ sign ++ ds ∧ (∀ c ∈ ws, isSpaceChar c = true) ∧
        (sign = [] ∨ sign = ['+'] ∨ sign = ['-']) ∧ ds ≠ [] ∧
        digitsValue ds 0 = some n ∧
        w = (if sign = ['-'] then -(n : Int) else (n : Int)) ∧
        INT_MIN ≤ w ∧ w ≤ INT_MAX) ∧
    (∃ c, line.data.getLast? = some c ∧ c.isDigit = true) ∧
    (∀ (x : String) (m0 : Machine), (∀ l ∈ m0.input, parseInputNumber l = none) →
      execute (.InputStmt x) m0 = .hang) ∧
    (parseInputNumber "5" = some 5 ∧ parseInputNumber " 5" = some 5 ∧
      parseInputNumber "5 " = none ∧ parseInputNumber "12abc" = none ∧
      parseInputNumber "abc" = none) := by
  refine ⟨?_, ?_, ?_, ?_, parseInputNumber_iff, parseInputNumber_last_digit hv, ?_, ?_⟩
  · have := readNumber_accepts pre (m.output ++ [.prompt]) line rest v hpre hv
    simp only [execute, hin, this]
    simp
  · exact getBinding_setBinding_self var v m.state.bindings
  · intro other ho
    exact getBinding_setBinding_other ho v m.state.bindings
  · intro x m0 e m1 h
    simp only [execute] at h
    split at h <;> cases h
  · intro x m0 h
    simp only [execute, readNumber_exhausted m0.input _ h]
  · decide

/-- C14, amended, at the pending lines `abc`, `12abc`, `5 `, ` 5`, `9`: `INPUT X` rejects three
lines, binds `X` to 5 and leaves `9` pending. -/
theorem input_binds_first_accepted_line_witness :
    execute (.InputStmt "X") (Machine.initial ["abc", "12abc", "5 ", " 5", "9"]) =
      .ok { Machine.initial ["abc", "12abc", "5 ", " 5", "9"] with
        state := (Machine.initial ["abc", "12abc", "5 ", " 5", "9"]).state.setValue "X" 5,
        output := (Machine.initial ["abc", "12abc", "5 ", " 5", "9"]).output ++
          .prompt :: rejectedLines ["abc", "12abc", "5 "],
        input := ["9"] } :=
  (input_binds_first_accepted_line "X" (Machine.initial ["abc", "12abc", "5 ", " 5", "9"])
    ["abc", "12abc", "5 "] " 5" ["9"] 5 rfl (by decide) (by decide)).1

/-! ## Errors during RUN -/

/-- C15: a failing statement stops RUN. Let the RUN loop, started on the first line of
the store of `m`, arrive on line `k` with machine `mk` after having executed the lines
`pre`, and let the statement of line `k` fail there with an error `e` (of any of the
four kinds). Then, whenever the fuel covers these `pre.length + 1` passes: the RUN
line fails with `e` on the machine `mk` with the registers reset for line `k`, so with
the environment, the output and the pending input the statements before `k` left
behind; the lines executed are `pre` followed by `k` and nothing after it; the store
is the store RUN started with; and `main` writes the message of `e` as one line after
the output of the statements before `k`, and goes on. -/
theorem run_stops_at_failing_statement (message : ErrorKind → String) (fuel : Nat)
    (line : InputLine) (tok : Token) (rest : List Token) (m mk m1 : Machine)
    (pre : List Int) (k : Int) (stmt : Statement) (e : ErrorKind)
    (hl : line.tokens = tok :: rest) (hty : tok.type ≠ .NUMBER) (htx : tok.text = "RUN")
    (htext : line.text ≠ "")
    (hpath : RunsTo m.program.getFirstLineNumber m pre k mk) (hk : k ≠ -1)
    (hstmt : mk.program.getParsedStatement k = some stmt)
    (hfail : execute stmt (resetRegisters k mk) = .error e m1)
    (hfuel : pre.length < fuel) :
    m1 = resetRegisters k mk ∧
    processLine fuel line m = some (.error e m1) ∧
    runTrace fuel m.program.getFirstLineNumber m = pre ++ [k] ∧
    m1.program.entries = m.program.entries ∧
    m1.state = mk.state ∧ m1.output = mk.output ∧ m1.input = mk.input ∧
    mainStep message fuel line m =
      some (.ok { m1 with output := mk.output ++ [.line (message e)] }) := by
  have hm1 : m1 = resetRegisters k mk := execute_error_same hfail
  subst hm1
  have hso : stepOutcome k mk = .error e (resetRegisters k mk) := by
    rw [stepOutcome_parsed hstmt]; exact hfail
  have hstop : runStep k mk = .stop (.error e (resetRegisters k mk)) :=
    runStep_stop_error_iff.mpr hso
  obtain ⟨f, rfl⟩ : ∃ f, fuel = pre.length + (f + 1) := ⟨fuel - pre.length - 1, by omega⟩
  have hrun := hpath.runLoop (f + 1)
  have hp : processLine (pre.length + (f + 1)) line m =
      some (.error e (resetRegisters k mk)) := by
    rw [processLine_run hl hty htx, hrun.1, runLoop_succ_stop hk hstop]
  refine ⟨rfl, hp, ?_, ?_, rfl, rfl, rfl, ?_⟩
  · rw [hrun.2, runTrace_succ_stop hk hstop]
  · exact (resetRegisters_entries k mk).trans hpath.entries
  · have hne : line.text.isEmpty = false := by
      cases hb : line.text.isEmpty with
      | false => rfl
      | true => exact absurd ((string_isEmpty_iff _).mp hb) htext
    unfold mainStep
    rw [hne, hp]
    rfl

/-- C15 at the program `10 PRINT 1`, `20 GOTO 99`, `30 PRINT 2` with `X = 4`: RUN
writes `1`, fails at line 20 with `LineNumberError`, never executes line 30, keeps
the binding of `X`, and `main` writes one message. -/
theorem run_stops_at_failing_statement_witness :
    processLine 2 runLine printGotoMissingPrint =
      some (.error .LineNumberError (resetRegisters 20 printGotoMissingPrintAt20)) ∧
    runTrace 2 printGotoMissingPrint.program.getFirstLineNumber printGotoMissingPrint =
      [10] ++ [20] ∧
    (resetRegisters 20 printGotoMissingPrintAt20).program.entries =
      printGotoMissingPrint.program.entries ∧
    (resetRegisters 20 printGotoMissingPrintAt20).state.getValue "X" = some 4 ∧
    mainStep sampleMessage 2 runLine printGotoMissingPrint =
      some (.ok { resetRegisters 20 printGotoMissingPrintAt20 with
        output := [.number 1] ++ [.line "LINE NUMBER ERROR"] }) :=
  have h := run_stops_at_failing_statement sampleMessage 2 runLine (wordToken "RUN") []
    printGotoMissingPrint printGotoMissingPrintAt20
    (resetRegisters 20 printGotoMissingPrintAt20) [10] 20 (.GotoStmt 99) .LineNumberError
    rfl (by decide) rfl (by decide)
    (RunsTo.step (by decide) (by decide) (RunsTo.here 20 printGotoMissingPrintAt20))
    (by decide) (by decide) (by decide) (by decide)
  ⟨h.2.1, h.2.2.1, h.2.2.2.1, by decide, h.2.2.2.2.2.2.2⟩

/-! ## Evaluation without division -/

/-- C16: evaluation of an expression without division is repeatable. For every
expression `e` that contains no division and every machine `m`: evaluating `e` in
the environment of `m` gives an integer or fails with `UndefinedVariable`, and no
other failure; the result is the same in every environment that binds the same
names to the same values; if the result is an integer `v`, executing `PRINT e` and
then `PRINT e` again succeeds both times, writes `v` and `v` again after the output
so far, and leaves the environment, the store, the control registers and the
pending input as they were, so that `e` still evaluates to `v`; if the result is the
failure, `PRINT e` fails with `UndefinedVariable` and leaves the machine as it was, as
often as it is executed. -/
theorem division_free_eval_is_repeatable (e : Expression) (m : Machine)
    (hdiv : e.hasDivision = false) :
    ((∃ v, e.eval m.state = .ok v) ∨ e.eval m.state = .error .UndefinedVariable) ∧
    (∀ s : EvalState, (∀ name, s.getValue name = m.state.getValue name) →
      e.eval s = e.eval m.state) ∧
    (∀ v, e.eval m.state = .ok v →
      ∃ m1 m2, execute (.PrintStmt e) m = .ok m1 ∧ execute (.PrintStmt e) m1 = .ok m2 ∧
        m1.output = m.output ++ [.number v] ∧
        m2.output = m.output ++ [.number v, .number v] ∧
        m1.state = m.state ∧ m2.state = m.state ∧
        m1.program = m.program ∧ m2.program = m.program ∧
        m1.input = m.input ∧ m2.input = m.input ∧
        e.eval m1.state = .ok v ∧ e.eval m2.state = .ok v) ∧
    (e.eval m.state = .error .UndefinedVariable →
      execute (.PrintStmt e) m = .error .UndefinedVariable m) := by
  refine ⟨eval_division_free e m.state hdiv, fun s h => eval_congr e m.state s h, ?_, ?_⟩
  · intro v hv
    have h1 : execute (.PrintStmt e) m = .ok { m with output := m.output ++ [.number v] } := by
      simp only [execute, hv]
    have h2 : execute (.PrintStmt e) { m with output := m.output ++ [.number v] } =
        .ok { m with output := m.output ++ [.number v] ++ [.number v] } := by
      simp only [execute, hv]
    refine ⟨_, _, h1, h2, rfl, ?_, rfl, rfl, rfl, rfl, rfl, rfl, hv, hv⟩
    simp
  · intro h
    simp only [execute, h]

/-- C16 at the expression `X+1` with `X = 4`: `PRINT X+1` writes `5` each of the two
times and leaves the machine otherwise as it was. -/
theorem division_free_eval_is_repeatable_witness :
    xPlusOne.hasDivision = false ∧
    xPlusOne.eval printEndPrintWithX.state = .ok 5 ∧
    ∃ m1 m2, execute (.PrintStmt xPlusOne) printEndPrintWithX = .ok m1 ∧
      execute (.PrintStmt xPlusOne) m1 = .ok m2 ∧
      m1.output = printEndPrintWithX.output ++ [.number 5] ∧
      m2.output = printEndPrintWithX.output ++ [.number 5, .number 5] ∧
      m1.state = printEndPrintWithX.state ∧ m2.state = printEndPrintWithX.state ∧
      m1.program = printEndPrintWithX.program ∧ m2.program = printEndPrintWithX.program ∧
      m1.input = printEndPrintWithX.input ∧ m2.input = printEndPrintWithX.input ∧
      xPlusOne.eval m1.state = .ok 5 ∧ xPlusOne.eval m2.state = .ok 5 :=
  ⟨by decide, rfl,
    (division_free_eval_is_repeatable xPlusOne printEndPrintWithX (by decide)).2.2.1 5 rfl⟩

/-! ## Jumps to a line without a parsed statement -/

/-- C17: a jump to a line that has a text and no parsed statement. In every machine
the interpreter can reach, let line `t` be stored without a parsed statement. Then
`GOTO t` succeeds and requests the jump, and so does an IF on `t` whose comparison
holds; a pass of the RUN loop on a line `cur` holding such a statement goes on with
line `t`; the pass on line `t` executes nothing (environment, output and pending
input stay as they were, the registers are reset) and goes on with the next stored
line in ascending order: the least stored line number above `t`, or the end of the
program when there is none. -/
theorem jump_to_unparsed_line_is_noop (m : Machine) (hm : Reachable m) (t : Int)
    (hline : m.program.hasLine t) (hnone : m.program.getParsedStatement t = none) :
    execute (.GotoStmt t) m =
      .ok { m with program := { m.program with shouldJump := true, jumpTarget := t } } ∧
    (∀ (lhs rhs : Expression) (op : String) (a b : Int),
      lhs.eval m.state = .ok a → rhs.eval m.state = .ok b → evalCondition op a b = true →
      execute (.IfStmt lhs rhs op t) m =
        .ok { m with program := { m.program with shouldJump := true, jumpTarget := t } }) ∧
    (∀ (cur : Int) (stmt : Statement), cur ≠ -1 →
      m.program.getParsedStatement cur = some stmt →
      (stmt = .GotoStmt t ∨
        ∃ lhs rhs op a b, stmt = .IfStmt lhs rhs op t ∧ lhs.eval m.state = .ok a ∧
          rhs.eval m.state = .ok b ∧ evalCondition op a b = true) →
      runStep cur m = .next t (jumpMachine cur t m) ∧
      runStep t (jumpMachine cur t m) =
        .next (m.program.getNextLineNumber t) (resetRegisters t m) ∧
      ∀ fuel : Nat,
        runLoop (fuel + 2) cur m =
          runLoop fuel (m.program.getNextLineNumber t) (resetRegisters t m) ∧
        runTrace (fuel + 2) cur m =
          cur :: t :: runTrace fuel (m.program.getNextLineNumber t) (resetRegisters t m)) ∧
    ((m.program.getNextLineNumber t = -1 ∧ ∀ e ∈ m.program.entries, e.lineNumber ≤ t) ∨
     (m.program.hasLine (m.program.getNextLineNumber t) ∧
       t < m.program.getNextLineNumber t ∧
       ∀ e ∈ m.program.entries, t < e.lineNumber →
         m.program.getNextLineNumber t ≤ e.lineNumber)) := by
  have hwf := hm.wf
  have hgoto : ∀ m0 : Machine, m0.program.entries = m.program.entries →
      requestJump t m0 =
        .ok { m0 with program := { m0.program with shouldJump := true, jumpTarget := t } } := by
    intro m0 h0
    have hr : Reachable m0 := Reachable.sameStore m0 hm h0
    have hl : m0.program.hasLine t := by
      unfold Program.hasLine; rw [h0]; exact hline
    exact requestJump_of_hasLine hr.wf hl
  have hne : t ≠ -1 := hasLine_ne_end hwf hline
  refine ⟨hgoto m rfl, ?_, ?_, getNextLineNumber_spec hwf t⟩
  · intro lhs rhs op a b ha hb hc
    simp only [execute, ha, hb, hc, if_true]
    exact hgoto m rfl
  · intro cur stmt hcur hp hstmt
    have hso : stepOutcome cur m = .ok (jumpMachine cur t m) := by
      rw [stepOutcome_parsed hp]
      rcases hstmt with rfl | ⟨lhs, rhs, op, a, b, rfl, ha, hb, hc⟩
      · simp only [execute]
        rw [hgoto (resetRegisters cur m) rfl]
        rfl
      · have ha1 : lhs.eval (resetRegisters cur m).state = .ok a := ha
        have hb1 : rhs.eval (resetRegisters cur m).state = .ok b := hb
        simp only [execute, ha1, hb1, hc, if_true]
        rw [hgoto (resetRegisters cur m) rfl]
        rfl
    have h1 : runStep cur m = .next t (jumpMachine cur t m) := runStep_jump hso rfl rfl hne
    have hnone2 : (jumpMachine cur t m).program.getParsedStatement t = none := hnone
    have h2 : runStep t (jumpMachine cur t m) =
        .next (m.program.getNextLineNumber t) (resetRegisters t m) := runStep_unparsed hnone2
    refine ⟨h1, h2, fun fuel => ⟨?_, ?_⟩⟩
    · rw [runLoop_succ_next hcur h1, runLoop_succ_next hne h2]
    · rw [runTrace_succ_next hcur h1, runTrace_succ_next hne h2]

/-- C17 at the program `10 GOTO 20`, `20 FOO`, `30 PRINT 2`: the GOTO of line 10 passes
the check, line 20 executes nothing, and RUN goes on with line 30. -/
theorem jump_to_unparsed_line_is_noop_witness :
    Reachable gotoFooPrint ∧ gotoFooPrint.program.hasLine 20 ∧
    gotoFooPrint.program.getParsedStatement 20 = none ∧
    execute (.GotoStmt 20) gotoFooPrint =
      .ok { gotoFooPrint with
        program := { gotoFooPrint.program with shouldJump := true, jumpTarget := 20 } } ∧
    runStep 10 gotoFooPrint = .next 20 (jumpMachine 10 20 gotoFooPrint) ∧
    runStep 20 (jumpMachine 10 20 gotoFooPrint) =
      .next (gotoFooPrint.program.getNextLineNumber 20) (resetRegisters 20 gotoFooPrint) ∧
    gotoFooPrint.program.getNextLineNumber 20 = 30 ∧
    (resetRegisters 20 gotoFooPrint).output = [] :=
  have h := jump_to_unparsed_line_is_noop gotoFooPrint reachable_gotoFooPrint 20
    ⟨⟨20, "20 FOO", none⟩, by decide, rfl⟩ (by decide)
  have h3 := h.2.2.1 10 (.GotoStmt 20) (by decide) (by decide) (Or.inl rfl)
  ⟨reachable_gotoFooPrint, ⟨⟨20, "20 FOO", none⟩, by decide, rfl⟩, by decide, h.1, h3.1,
    h3.2.1, by decide, rfl⟩

/-! ## The control registers during RUN -/

/-- C18: the control registers are reset before each statement of a RUN. (1) The
machine a pass of the RUN loop on line `cur` executes the statement on has
`shouldJump = false`, `jumpTarget = -1` and `currentLine = cur`, and the store, the
environment, the output and the pending input of the machine the pass started
with. (2) The pass executes the parsed statement of `cur` on that machine.
(3) Whatever values the three registers hold when a pass starts, the pass, the rest
of the RUN and the lines it executes are the same. (4) When the registers read after
a statement say "jump", that very statement is a GOTO or an IF on the line found in
`jumpTarget`, or an END. (5) After a REM, LET, PRINT or INPUT that returns, the loop
goes on with the next stored line, whatever an earlier statement requested. -/
theorem registers_reset_before_each_statement :
    (∀ (cur : Int) (m : Machine),
      (resetRegisters cur m).program.shouldJump = false ∧
      (resetRegisters cur m).program.jumpTarget = -1 ∧
      (resetRegisters cur m).program.currentLine = cur ∧
      (resetRegisters cur m).program.entries = m.program.entries ∧
      (resetRegisters cur m).state = m.state ∧ (resetRegisters cur m).output = m.output ∧
      (resetRegisters cur m).input = m.input) ∧
    (∀ (cur : Int) (m : Machine) (stmt : Statement),
      m.program.getParsedStatement cur = some stmt →
      stepOutcome cur m = execute stmt (resetRegisters cur m)) ∧
    (∀ (sj : Bool) (jt cl cur : Int) (m : Machine),
      resetRegisters cur (withRegisters sj jt cl m) = resetRegisters cur m ∧
      (withRegisters sj jt cl m).program.getParsedStatement cur =
        m.program.getParsedStatement cur ∧
      runStep cur (withRegisters sj jt cl m) = runStep cur m ∧
      ∀ fuel : Nat,
        runTrace fuel cur (withRegisters sj jt cl m) = runTrace fuel cur m ∧
        (cur ≠ -1 → runLoop fuel cur (withRegisters sj jt cl m) = runLoop fuel cur m)) ∧
    (∀ (cur : Int) (m m2 : Machine) (stmt : Statement),
      m.program.getParsedStatement cur = some stmt → stepOutcome cur m = .ok m2 →
      m2.program.shouldJump = true →
      stmt = .GotoStmt m2.program.jumpTarget ∨
      (∃ lhs rhs op, stmt = .IfStmt lhs rhs op m2.program.jumpTarget) ∨
      (stmt = .EndStmt ∧ m2.program.jumpTarget = -1)) ∧
    (∀ (cur : Int) (m m2 : Machine) (stmt : Statement),
      m.program.getParsedStatement cur = some stmt → stepOutcome cur m = .ok m2 →
      (stmt = .RemStmt ∨ (∃ var exp, stmt = .LetStmt var exp) ∨
        (∃ exp, stmt = .PrintStmt exp) ∨ (∃ var, stmt = .InputStmt var)) →
      runStep cur m = .next (m.program.getNextLineNumber cur) m2) := by
  refine ⟨fun cur m => ⟨rfl, rfl, rfl, rfl, rfl, rfl, rfl⟩,
    fun cur m stmt h => stepOutcome_parsed h,
    fun sj jt cl cur m => ⟨rfl, rfl, rfl, fun fuel =>
      ⟨runTrace_withRegisters sj jt cl fuel cur m,
        fun hc => runLoop_withRegisters sj jt cl fuel hc m⟩⟩, ?_, ?_⟩
  · intro cur m m2 stmt hp hso hj
    rw [stepOutcome_parsed hp] at hso
    exact execute_sets_jump rfl hso hj
  · intro cur m m2 stmt hp hso hstmt
    have hex := hso
    rw [stepOutcome_parsed hp] at hex
    have hnj : m2.program.shouldJump = false := by
      cases hb : m2.program.shouldJump with
      | false => rfl
      | true =>
        rcases execute_sets_jump rfl hex hb with h | ⟨_, _, _, h⟩ | ⟨h, _⟩ <;>
          rcases hstmt with rfl | ⟨_, _, rfl⟩ | ⟨_, rfl⟩ | ⟨_, rfl⟩ <;> cases h
    have hent : m2.program.entries = m.program.entries :=
      stepOutcome_entries (by rw [hso]; rfl)
    unfold runStep
    rw [hso]
    simp only [hnj]
    rw [getNextLineNumber_congr hent]
    rfl

/-- C18 at the program `10 GOTO 30`, `20 PRINT 1`, `30 PRINT 2`, `40 PRINT 3`: the pass on
line 30 starts with the registers the GOTO of line 10 left (jump requested, target
30), and goes on with line 40. -/
theorem registers_reset_before_each_statement_witness :
    runStep 10 gotoSkipPrint = .next 30 (withRegisters true 30 10 gotoSkipPrint) ∧
    gotoSkipPrint.program.getParsedStatement 30 = some (.PrintStmt (.Constant 2)) ∧
    stepOutcome 30 (withRegisters true 30 10 gotoSkipPrint) =
      .ok { resetRegisters 30 gotoSkipPrint with output := [.number 2] } ∧
    runStep 30 (withRegisters true 30 10 gotoSkipPrint) =
      .next ((withRegisters true 30 10 gotoSkipPrint).program.getNextLineNumber 30)
        { resetRegisters 30 gotoSkipPrint with output := [.number 2] } ∧
    (withRegisters true 30 10 gotoSkipPrint).program.getNextLineNumber 30 = 40 :=
  ⟨by decide, by decide, by decide,
    registers_reset_before_each_statement.2.2.2.2 30 (withRegisters true 30 10 gotoSkipPrint)
      { resetRegisters 30 gotoSkipPrint with output := [.number 2] }
      (.PrintStmt (.Constant 2)) (by decide) (by decide) (Or.inr (Or.inr (Or.inl ⟨_, rfl⟩))),
    by decide⟩

/-! ## The lines a RUN moves to -/

/-- C19: RUN moves to stored lines only. In every machine `m` the interpreter can
reach: (1) the line a RUN starts on is a stored line, unless the store is empty and
the RUN executes nothing; (2) when a pass of the loop on a machine with the store of
`m` goes on with a line, the store is still the one of `m`, and that line is either
the jump target the statement of the pass requested, which is stored with a text,
or the successor of the current line, which is stored with a text or is the end of
the program; (3) the line a RUN has arrived on after any number of passes is stored
with a text at that moment, or is the end of the program; (4) every line a RUN
executes is stored with a text. -/
theorem run_moves_only_to_stored_lines (m : Machine) (hm : Reachable m) :
    ((m.program.getFirstLineNumber = -1 ∧ m.program.entries = [] ∧
        ∀ fuel, runTrace fuel m.program.getFirstLineNumber m = []) ∨
      (m.program.hasLine m.program.getFirstLineNumber ∧
        m.program.getSourceLine m.program.getFirstLineNumber ≠ "")) ∧
    (∀ (cur line : Int) (m0 m2 : Machine), m0.program.entries = m.program.entries →
      runStep cur m0 = .next line m2 →
      m2.program.entries = m.program.entries ∧
      ((m2.program.shouldJump = true ∧ line = m2.program.jumpTarget ∧
          m2.program.hasLine line ∧ m2.program.getSourceLine line ≠ "") ∨
        (m2.program.shouldJump = false ∧ line = m2.program.getNextLineNumber cur ∧
          (line = -1 ∨
            (m2.program.hasLine line ∧ m2.program.getSourceLine line ≠ ""))))) ∧
    (∀ (pre : List Int) (k : Int) (mk : Machine),
      RunsTo m.program.getFirstLineNumber m pre k mk →
      mk.program.entries = m.program.entries ∧
      (k = -1 ∨ (mk.program.hasLine k ∧ mk.program.getSourceLine k ≠ ""))) ∧
    (∀ (fuel : Nat) (k : Int), k ∈ runTrace fuel m.program.getFirstLineNumber m →
      m.program.hasLine k ∧ m.program.getSourceLine k ≠ "") := by
  have hwf := hm.wf
  have hfirst : m.program.getFirstLineNumber = -1 ∨
      m.program.hasLine m.program.getFirstLineNumber :=
    (headLine_hasLine m.program).imp (fun h => h.1) id
  refine ⟨?_, ?_, ?_, ?_⟩
  · rcases headLine_hasLine m.program with ⟨h1, h2⟩ | h
    · exact Or.inl ⟨h1, h2, fun fuel => by rw [h1, runTrace_at_end]⟩
    · exact Or.inr ⟨h, getSourceLine_of_hasLine hwf h⟩
  · intro cur line m0 m2 h0 hstep
    have hent : m2.program.entries = m0.program.entries := runStep_next_entries hstep
    have hwf2 : m2.program.WF := (Reachable.sameStore m2 hm (hent.trans h0)).wf
    refine ⟨hent.trans h0, ?_⟩
    rcases runStep_next_hasLine hstep with ⟨h1, h2, h3⟩ | ⟨h1, h2, h3⟩
    · have hl : m2.program.hasLine line := (hasLine_congr hent line).mpr h3
      exact Or.inl ⟨h1, h2, hl, getSourceLine_of_hasLine hwf2 hl⟩
    · refine Or.inr ⟨h1, ?_, ?_⟩
      · rw [h2]; exact (getNextLineNumber_congr hent cur).symm
      · rcases h3 with h3 | h3
        · exact Or.inl h3
        · have hl : m2.program.hasLine line := (hasLine_congr hent line).mpr h3
          exact Or.inr ⟨hl, getSourceLine_of_hasLine hwf2 hl⟩
  · intro pre k mk hpath
    have hent := hpath.entries
    have hwfk : mk.program.WF := (Reachable.sameStore mk hm hent).wf
    refine ⟨hent, ?_⟩
    rcases (hpath.hasLine hfirst).1 with h | h
    · exact Or.inl h
    · have hl : mk.program.hasLine k := (hasLine_congr hent k).mpr h
      exact Or.inr ⟨hl, getSourceLine_of_hasLine hwfk hl⟩
  · intro fuel k hk
    have hl := runTrace_hasLine fuel _ m hfirst k hk
    exact ⟨hl, getSourceLine_of_hasLine hwf hl⟩

/-- C19 at the program `10 GOTO 20`, `20 FOO`, `30 PRINT 2`: RUN executes the lines 10,
20 and 30, each of them stored with its text. -/
theorem run_moves_only_to_stored_lines_witness :
    Reachable gotoFooPrint ∧
    runTrace 3 gotoFooPrint.program.getFirstLineNumber gotoFooPrint = [10, 20, 30] ∧
    ∀ k : Int, k ∈ runTrace 3 gotoFooPrint.program.getFirstLineNumber gotoFooPrint →
      gotoFooPrint.program.hasLine k ∧ gotoFooPrint.program.getSourceLine k ≠ "" :=
  ⟨reachable_gotoFooPrint, by decide,
    (run_moves_only_to_stored_lines gotoFooPrint reachable_gotoFooPrint).2.2.2 3⟩

/-! ## Programs without jumps -/

/-- C20: a program without GOTO, IF and INPUT terminates. In every machine the
interpreter can reach whose parsed statements are only REM, LET, PRINT and END, a RUN
line given fuel for as many passes as there are stored lines returns, normally or
with an error. The lines it executed are a beginning `done` of the store, in the
order of the store: strictly ascending by line number, none twice, and no more of
them than there are stored lines. It has stopped after the last stored line with
no END executed, or on the first END, or on a statement that failed, no END having
been executed before. -/
theorem sequential_program_run_terminates (m : Machine) (hm : Reachable m)
    (hseq : m.program.isSequential) (fuel : Nat) (hfuel : m.program.entries.length ≤ fuel)
    (line : InputLine) (tok : Token) (rest : List Token)
    (hl : line.tokens = tok :: rest) (hty : tok.type ≠ .NUMBER) (htx : tok.text = "RUN") :
    ∃ (done : List ProgramEntry) (o : Outcome), done <+: m.program.entries ∧
      processLine fuel line m = some o ∧
      runTrace fuel m.program.getFirstLineNumber m = done.map (fun e => e.lineNumber) ∧
      (runTrace fuel m.program.getFirstLineNumber m).Pairwise (fun a b => a < b) ∧
      (runTrace fuel m.program.getFirstLineNumber m).Nodup ∧
      (runTrace fuel m.program.getFirstLineNumber m).length ≤ m.program.entries.length ∧
      ((∃ m1, o = .ok m1 ∧ done = m.program.entries ∧
          ∀ e ∈ m.program.entries, e.parsed ≠ some .EndStmt) ∨
       (∃ m1 init e, o = .ok m1 ∧ done = init ++ [e] ∧ e.parsed = some .EndStmt ∧
          ∀ b ∈ init, b.parsed ≠ some .EndStmt) ∨
       (∃ err m1 init e stmt, o = .error err m1 ∧ done = init ++ [e] ∧
          e.parsed = some stmt ∧ execute stmt m1 = .error err m1 ∧
          ∀ b ∈ init, b.parsed ≠ some .EndStmt)) := by
  have hwf := hm.wf
  obtain ⟨done, o, h1, h2, h3, h4⟩ :=
    runLoop_sequential_suffix m.program.entries [] m fuel rfl hwf.1
      (fun e he => (hwf.2 e he).1) hseq hfuel
  have hfirst : m.program.getFirstLineNumber = headLine m.program.entries := rfl
  have hpw : (done.map (fun e => e.lineNumber)).Pairwise (fun a b => a < b) := by
    rw [List.pairwise_map]
    exact hwf.1.sublist h1.sublist
  refine ⟨done, o, h1, ?_, ?_, ?_, ?_, ?_, h4⟩
  · rw [processLine_run hl hty htx]; exact h2
  · rw [hfirst]; exact h3
  · rw [hfirst, h3]; exact hpw
  · rw [hfirst, h3]
    exact hpw.imp (fun h => ne_of_lt h)
  · rw [hfirst, h3, List.length_map]
    exact h1.length_le

/-- C20 at the program `10 LET X = 1`, `20 PRINT X`, `30 END`, `40 PRINT 2`: RUN returns
with fuel 4 and has executed no more than the four stored lines, in ascending
order. -/
theorem sequential_program_run_terminates_witness :
    Reachable letPrintEndPrint ∧ letPrintEndPrint.program.isSequential ∧
    letPrintEndPrint.program.entries.length ≤ 4 ∧
    runTrace 4 letPrintEndPrint.program.getFirstLineNumber letPrintEndPrint = [10, 20, 30] ∧
    ∃ (done : List ProgramEntry) (o : Outcome), done <+: letPrintEndPrint.program.entries ∧
      processLine 4 runLine letPrintEndPrint = some o ∧
      runTrace 4 letPrintEndPrint.program.getFirstLineNumber letPrintEndPrint =
        done.map (fun e => e.lineNumber) :=
  have h := sequential_program_run_terminates letPrintEndPrint reachable_letPrintEndPrint
    isSequential_letPrintEndPrint 4 (by decide) runLine (wordToken "RUN") [] rfl (by decide)
    rfl
  ⟨reachable_letPrintEndPrint, isSequential_letPrintEndPrint, by decide, by decide,
    h.elim fun done hd => hd.elim fun o ho => ⟨done, o, ho.1, ho.2.1, ho.2.2.1⟩⟩

end Basic
